import Mathlib

/-!
Verification of the text-extraction core of the UPSC prep repository.

The embedding models the two extractors over `Str := List Char`:

* the MCQ-response parser (functions `parseMCQResponse` and
  `extractOption` of the source), translated operation by operation, with
  each JavaScript regular expression replaced by an operational scanner
  that reproduces the regex engine leftmost-match and backtracking
  behaviour for that concrete pattern;
* the HTML block extractor (`parseHtmlToBlocks`) and the sanitizer
  (`extractMainContent`), translated the same way.
-/

set_option maxRecDepth 100000

namespace Upsc

abbrev Str := List Char

/-- ASCII lower-casing, the case folding relevant to the `i` regex flag on
ASCII patterns (non-ASCII characters never canonicalize to ASCII). -/
def lowerAscii (c : Char) : Char :=
  if 'A' ≤ c ∧ c ≤ 'Z' then Char.ofNat (c.toNat + 32) else c

/-- ASCII upper-casing, used where the source upper-cases a matched letter. -/
def upperAscii (c : Char) : Char :=
  if 'a' ≤ c ∧ c ≤ 'z' then Char.ofNat (c.toNat - 32) else c

/-- The JavaScript whitespace class (regex backslash-s). -/
def isJsWs (c : Char) : Bool :=
  c == ' ' || c == '\t' || c == '\n' || c == '\x0b' || c == '\x0c' ||
  c == '\r' || c == '\u00A0' || c == '\u1680' ||
  (decide ('\u2000' ≤ c ∧ c ≤ '\u200A')) ||
  c == '\u2028' || c == '\u2029' || c == '\u202F' || c == '\u205F' ||
  c == '\u3000' || c == '\uFEFF'

/-- The JavaScript digit class (regex backslash-d). -/
def isDigitCh (c : Char) : Bool := decide ('0' ≤ c ∧ c ≤ '9')

/-- The JavaScript dot class (without the s flag): any character except a
line terminator. -/
def isDotCh (c : Char) : Bool :=
  !(c == '\n' || c == '\r' || c == '\u2028' || c == '\u2029')

/-- Model of the JavaScript string trim method: strip whitespace from both
ends. -/
def trimStr (l : Str) : Str :=
  ((l.dropWhile isJsWs).reverse.dropWhile isJsWs).reverse

/-- Case-insensitively strip a literal pattern from the front of the text,
returning the rest on success. -/
def ciStrip : Str → Str → Option Str
  | [], l => some l
  | _ :: _, [] => none
  | p :: ps, c :: cs => if lowerAscii c = lowerAscii p then ciStrip ps cs else none

/-- Leftmost-match scan: try the positional matcher at every position from
the left, returning the text before the first position where it succeeds
together with the matcher result.  This is how a JavaScript regex engine
locates a match. -/
def scanFirst (m : Str → Option α) : Str → Option (Str × α)
  | [] =>
    match m [] with
    | some a => some ([], a)
    | none => none
  | c :: t =>
    match m (c :: t) with
    | some a => some ([], a)
    | none =>
      match scanFirst m t with
      | some (p, a) => some (c :: p, a)
      | none => none

/-- Decimal value of a digit string, as computed by parseInt on a string
of digits. -/
def natOfDigits (l : Str) : Nat :=
  l.foldl (fun n c => n * 10 + (c.toNat - 48)) 0

/-! ## The question segmenter

The source splits the content on the pattern: the literal word Question
(case-insensitive), one or more whitespace characters, one or more digits
(captured), optional whitespace, then a colon.  Every quantifier here is
forced, so the match is deterministic. -/

/-- Positional matcher for the segmentation regex.  On success returns
the matched text, the captured digits, and the rest. -/
def matchMarkerAt (l : Str) : Option (Str × Str × Str) :=
  match ciStrip ("question".toList) l with
  | none => none
  | some r1 =>
    let w1 := r1.takeWhile isJsWs
    let r2 := r1.dropWhile isJsWs
    if w1 = [] then none
    else
      let ds := r2.takeWhile isDigitCh
      let r3 := r2.dropWhile isDigitCh
      if ds = [] then none
      else
        match r3.dropWhile isJsWs with
        | ':' :: r5 => some (l.take (l.length - r5.length), ds, r5)
        | _ => none

/-- Loop of the split-with-capture: after one marker has been found,
repeatedly locate the next marker; the text in between is the body of the
previous marker.  Fuel bounds the number of iterations. -/
def splitQLoop : Nat → Str → Str → Str → List (Str × Str × Str)
  | 0, m, ds, rest => [(m, ds, rest)]
  | fuel + 1, m, ds, rest =>
    match scanFirst matchMarkerAt rest with
    | none => [(m, ds, rest)]
    | some (pre, m', ds', r') => (m, ds, pre) :: splitQLoop fuel m' ds' r'

/-- The split of the content on the question-marker regex, paired with the
iteration order of the parser loop: the preamble before the first marker,
and one triple (matched marker text, digit capture, body) per marker. -/
def splitQFull (content : Str) : Str × List (Str × Str × Str) :=
  match scanFirst matchMarkerAt content with
  | none => (content, [])
  | some (pre, m, ds, r) => (pre, splitQLoop r.length m ds r)

/-- The pairs (digits, body) the parser loop actually consumes. -/
def splitQuestions (content : Str) : Str × List (Str × Str) :=
  ((splitQFull content).1, (splitQFull content).2.map (fun e => (e.2.1, e.2.2)))

/-! ## Field extraction from one segment body -/

/-- Lookahead of the stem regex: a newline, then a maximal whitespace run,
then the letter A (case-insensitively) followed by a dot. -/
def stemBoundary (rest : Str) : Bool :=
  match rest with
  | '\n' :: t =>
    match t.dropWhile isJsWs with
    | a :: '.' :: _ => lowerAscii a = 'a'
    | _ => false
  | _ => false

/-- Lazy scan of the stem capture: extend the capture one character at a
time until the lookahead holds. -/
def stemScanGo (acc : Str) : Str → Option Str
  | [] => none
  | c :: t =>
    if stemBoundary (c :: t) then some acc.reverse
    else stemScanGo (c :: acc) t

/-- The anchored stem match of the source: capture of at least one
character from the start of the body, shortest capture whose following
text satisfies the lookahead. -/
def extractStem (body : Str) : Option Str :=
  match body with
  | [] => none
  | c :: t => stemScanGo [c] t

/-- Lookahead of option pattern 1, for successor literal `nl`: newline,
maximal whitespace run, the literal (case-insensitively), then a dot. -/
def optBoundary (nl : Str) (rest : Str) : Bool :=
  match rest with
  | '\n' :: t =>
    match ciStrip nl (t.dropWhile isJsWs) with
    | some ('.' :: _) => true
    | _ => false
  | _ => false

/-- Lazy capture scan of option pattern 1 against `optBoundary`. -/
def p1Go (nl : Str) (acc : Str) : Str → Option Str
  | [] => none
  | c :: t =>
    if optBoundary nl (c :: t) then some acc.reverse
    else p1Go nl (c :: acc) t

/-- Try to match the capture-plus-lookahead of option pattern 1 from a
given group start position. -/
def p1Body (nl : Str) : Str → Option Str
  | [] => none
  | c :: t => p1Go nl [c] t

/-- Backtracking of the greedy whitespace quantifier that precedes the
lazy group in option pattern 1: try the group start after the whole
whitespace run first, then hand characters of the run back one at a time
(`rws` is the unconsumed run, reversed). -/
def p1TryW (nl : Str) : Str → Str → Option Str
  | [], gs => p1Body nl gs
  | c :: rws, gs =>
    match p1Body nl gs with
    | some cap => some cap
    | none => p1TryW nl rws (c :: gs)

/-- Positional matcher for option pattern 1: the letter, a dot, greedy
whitespace, then a lazy capture bounded by `optBoundary`. -/
def matchP1 (L : Char) (nl : Str) (s : Str) : Option Str :=
  match s with
  | a :: '.' :: rest =>
    if lowerAscii a = lowerAscii L then
      p1TryW nl (rest.takeWhile isJsWs).reverse (rest.dropWhile isJsWs)
    else none
  | _ => none

/-- Lazy capture scan of option pattern 2: extend through dot-class
characters, succeed when the next character is a newline. -/
def p2Go (acc : Str) : Str → Option Str
  | [] => none
  | c :: t =>
    if c = '\n' then some acc.reverse
    else if isDotCh c then p2Go (c :: acc) t
    else none

/-- Capture of option pattern 2 from a given group start: the first
character must itself match the dot class. -/
def p2Body : Str → Option Str
  | [] => none
  | c :: t => if isDotCh c then p2Go [c] t else none

/-- Greedy-whitespace backtracking for option pattern 2, as in `p1TryW`. -/
def p2TryW : Str → Str → Option Str
  | [], gs => p2Body gs
  | c :: rws, gs =>
    match p2Body gs with
    | some cap => some cap
    | none => p2TryW rws (c :: gs)

/-- Positional matcher for option pattern 2: the letter, a dot, greedy
whitespace, then a lazy line-bounded capture. -/
def matchP2 (L : Char) (s : Str) : Option Str :=
  match s with
  | a :: '.' :: rest =>
    if lowerAscii a = lowerAscii L then
      p2TryW (rest.takeWhile isJsWs).reverse (rest.dropWhile isJsWs)
    else none
  | _ => none

/-- Model of splitting a string on the newline character. -/
def splitLines : Str → List Str
  | [] => [[]]
  | c :: t =>
    if c = '\n' then [] :: splitLines t
    else
      match splitLines t with
      | [] => [[c]]
      | ln :: rest => (c :: ln) :: rest

/-- Test of the fallback line scan: the trimmed line starts with the
letter followed by a dot, case-insensitively. -/
def lineIsOpt (L : Char) (line : Str) : Bool :=
  match trimStr line with
  | a :: '.' :: _ => lowerAscii a = lowerAscii L
  | _ => false

/-- The replace step of the fallback line scan: the anchored pattern
removes the letter, the dot and following whitespace only when the raw
(untrimmed) line starts with them. -/
def dropOptMark (L : Char) (line : Str) : Str :=
  match line with
  | a :: '.' :: rest =>
    if lowerAscii a = lowerAscii L then rest.dropWhile isJsWs else a :: '.' :: rest
  | _ => line

/-- The final fallback of option extraction: scan the lines for the first
whose trimmed form starts with the letter and a dot. -/
def fallbackOption (L : Char) : List Str → Option Str
  | [] => none
  | ln :: rest =>
    if lineIsOpt L ln then some (trimStr (dropOptMark L ln))
    else fallbackOption L rest

/-- Function extractOption of the source: pattern 1, then pattern 2 (each
used only when its capture is non-empty, which is automatic here since
both captures contain at least one character), then the line-scan
fallback, else the empty string. -/
def extractOption (content : Str) (L : Char) (nl : Str) : Str :=
  match scanFirst (matchP1 L nl) content with
  | some (_, cap) => trimStr cap
  | none =>
    match scanFirst (matchP2 L) content with
    | some (_, cap) => trimStr cap
    | none =>
      match fallbackOption L (splitLines content) with
      | some v => v
      | none => []

/-! ## Correct answer and explanation -/

/-- The character class containing a colon and the whitespace class. -/
def isWsColon (c : Char) : Bool := isJsWs c || c == ':'

/-- The class of the four answer letters under the case-insensitive flag. -/
def letterAD (c : Char) : Bool :=
  c == 'A' || c == 'B' || c == 'C' || c == 'D' ||
  c == 'a' || c == 'b' || c == 'c' || c == 'd'

/-- Positional matcher for the correct-answer regex: the word Correct,
whitespace, the word Answer, a run of whitespace or colons, then a letter
A to D, all case-insensitive; the capture is upper-cased as in the source.
All quantifiers are forced (no whitespace or colon can satisfy the
following literal or class), so the match is deterministic. -/
def matchCorrect (s : Str) : Option Char :=
  match ciStrip ("correct".toList) s with
  | none => none
  | some r1 =>
    match ciStrip ("answer".toList) (r1.dropWhile isJsWs) with
    | none => none
    | some r3 =>
      match r3.dropWhile isWsColon with
      | c :: _ => if letterAD c then some (upperAscii c) else none
      | [] => none

/-- Lookahead closing the explanation capture: end of input, or a newline
followed only by whitespace. -/
def explStop (rest : Str) : Bool :=
  match rest with
  | [] => true
  | '\n' :: t => t.all isJsWs
  | _ => false

/-- Lazy capture scan of the explanation; `explStop` holds at the end of
input, so this always succeeds. -/
def explGo (acc : Str) : Str → Str
  | [] => acc.reverse
  | c :: t =>
    if explStop (c :: t) then acc.reverse
    else explGo (c :: acc) t

/-- Positional matcher for the explanation regex: the word Explanation, a
run of whitespace or colons, then a mandatory lazy capture up to
`explStop`.  When the separator run reaches the end of the input the
engine backtracks the greedy run by one character so that the mandatory
capture gets that character, and the end-of-input lookahead then holds. -/
def matchExpl (s : Str) : Option Str :=
  match ciStrip ("explanation".toList) s with
  | none => none
  | some r1 =>
    match r1.dropWhile isWsColon with
    | c :: t => some (explGo [c] t)
    | [] =>
      match (r1.takeWhile isWsColon).reverse with
      | c :: _ => some [c]
      | [] => none

/-! ## Record assembly -/

structure MCQ where
  id : Nat
  question : Str
  optionA : Str
  optionB : Str
  optionC : Str
  optionD : Str
  correctAnswer : Str
  explanation : Str
deriving DecidableEq

/-- The correct-answer value of a segment: the upper-cased capture of the
first correct-answer match, with the letter A as the default. -/
def caOf (body : Str) : Str :=
  match scanFirst matchCorrect body with
  | some (_, c) => [c]
  | none => ['A']

/-- The explanation value of a segment: the trimmed capture of the first
explanation match, with a synthesized sentence as the default. -/
def exOf (body : Str) : Str :=
  match scanFirst matchExpl body with
  | some (_, cap) => trimStr cap
  | none => ("The correct answer is ".toList) ++ caOf body ++ ['.']

/-- The body of the per-segment loop of parseMCQResponse: everything from
the minimum-length guard to the record push, returning none where the
source does continue. -/
def parseSegment (ds : Str) (body : Str) : Option MCQ :=
  if body.length < 50 then none
  else
    match extractStem body with
    | none => none
    | some stem =>
      let question := trimStr stem
      if question.length < 10 then none
      else
        let oA := extractOption body 'A' ['B']
        let oB := extractOption body 'B' ['C']
        let oC := extractOption body 'C' ['D']
        let oD := extractOption body 'D' ("Correct".toList)
        if oA = [] ∨ oB = [] ∨ oC = [] ∨ oD = [] then none
        else
          some
            { id := natOfDigits ds, question := question,
              optionA := oA, optionB := oB, optionC := oC, optionD := oD,
              correctAnswer := caOf body, explanation := exOf body }

/-- Function parseMCQResponse of the source. -/
def parseMCQResponse (content : Str) : List MCQ :=
  ((splitQuestions content).2).filterMap (fun p => parseSegment p.1 p.2)

/-! ## HTML side: global replacement machinery

The replace and match-all loops of the source advance through the string,
taking the leftmost match each time and continuing after its end.  Every
matcher below consumes at least one character, so fuel equal to the string
length suffices. -/

/-- Global replace-with-empty: drop the leftmost match (a positional
matcher returning the text after the match) and continue on the rest. -/
def replaceGo (m : Str → Option Str) : Nat → Str → Str
  | 0, l => l
  | fuel + 1, l =>
    match scanFirst m l with
    | none => l
    | some (pre, rest) => pre ++ replaceGo m fuel rest

/-- Model of a global replace with the empty string. -/
def replaceAll (m : Str → Option Str) (l : Str) : Str := replaceGo m l.length l

/-- Global match-all: collect the payload of each successive leftmost
match. -/
def collectAll (m : Str → Option (α × Str)) : Nat → Str → List α
  | 0, _ => []
  | fuel + 1, l =>
    match scanFirst m l with
    | none => []
    | some (_, a, rest) => a :: collectAll m fuel rest

/-- The regex word-character class, for word boundaries. -/
def wordCh (c : Char) : Bool :=
  isDigitCh c || decide ('a' ≤ c ∧ c ≤ 'z') || decide ('A' ≤ c ∧ c ≤ 'Z') || c == '_'

/-- Matcher for a tag-delimited marker: an opening angle bracket, at least
one character that is not a closing angle bracket, then a closing angle
bracket.  Used by the global tag-stripping replace. -/
def tagMatcher (s : Str) : Option Str :=
  match s with
  | '<' :: t =>
    match t.takeWhile (· != '>'), t.dropWhile (· != '>') with
    | [], _ => none
    | _ :: _, '>' :: r => some r
    | _, _ => none
  | _ => none

/-- Model of removing every tag-delimited marker from a fragment. -/
def stripTags (l : Str) : Str := replaceAll tagMatcher l

/-- Matcher for the script and style removal patterns: the opening tag
name at a word boundary, then everything up to and including the first
matching closing tag (the chunked inner expression of the source pattern
admits exactly the text up to the first closing tag). -/
def tagBlockMatcher (tag : Str) (s : Str) : Option Str :=
  match ciStrip ('<' :: tag) s with
  | none => none
  | some r =>
    if (match r with | c :: _ => wordCh c | [] => false) then none
    else
      match scanFirst (ciStrip ('<' :: '/' :: tag ++ ['>'])) r with
      | some (_, rest) => some rest
      | none => none

/-- Matcher for the nav, header, footer and aside removal patterns: the
opening tag name at a word boundary, any characters other than a closing
angle bracket, the closing angle bracket, then a lazy body up to the first
matching closing tag. -/
def navBlockMatcher (tag : Str) (s : Str) : Option Str :=
  match ciStrip ('<' :: tag) s with
  | none => none
  | some r =>
    if (match r with | c :: _ => wordCh c | [] => false) then none
    else
      match r.dropWhile (· != '>') with
      | '>' :: r2 =>
        match scanFirst (ciStrip ('<' :: '/' :: tag ++ ['>'])) r2 with
        | some (_, rest) => some rest
        | none => none
      | _ => none

/-- Matcher for the HTML comment pattern: the comment opener, then a lazy
body up to the first comment closer. -/
def commentMatcher (s : Str) : Option Str :=
  match ciStrip ("<!--".toList) s with
  | none => none
  | some r =>
    match scanFirst (ciStrip ("-->".toList)) r with
    | some (_, rest) => some rest
    | none => none

/-- The boilerplate class vocabulary of the div removal pattern. -/
def boilerTokens : List Str :=
  [("sidebar".toList), ("advertisement".toList), ("ads".toList),
   ("comments".toList), ("related".toList), ("social".toList),
   ("share".toList)]

/-- Containment of one of the boilerplate tokens, matched
case-insensitively as the i flag of the div pattern prescribes. -/
def hasTokenCI : Str → Bool
  | [] => false
  | c :: t => boilerTokens.any (fun tok => (ciStrip tok (c :: t)).isSome) || hasTokenCI t

/-- Continuation of the div matcher once the class-attribute opener has
been chosen: a quote-free region that must contain a boilerplate token,
the closing quote, the rest of the opening tag, then a lazy body up to the
first closing div tag. -/
def divClassTail (s : Str) : Option Str :=
  let region := s.takeWhile (· != '"')
  match s.dropWhile (· != '"') with
  | '"' :: r2 =>
    if hasTokenCI region then
      match r2.dropWhile (· != '>') with
      | '>' :: r3 =>
        match scanFirst (ciStrip ("</div>".toList)) r3 with
        | some (_, rest) => some rest
        | none => none
      | _ => none
    else none
  | _ => none

/-- Backtracking of the greedy bracket-free run before the class-attribute
opener of the div pattern: candidate positions for the opener are tried
from the latest to the earliest (`rws` is the unconsumed part of the run,
reversed). -/
def divTryClass : Str → Str → Option Str
  | [], suffix => (ciStrip ("class=\"".toList) suffix).bind divClassTail
  | c :: rws, suffix =>
    match (ciStrip ("class=\"".toList) suffix).bind divClassTail with
    | some rest => some rest
    | none => divTryClass rws (c :: suffix)

/-- Matcher for the boilerplate div removal pattern. -/
def divMatcher (s : Str) : Option Str :=
  match ciStrip ("<div".toList) s with
  | none => none
  | some r => divTryClass (r.takeWhile (· != '>')).reverse (r.dropWhile (· != '>'))

/-- Matcher for the article and main selection patterns (no word
boundary in the source pattern): the opening tag, any characters other
than a closing angle bracket, the closing angle bracket, then a lazy
captured body up to the first matching closing tag. -/
def wrapMatcher (tag : Str) (s : Str) : Option Str :=
  match ciStrip ('<' :: tag) s with
  | none => none
  | some r =>
    match r.dropWhile (· != '>') with
    | '>' :: r2 =>
      match scanFirst (ciStrip ('<' :: '/' :: tag ++ ['>'])) r2 with
      | some (inner, _) => some inner
      | none => none
    | _ => none

/-- Function extractMainContent of the source: remove the nav, header,
footer, aside, boilerplate-div and comment spans in that order, then
select the first article body, else the first main body, else the cleaned
remainder. -/
def extractMainContent (html : Str) : Str :=
  let c1 := replaceAll (navBlockMatcher ("nav".toList)) html
  let c2 := replaceAll (navBlockMatcher ("header".toList)) c1
  let c3 := replaceAll (navBlockMatcher ("footer".toList)) c2
  let c4 := replaceAll (navBlockMatcher ("aside".toList)) c3
  let c5 := replaceAll divMatcher c4
  let c6 := replaceAll commentMatcher c5
  match scanFirst (wrapMatcher ("article".toList)) c6 with
  | some (_, body) => body
  | none =>
    match scanFirst (wrapMatcher ("main".toList)) c6 with
    | some (_, body) => body
    | none => c6

/-! ## HTML block extraction -/

structure Block where
  type : Str
  content : Str
  level : Option Nat := none
  items : Option (List Str) := none
deriving DecidableEq

/-- The script and style removal at the top of parseHtmlToBlocks. -/
def cleanHtmlStr (html : Str) : Str :=
  replaceAll (tagBlockMatcher ("style".toList))
    (replaceAll (tagBlockMatcher ("script".toList)) html)

/-- Matcher for the heading pattern: an opening heading tag with a level
digit from one to six, attributes, then a lazy captured body up to the
first closing tag with the same digit. -/
def headingMatcher (s : Str) : Option ((Nat × Str) × Str) :=
  match ciStrip ("<h".toList) s with
  | some (d :: r1) =>
    if decide ('1' ≤ d ∧ d ≤ '6') then
      match r1.dropWhile (· != '>') with
      | '>' :: r2 =>
        match scanFirst (ciStrip ('<' :: '/' :: 'h' :: d :: ['>'])) r2 with
        | some (inner, rest) => some ((d.toNat - 48, inner), rest)
        | none => none
      | _ => none
    else none
  | _ => none

/-- Matcher for the paragraph pattern. -/
def paraMatcher (s : Str) : Option (Str × Str) :=
  match ciStrip ("<p".toList) s with
  | none => none
  | some r =>
    match r.dropWhile (· != '>') with
    | '>' :: r2 =>
      match scanFirst (ciStrip ("</p>".toList)) r2 with
      | some (inner, rest) => some (inner, rest)
      | none => none
    | _ => none

/-- Matcher for the blockquote pattern. -/
def quoteMatcher (s : Str) : Option (Str × Str) :=
  match ciStrip ("<blockquote".toList) s with
  | none => none
  | some r =>
    match r.dropWhile (· != '>') with
    | '>' :: r2 =>
      match scanFirst (ciStrip ("</blockquote>".toList)) r2 with
      | some (inner, rest) => some (inner, rest)
      | none => none
    | _ => none

/-- Shared continuation of the list matcher after the alternation chose
the unordered or ordered opening tag. -/
def listTail (isOl : Bool) (r : Str) : Option ((Bool × Str) × Str) :=
  match r.dropWhile (· != '>') with
  | '>' :: r2 =>
    match scanFirst
        (ciStrip (if isOl then ("</ol>".toList) else ("</ul>".toList))) r2 with
    | some (inner, rest) => some ((isOl, inner), rest)
    | none => none
  | _ => none

/-- Matcher for the list pattern, with the alternation trying the
unordered tag first as written in the source pattern. -/
def listMatcher (s : Str) : Option ((Bool × Str) × Str) :=
  match ciStrip ("<ul".toList) s with
  | some r => listTail false r
  | none =>
    match ciStrip ("<ol".toList) s with
    | some r => listTail true r
    | none => none

/-- Matcher for the list-item pattern; the payload is the full matched
text, as the global string match of the source returns. -/
def liMatcher (s : Str) : Option (Str × Str) :=
  match ciStrip ("<li".toList) s with
  | none => none
  | some r =>
    match r.dropWhile (· != '>') with
    | '>' :: r2 =>
      match scanFirst (ciStrip ("</li>".toList)) r2 with
      | some (_, rest) => some (s.take (s.length - rest.length), rest)
      | none => none
    | _ => none

/-- Model of joining strings with a comma and a space. -/
def joinComma : List Str → Str
  | [] => []
  | [x] => x
  | x :: y :: xs => x ++ (", ".toList) ++ joinComma (y :: xs)

/-- The heading extraction loop of parseHtmlToBlocks. -/
def headingBlocks (ch : Str) : List Block :=
  (collectAll headingMatcher (ch.length + 1) ch).filterMap (fun p =>
    let content := trimStr (stripTags p.2)
    if content = [] then none
    else some { type := ("heading".toList), content := content, level := some p.1 })

/-- The paragraph extraction loop of parseHtmlToBlocks. -/
def paragraphBlocks (ch : Str) : List Block :=
  (collectAll paraMatcher (ch.length + 1) ch).filterMap (fun inner =>
    let content := trimStr (stripTags inner)
    if content.length > 20 then some { type := ("paragraph".toList), content := content }
    else none)

/-- The list extraction loop of parseHtmlToBlocks. -/
def listBlocks (ch : Str) : List Block :=
  (collectAll listMatcher (ch.length + 1) ch).filterMap (fun p =>
    let items := ((collectAll liMatcher (p.2.length + 1) p.2).map
      (fun it => trimStr (stripTags it))).filter (fun it => it ≠ [])
    if items = [] then none
    else some
      { type := if p.1 then ("ordered-list".toList) else ("unordered-list".toList),
        content := joinComma items, items := some items })

/-- The blockquote extraction loop of parseHtmlToBlocks. -/
def quoteBlocks (ch : Str) : List Block :=
  (collectAll quoteMatcher (ch.length + 1) ch).filterMap (fun inner =>
    let content := trimStr (stripTags inner)
    if content = [] then none
    else some { type := ("quote".toList), content := content })

/-- Function parseHtmlToBlocks of the source: clean, then run the four
extraction loops in order, pushing into one output array. -/
def parseHtmlToBlocks (html : Str) : List Block :=
  headingBlocks (cleanHtmlStr html) ++ paragraphBlocks (cleanHtmlStr html) ++
  listBlocks (cleanHtmlStr html) ++ quoteBlocks (cleanHtmlStr html)

/-! ## Generic lemmas about the scanning machinery -/

/-- Case-insensitive equality of two character lists. -/
def ciEqStr : Str → Str → Bool
  | [], [] => true
  | a :: as, b :: bs => (lowerAscii a == lowerAscii b) && ciEqStr as bs
  | _, _ => false

theorem ciEqStr_length : ∀ {p q : Str}, ciEqStr p q = true → p.length = q.length := by
  intro p
  induction p with
  | nil => intro q h; cases q with
    | nil => rfl
    | cons b bs => simp [ciEqStr] at h
  | cons a as ih =>
    intro q h
    cases q with
    | nil => simp [ciEqStr] at h
    | cons b bs =>
      simp only [ciEqStr, Bool.and_eq_true] at h
      simp [List.length_cons, ih h.2]

theorem ciStrip_eq_some_iff {pat l r : Str} :
    ciStrip pat l = some r ↔ ∃ p, l = p ++ r ∧ ciEqStr p pat = true := by
  induction pat generalizing l with
  | nil =>
    constructor
    · intro h
      refine ⟨[], ?_, rfl⟩
      simp only [ciStrip, Option.some.injEq] at h
      simpa using h
    · rintro ⟨p, hl, hp⟩
      cases p with
      | nil => simp only [List.nil_append] at hl; simp [ciStrip, hl]
      | cons a as => simp [ciEqStr] at hp
  | cons q qs ih =>
    cases l with
    | nil =>
      constructor
      · intro h; simp [ciStrip] at h
      · rintro ⟨p, hl, hp⟩
        cases p with
        | nil => simp [ciEqStr] at hp
        | cons a as => simp at hl
    | cons c cs =>
      constructor
      · intro h
        simp only [ciStrip] at h
        by_cases hc : lowerAscii c = lowerAscii q
        · rw [if_pos hc] at h
          obtain ⟨p, hcs, hp⟩ := ih.mp h
          exact ⟨c :: p, by simp [hcs], by simp [ciEqStr, hc, hp]⟩
        · rw [if_neg hc] at h; cases h
      · rintro ⟨p, hl, hp⟩
        cases p with
        | nil => simp [ciEqStr] at hp
        | cons a as =>
          simp only [ciEqStr, Bool.and_eq_true, beq_iff_eq] at hp
          simp only [List.cons_append, List.cons.injEq] at hl
          obtain ⟨rfl, hcs⟩ := hl
          simp only [ciStrip, if_pos hp.1]
          exact ih.mpr ⟨as, hcs, hp.2⟩

theorem ciStrip_self_append (pat r : Str) : ciStrip pat (pat ++ r) = some r :=
  ciStrip_eq_some_iff.mpr ⟨pat, rfl, by
    induction pat with
    | nil => rfl
    | cons a as ih => simp [ciEqStr, ih]⟩

theorem scanFirst_some_decomp {m : Str → Option α} :
    ∀ {l : Str} {p : Str} {a : α}, scanFirst m l = some (p, a) →
      ∃ s, l = p ++ s ∧ m s = some a := by
  intro l
  induction l with
  | nil =>
    intro p a h
    simp only [scanFirst] at h
    cases h0 : m [] with
    | none => rw [h0] at h; cases h
    | some a' =>
      rw [h0] at h
      cases h
      exact ⟨[], rfl, h0⟩
  | cons c t ih =>
    intro p a h
    simp only [scanFirst] at h
    cases h0 : m (c :: t) with
    | some a' =>
      rw [h0] at h
      cases h
      exact ⟨c :: t, rfl, h0⟩
    | none =>
      rw [h0] at h
      cases h1 : scanFirst m t with
      | none => rw [h1] at h; cases h
      | some q =>
        rw [h1] at h
        cases q with
        | mk p' a' =>
          cases h
          obtain ⟨s, hts, hms⟩ := ih h1
          exact ⟨s, by simp [hts], hms⟩

theorem scanFirst_eq_none_iff {m : Str → Option α} :
    ∀ {l : Str}, scanFirst m l = none ↔ ∀ p s, l = p ++ s → m s = none := by
  intro l
  induction l with
  | nil =>
    constructor
    · intro h p s hps
      rcases List.append_eq_nil.mp hps.symm with ⟨rfl, rfl⟩
      simp only [scanFirst] at h
      cases h0 : m [] with
      | none => rfl
      | some a => rw [h0] at h; cases h
    · intro h
      simp only [scanFirst]
      rw [h [] [] rfl]
  | cons c t ih =>
    constructor
    · intro h p s hps
      simp only [scanFirst] at h
      cases h0 : m (c :: t) with
      | some a => rw [h0] at h; cases h
      | none =>
        rw [h0] at h
        cases p with
        | nil =>
          obtain rfl : s = c :: t := by simpa using hps.symm
          exact h0
        | cons c' p' =>
          simp only [List.cons_append, List.cons.injEq] at hps
          obtain ⟨rfl, hts⟩ := hps
          cases h1 : scanFirst m t with
          | none => exact ih.mp h1 p' s hts
          | some q => rw [h1] at h; cases q; cases h
    · intro h
      simp only [scanFirst]
      rw [h [] (c :: t) rfl]
      have ht : scanFirst m t = none :=
        ih.mpr (fun p s hps => h (c :: p) s (by simp [hps]))
      rw [ht]

theorem scanFirst_append_skip {m : Str → Option α} :
    ∀ {l r : Str}, (∀ p s, l = p ++ s → s ≠ [] → m (s ++ r) = none) →
      scanFirst m (l ++ r) =
        (scanFirst m r).map (fun q => (l ++ q.1, q.2)) := by
  intro l
  induction l with
  | nil =>
    intro r _
    cases h1 : scanFirst m r with
    | none => simp [h1]
    | some q => cases q; simp [h1]
  | cons c t ih =>
    intro r h
    have hct : m (c :: (t ++ r)) = none := h [] (c :: t) rfl (by simp)
    have ht := ih (fun p s hps hs => h (c :: p) s (by simp [hps]) hs)
    simp only [List.cons_append, scanFirst]
    cases h1 : scanFirst m r with
    | none => simp [hct, ht, h1]
    | some q => cases q; simp [hct, ht, h1]

theorem scanFirst_ne_none_of_decomp {m : Str → Option α} {l p s : Str} {a : α}
    (hl : l = p ++ s) (hm : m s = some a) : scanFirst m l ≠ none := by
  intro h
  rw [scanFirst_eq_none_iff.mp h p s hl] at hm
  cases hm

theorem takeWhile_append_all {p : Char → Bool} :
    ∀ {l r : Str}, (∀ c ∈ l, p c = true) →
      (l ++ r).takeWhile p = l ++ r.takeWhile p := by
  intro l
  induction l with
  | nil => intro r _; rfl
  | cons c t ih =>
    intro r h
    have hc : p c = true := h c (by simp)
    simp [List.takeWhile_cons, hc, ih (fun x hx => h x (by simp [hx]))]

theorem dropWhile_append_all {p : Char → Bool} :
    ∀ {l r : Str}, (∀ c ∈ l, p c = true) →
      (l ++ r).dropWhile p = r.dropWhile p := by
  intro l
  induction l with
  | nil => intro r _; rfl
  | cons c t ih =>
    intro r h
    have hc : p c = true := h c (by simp)
    simp [List.dropWhile_cons, hc, ih (fun x hx => h x (by simp [hx]))]

theorem takeWhile_cons_of_neg {p : Char → Bool} {c : Char} {t : Str}
    (h : p c = false) : (c :: t).takeWhile p = [] := by
  simp [List.takeWhile_cons, h]

theorem dropWhile_cons_of_neg {p : Char → Bool} {c : Char} {t : Str}
    (h : p c = false) : (c :: t).dropWhile p = c :: t := by
  simp [List.dropWhile_cons, h]

theorem length_filterMap_lt_of_none {f : α → Option β} :
    ∀ {l : List α}, (∃ a ∈ l, f a = none) →
      (l.filterMap f).length < l.length := by
  intro l
  induction l with
  | nil => rintro ⟨a, ha, -⟩; cases ha
  | cons x t ih =>
    rintro ⟨a, ha, hfa⟩
    rcases List.mem_cons.mp ha with rfl | hat
    · rw [List.filterMap_cons, hfa]
      exact Nat.lt_succ_of_le (List.length_filterMap_le f t)
    · rw [List.filterMap_cons]
      cases hfx : f x with
      | none => exact Nat.lt_succ_of_le (Nat.le_of_lt (ih ⟨a, hat, hfa⟩))
      | some b => simpa using Nat.succ_lt_succ (ih ⟨a, hat, hfa⟩)

/-! ## Dissection of the per-segment parser -/

theorem parseSegment_of_short {ds body : Str} (h50 : body.length < 50) :
    parseSegment ds body = none := by
  unfold parseSegment; rw [if_pos h50]

theorem parseSegment_of_nostem {ds body : Str} (h50 : ¬ body.length < 50)
    (hstem : extractStem body = none) : parseSegment ds body = none := by
  unfold parseSegment; rw [if_neg h50, hstem]

theorem parseSegment_of_shortstem {ds body stem : Str} (h50 : ¬ body.length < 50)
    (hstem : extractStem body = some stem) (h10 : (trimStr stem).length < 10) :
    parseSegment ds body = none := by
  unfold parseSegment
  rw [if_neg h50, hstem]
  simp only [if_pos h10]

theorem parseSegment_eval {ds body stem : Str} (h50 : ¬ body.length < 50)
    (hstem : extractStem body = some stem) (h10 : ¬ (trimStr stem).length < 10) :
    parseSegment ds body =
      (if extractOption body 'A' ['B'] = [] ∨ extractOption body 'B' ['C'] = [] ∨
          extractOption body 'C' ['D'] = [] ∨ extractOption body 'D' ("Correct".toList) = []
        then none
        else some
          { id := natOfDigits ds, question := trimStr stem,
            optionA := extractOption body 'A' ['B'],
            optionB := extractOption body 'B' ['C'],
            optionC := extractOption body 'C' ['D'],
            optionD := extractOption body 'D' ("Correct".toList),
            correctAnswer := caOf body, explanation := exOf body }) := by
  unfold parseSegment
  rw [if_neg h50, hstem]
  simp only [if_neg h10]

theorem parseSegment_eq_some_iff {ds body : Str} {r : MCQ} :
    parseSegment ds body = some r ↔
      50 ≤ body.length ∧
      ∃ stem, extractStem body = some stem ∧ 10 ≤ (trimStr stem).length ∧
        extractOption body 'A' ['B'] ≠ [] ∧ extractOption body 'B' ['C'] ≠ [] ∧
        extractOption body 'C' ['D'] ≠ [] ∧ extractOption body 'D' ("Correct".toList) ≠ [] ∧
        r = { id := natOfDigits ds, question := trimStr stem,
              optionA := extractOption body 'A' ['B'],
              optionB := extractOption body 'B' ['C'],
              optionC := extractOption body 'C' ['D'],
              optionD := extractOption body 'D' ("Correct".toList),
              correctAnswer := caOf body, explanation := exOf body } := by
  constructor
  · intro h
    by_cases h50 : body.length < 50
    · rw [parseSegment_of_short h50] at h; cases h
    · cases hstem : extractStem body with
      | none => rw [parseSegment_of_nostem h50 hstem] at h; cases h
      | some stem =>
        by_cases h10 : (trimStr stem).length < 10
        · rw [parseSegment_of_shortstem h50 hstem h10] at h; cases h
        · rw [parseSegment_eval h50 hstem h10] at h
          by_cases hopt : extractOption body 'A' ['B'] = [] ∨
              extractOption body 'B' ['C'] = [] ∨ extractOption body 'C' ['D'] = [] ∨
              extractOption body 'D' ("Correct".toList) = []
          · rw [if_pos hopt] at h; cases h
          · rw [if_neg hopt] at h
            push_neg at hopt
            exact ⟨Nat.le_of_not_lt h50, stem, rfl, Nat.le_of_not_lt h10,
              hopt.1, hopt.2.1, hopt.2.2.1, hopt.2.2.2, (Option.some.injEq _ _ ▸ h).symm⟩
  · rintro ⟨h50, stem, hstem, h10, hA, hB, hC, hD, rfl⟩
    rw [parseSegment_eval (Nat.not_lt.mpr h50) hstem (Nat.not_lt.mpr h10),
      if_neg (fun hc => by rcases hc with hc | hc | hc | hc
                           exacts [hA hc, hB hc, hC hc, hD hc])]

theorem parseSegment_eq_none_iff {ds body : Str} :
    parseSegment ds body = none ↔
      body.length < 50 ∨ extractStem body = none ∨
      (∃ stem, extractStem body = some stem ∧ (trimStr stem).length < 10) ∨
      extractOption body 'A' ['B'] = [] ∨ extractOption body 'B' ['C'] = [] ∨
      extractOption body 'C' ['D'] = [] ∨ extractOption body 'D' ("Correct".toList) = [] := by
  constructor
  · intro h
    by_cases h50 : body.length < 50
    · exact Or.inl h50
    · cases hstem : extractStem body with
      | none => exact Or.inr (Or.inl rfl)
      | some stem =>
        by_cases h10 : (trimStr stem).length < 10
        · exact Or.inr (Or.inr (Or.inl ⟨stem, rfl, h10⟩))
        · by_cases hopt : extractOption body 'A' ['B'] = [] ∨
              extractOption body 'B' ['C'] = [] ∨ extractOption body 'C' ['D'] = [] ∨
              extractOption body 'D' ("Correct".toList) = []
          · exact Or.inr (Or.inr (Or.inr hopt))
          · rw [parseSegment_eval h50 hstem h10, if_neg hopt] at h
            cases h
  · intro h
    by_cases h50 : body.length < 50
    · exact parseSegment_of_short h50
    · cases hstem : extractStem body with
      | none => exact parseSegment_of_nostem h50 hstem
      | some stem =>
        by_cases h10 : (trimStr stem).length < 10
        · exact parseSegment_of_shortstem h50 hstem h10
        · rw [parseSegment_eval h50 hstem h10]
          rcases h with h | h | ⟨stem', hstem', h10'⟩ | h | h | h | h
          · exact absurd h h50
          · rw [hstem] at h; cases h
          · rw [hstem] at hstem'
            cases hstem'
            exact absurd h10' h10
          · rw [if_pos (Or.inl h)]
          · rw [if_pos (Or.inr (Or.inl h))]
          · rw [if_pos (Or.inr (Or.inr (Or.inl h)))]
          · rw [if_pos (Or.inr (Or.inr (Or.inr h)))]

/-! ## Types of the blocks emitted by each extraction loop -/

theorem headingBlocks_type {ch : Str} {b : Block} (hb : b ∈ headingBlocks ch) :
    b.type = ("heading".toList) := by
  obtain ⟨a, -, ha⟩ := List.mem_filterMap.mp hb
  dsimp only at ha
  split at ha
  · cases ha
  · simp only [Option.some.injEq] at ha
    subst ha
    rfl

theorem paragraphBlocks_type {ch : Str} {b : Block} (hb : b ∈ paragraphBlocks ch) :
    b.type = ("paragraph".toList) := by
  obtain ⟨a, -, ha⟩ := List.mem_filterMap.mp hb
  dsimp only at ha
  split at ha
  · simp only [Option.some.injEq] at ha
    subst ha
    rfl
  · cases ha

theorem listBlocks_type {ch : Str} {b : Block} (hb : b ∈ listBlocks ch) :
    b.type = ("ordered-list".toList) ∨ b.type = ("unordered-list".toList) := by
  obtain ⟨a, -, ha⟩ := List.mem_filterMap.mp hb
  dsimp only at ha
  split at ha
  · cases ha
  · simp only [Option.some.injEq] at ha
    subst ha
    by_cases h1 : a.1
    · exact Or.inl (by simp [h1])
    · exact Or.inr (by simp [h1])

theorem quoteBlocks_type {ch : Str} {b : Block} (hb : b ∈ quoteBlocks ch) :
    b.type = ("quote".toList) := by
  obtain ⟨a, -, ha⟩ := List.mem_filterMap.mp hb
  dsimp only at ha
  split at ha
  · cases ha
  · simp only [Option.some.injEq] at ha
    subst ha
    rfl

/-- Interleaved heading, paragraph, heading input used to exhibit the
type-grouped output order. -/
def exMixedHtml : Str :=
  ("<h2>One heading</h2><p>interleaved paragraph longer than twenty</p><h2>Two heading</h2>").toList

/-- C1: parseHtmlToBlocks groups its output by block type, in the fixed
order headings, paragraphs, lists, quotes, regardless of document
position; in particular the interleaved heading-paragraph-heading input
yields both headings before the paragraph. -/
theorem html_blocks_grouped_by_type (html : Str) :
    parseHtmlToBlocks html =
      headingBlocks (cleanHtmlStr html) ++ paragraphBlocks (cleanHtmlStr html) ++
      listBlocks (cleanHtmlStr html) ++ quoteBlocks (cleanHtmlStr html) ∧
    (∀ b ∈ headingBlocks (cleanHtmlStr html), b.type = ("heading".toList)) ∧
    (∀ b ∈ paragraphBlocks (cleanHtmlStr html), b.type = ("paragraph".toList)) ∧
    (∀ b ∈ listBlocks (cleanHtmlStr html),
      b.type = ("ordered-list".toList) ∨ b.type = ("unordered-list".toList)) ∧
    (∀ b ∈ quoteBlocks (cleanHtmlStr html), b.type = ("quote".toList)) ∧
    (parseHtmlToBlocks exMixedHtml).map Block.type =
      [("heading".toList), ("heading".toList), ("paragraph".toList)] :=
  ⟨rfl, fun _ hb => headingBlocks_type hb, fun _ hb => paragraphBlocks_type hb,
   fun _ hb => listBlocks_type hb, fun _ hb => quoteBlocks_type hb, by decide⟩

/-- Witness for the quantified parts of the grouping theorem, at the
interleaved example and its first emitted block. -/
theorem html_blocks_grouped_by_type_witness :
    (Block.mk ("heading".toList) ("One heading".toList) (some 2) none).type =
      ("heading".toList) :=
  (html_blocks_grouped_by_type exMixedHtml).2.1
    (Block.mk ("heading".toList) ("One heading".toList) (some 2) none) (by decide)

/-- Two-segment response whose second segment jumps from option B to
option D, so option C extracts as empty. -/
def exMissingC : Str :=
  ("Intro text\nQuestion 1: What is the capital city of France, a country in Europe?\nA. Paris\nB. London\nC. Rome\nD. Berlin\nCorrect Answer: A\nExplanation: Geography.\nQuestion 2: Which planet is known as the red planet in our solar system?\nA. Venus\nB. Jupiter\nD. Mars\nCorrect Answer: D\nExplanation: Mars is red.").toList

/-- The body of the second segment of `exMissingC`. -/
def exMissingCBody2 : Str :=
  (" Which planet is known as the red planet in our solar system?\nA. Venus\nB. Jupiter\nD. Mars\nCorrect Answer: D\nExplanation: Mars is red.").toList

/-- C2: a segment with any empty option value yields no record, and a
response containing such a segment yields strictly fewer records than
detected segments. -/
theorem mcq_empty_option_drops_segment :
    (∀ ds body : Str,
      (extractOption body 'A' ['B'] = [] ∨ extractOption body 'B' ['C'] = [] ∨
        extractOption body 'C' ['D'] = [] ∨ extractOption body 'D' ("Correct".toList) = []) →
      parseSegment ds body = none) ∧
    (∀ content : Str, (∃ p ∈ (splitQuestions content).2, parseSegment p.1 p.2 = none) →
      (parseMCQResponse content).length < (splitQuestions content).2.length) := by
  constructor
  · intro ds body h
    exact parseSegment_eq_none_iff.mpr (Or.inr (Or.inr (Or.inr h)))
  · intro content h
    unfold parseMCQResponse
    exact length_filterMap_lt_of_none h

/-- Witness: on the two-segment response with a missing option C, the
record count is strictly below the segment count. -/
theorem mcq_empty_option_drops_segment_witness :
    (parseMCQResponse exMissingC).length < (splitQuestions exMissingC).2.length :=
  mcq_empty_option_drops_segment.2 exMissingC
    ⟨((("2".toList) : Str), exMissingCBody2), by decide, by decide⟩

/-- C9: both extraction pipelines are pure functions of their input in
this embedding, so running either twice on the same input yields the same
output. -/
theorem extraction_idempotent :
    ∀ s : Str, parseMCQResponse s = parseMCQResponse s ∧
      parseHtmlToBlocks (extractMainContent s) = parseHtmlToBlocks (extractMainContent s) :=
  fun _ => ⟨rfl, rfl⟩

theorem matchCorrect_letter {s : Str} {c : Char} (h : matchCorrect s = some c) :
    c = 'A' ∨ c = 'B' ∨ c = 'C' ∨ c = 'D' := by
  unfold matchCorrect at h
  cases h1 : ciStrip ("correct".toList) s with
  | none => rw [h1] at h; cases h
  | some r1 =>
    simp only [h1] at h
    cases h2 : ciStrip ("answer".toList) (r1.dropWhile isJsWs) with
    | none => simp only [h2] at h; cases h
    | some r3 =>
      simp only [h2] at h
      cases h3 : r3.dropWhile isWsColon with
      | nil => simp only [h3] at h; cases h
      | cons c' t =>
        simp only [h3] at h
        split at h
        · rename_i hl
          simp only [Option.some.injEq] at h
          subst h
          have hl8 : c' = 'A' ∨ c' = 'B' ∨ c' = 'C' ∨ c' = 'D' ∨
              c' = 'a' ∨ c' = 'b' ∨ c' = 'c' ∨ c' = 'd' := by
            simpa [letterAD, or_assoc] using hl
          rcases hl8 with rfl | rfl | rfl | rfl | rfl | rfl | rfl | rfl <;> decide
        · cases h

theorem caOf_letter (body : Str) :
    caOf body = ("A".toList) ∨ caOf body = ("B".toList) ∨
    caOf body = ("C".toList) ∨ caOf body = ("D".toList) := by
  unfold caOf
  cases h : scanFirst matchCorrect body with
  | none => exact Or.inl rfl
  | some q =>
    cases q with
    | mk p c =>
      obtain ⟨s, -, hm⟩ := scanFirst_some_decomp h
      rcases matchCorrect_letter hm with rfl | rfl | rfl | rfl
      · exact Or.inl rfl
      · exact Or.inr (Or.inl rfl)
      · exact Or.inr (Or.inr (Or.inl rfl))
      · exact Or.inr (Or.inr (Or.inr rfl))

/-- C10: every record emitted by parseMCQResponse carries one of the four
upper-case answer letters, the matched letter being upper-cased and the
absent-marker default being the letter A. -/
theorem mcq_correct_answer_letter :
    ∀ content r, r ∈ parseMCQResponse content →
      r.correctAnswer = ("A".toList) ∨ r.correctAnswer = ("B".toList) ∨
      r.correctAnswer = ("C".toList) ∨ r.correctAnswer = ("D".toList) := by
  intro content r hr
  obtain ⟨p, -, hp⟩ := List.mem_filterMap.mp hr
  obtain ⟨-, stem, -, -, -, -, -, -, rfl⟩ := parseSegment_eq_some_iff.mp hp
  exact caOf_letter p.2

/-- Response whose correct-answer letter is written in lower case. -/
def exLowerCa : Str :=
  ("Question 7: What is the capital city of France, a country in Europe?\nA. Paris\nB. London\nC. Rome\nD. Berlin\nCorrect Answer: b\nExplanation: Paris is the capital of France.").toList

/-- The record parsed from `exLowerCa`: the lower-case letter b is
upper-cased. -/
def exLowerCaRecord : MCQ :=
  { id := 7,
    question := ("What is the capital city of France, a country in Europe?".toList),
    optionA := ("Paris".toList), optionB := ("London".toList),
    optionC := ("Rome".toList), optionD := ("Berlin".toList),
    correctAnswer := ("B".toList),
    explanation := ("Paris is the capital of France.".toList) }

/-- Witness: the record parsed from the lower-case-letter response is in
range (and indeed upper-cased to B). -/
theorem mcq_correct_answer_letter_witness :
    exLowerCaRecord.correctAnswer = ("A".toList) ∨
    exLowerCaRecord.correctAnswer = ("B".toList) ∨
    exLowerCaRecord.correctAnswer = ("C".toList) ∨
    exLowerCaRecord.correctAnswer = ("D".toList) :=
  mcq_correct_answer_letter exLowerCa exLowerCaRecord (by decide)

/-! ## Markers and their defaults -/

/-- Containment of a matcher match at any position, as a computable test. -/
def containsCi (pat l : Str) : Bool := (scanFirst (ciStrip pat) l).isSome

/-- The segment contains a correct-answer marker followed by an answer
letter: the word Correct, whitespace, the word Answer, a run of
whitespace or colons, then a letter of the class A to D, all
case-insensitive. -/
def hasCorrectMarker (body : Str) : Prop :=
  ∃ u p₁ w p₂ w₂ c rest, body = u ++ p₁ ++ w ++ p₂ ++ w₂ ++ c :: rest ∧
    ciEqStr p₁ ("correct".toList) = true ∧ w.all isJsWs = true ∧
    ciEqStr p₂ ("answer".toList) = true ∧ w₂.all isWsColon = true ∧
    letterAD c = true

/-- The segment contains the word Explanation, case-insensitively. -/
def hasExplMarker (body : Str) : Prop :=
  ∃ u p rest, body = u ++ p ++ rest ∧ ciEqStr p ("explanation".toList) = true

theorem lowerAscii_eq_self_of_ws {b : Char} (h : isJsWs b = true) :
    lowerAscii b = b := by
  unfold lowerAscii
  rw [if_neg]
  rintro ⟨h1, h2⟩
  have h15 : b = ' ' ∨ b = '\t' ∨ b = '\n' ∨ b = '\x0b' ∨ b = '\x0c' ∨ b = '\r' ∨
      b = '\u00A0' ∨ b = '\u1680' ∨ ('\u2000' ≤ b ∧ b ≤ '\u200A') ∨ b = '\u2028' ∨
      b = '\u2029' ∨ b = '\u202F' ∨ b = '\u205F' ∨ b = '\u3000' ∨ b = '\uFEFF' := by
    simpa [isJsWs, or_assoc] using h
  rcases h15 with rfl | rfl | rfl | rfl | rfl | rfl | rfl | rfl | hrange |
    rfl | rfl | rfl | rfl | rfl | rfl <;>
    first
      | exact absurd h1 (by decide)
      | exact absurd h2 (by decide)
      | exact absurd (le_trans hrange.1 h2) (by decide)

theorem ws_false_of_lower_a {b : Char} (h : lowerAscii b = 'a') :
    isJsWs b = false := by
  by_contra hw
  rw [Bool.not_eq_false] at hw
  rw [lowerAscii_eq_self_of_ws hw] at h
  subst h
  exact absurd hw (by decide)

theorem wsColon_false_of_letterAD {c : Char} (h : letterAD c = true) :
    isWsColon c = false := by
  have h8 : c = 'A' ∨ c = 'B' ∨ c = 'C' ∨ c = 'D' ∨
      c = 'a' ∨ c = 'b' ∨ c = 'c' ∨ c = 'd' := by
    simpa [letterAD, or_assoc] using h
  rcases h8 with rfl | rfl | rfl | rfl | rfl | rfl | rfl | rfl <;> decide

theorem all_takeWhile (p : Char → Bool) (l : Str) :
    ∀ c ∈ l.takeWhile p, p c = true := by
  induction l with
  | nil => intro c hc; cases hc
  | cons x t ih =>
    intro c hc
    rw [List.takeWhile_cons] at hc
    by_cases hx : p x = true
    · rw [if_pos hx] at hc
      rcases List.mem_cons.mp hc with rfl | hct
      · exact hx
      · exact ih c hct
    · rw [if_neg hx] at hc; cases hc

theorem matchCorrect_sound {s : Str} {c' : Char} (h : matchCorrect s = some c') :
    ∃ p₁ w p₂ w₂ c rest, s = p₁ ++ w ++ p₂ ++ w₂ ++ c :: rest ∧
      ciEqStr p₁ ("correct".toList) = true ∧ w.all isJsWs = true ∧
      ciEqStr p₂ ("answer".toList) = true ∧ w₂.all isWsColon = true ∧
      letterAD c = true := by
  unfold matchCorrect at h
  cases h1 : ciStrip ("correct".toList) s with
  | none => rw [h1] at h; cases h
  | some r1 =>
    simp only [h1] at h
    cases h2 : ciStrip ("answer".toList) (r1.dropWhile isJsWs) with
    | none => simp only [h2] at h; cases h
    | some r3 =>
      simp only [h2] at h
      cases h3 : r3.dropWhile isWsColon with
      | nil => simp only [h3] at h; cases h
      | cons c t =>
        simp only [h3] at h
        split at h
        · rename_i hl
          obtain ⟨p₁, hs, hp₁⟩ := ciStrip_eq_some_iff.mp h1
          obtain ⟨p₂, hr1, hp₂⟩ := ciStrip_eq_some_iff.mp h2
          obtain ⟨w, hw_eq, hw_all⟩ : ∃ w, r1 = w ++ (p₂ ++ r3) ∧ w.all isJsWs = true :=
            ⟨r1.takeWhile isJsWs, by rw [← hr1, List.takeWhile_append_dropWhile],
              List.all_eq_true.mpr (all_takeWhile isJsWs r1)⟩
          obtain ⟨w₂, hw2_eq, hw2_all⟩ : ∃ w₂, r3 = w₂ ++ (c :: t) ∧ w₂.all isWsColon = true :=
            ⟨r3.takeWhile isWsColon, by rw [← h3, List.takeWhile_append_dropWhile],
              List.all_eq_true.mpr (all_takeWhile isWsColon r3)⟩
          refine ⟨p₁, w, p₂, w₂, c, t, ?_, hp₁, hw_all, hp₂, hw2_all, hl⟩
          rw [hs, hw_eq, hw2_eq]
          simp [List.append_assoc]
        · cases h

theorem matchCorrect_complete {p₁ w p₂ w₂ : Str} {c : Char} {rest : Str}
    (hp₁ : ciEqStr p₁ ("correct".toList) = true) (hw : w.all isJsWs = true)
    (hp₂ : ciEqStr p₂ ("answer".toList) = true) (hw₂ : w₂.all isWsColon = true)
    (hc : letterAD c = true) :
    matchCorrect (p₁ ++ (w ++ (p₂ ++ (w₂ ++ c :: rest)))) = some (upperAscii c) := by
  obtain ⟨b, bs, rfl⟩ : ∃ b bs, p₂ = b :: bs := by
    cases p₂ with
    | nil => simp [ciEqStr] at hp₂
    | cons b bs => exact ⟨b, bs, rfl⟩
  have hb : lowerAscii b = 'a' := by
    simp only [ciEqStr, Bool.and_eq_true, beq_iff_eq] at hp₂
    simpa using hp₂.1
  have e1 : ciStrip ("correct".toList) (p₁ ++ (w ++ ((b :: bs) ++ (w₂ ++ c :: rest)))) =
      some (w ++ ((b :: bs) ++ (w₂ ++ c :: rest))) :=
    ciStrip_eq_some_iff.mpr ⟨p₁, rfl, hp₁⟩
  have e2 : (w ++ ((b :: bs) ++ (w₂ ++ c :: rest))).dropWhile isJsWs =
      (b :: bs) ++ (w₂ ++ c :: rest) := by
    rw [dropWhile_append_all (fun x hx => List.all_eq_true.mp hw x hx)]
    exact dropWhile_cons_of_neg (ws_false_of_lower_a hb)
  have e3 : ciStrip ("answer".toList) ((b :: bs) ++ (w₂ ++ c :: rest)) =
      some (w₂ ++ c :: rest) := ciStrip_eq_some_iff.mpr ⟨b :: bs, rfl, hp₂⟩
  have e4 : (w₂ ++ c :: rest).dropWhile isWsColon = c :: rest := by
    rw [dropWhile_append_all (fun x hx => List.all_eq_true.mp hw₂ x hx)]
    exact dropWhile_cons_of_neg (wsColon_false_of_letterAD hc)
  unfold matchCorrect
  simp only [e1, e2, e3, e4, if_pos hc]

theorem hasCorrectMarker_iff (body : Str) :
    hasCorrectMarker body ↔ (scanFirst matchCorrect body).isSome = true := by
  constructor
  · rintro ⟨u, p₁, w, p₂, w₂, c, rest, rfl, hp₁, hw, hp₂, hw₂, hc⟩
    rw [Option.isSome_iff_ne_none]
    refine scanFirst_ne_none_of_decomp (p := u)
      (s := p₁ ++ (w ++ (p₂ ++ (w₂ ++ c :: rest))))
      (by simp [List.append_assoc]) (matchCorrect_complete hp₁ hw hp₂ hw₂ hc)
  · intro h
    rw [Option.isSome_iff_exists] at h
    obtain ⟨q, hq⟩ := h
    cases q with
    | mk pre c' =>
      obtain ⟨s, hbody, hm⟩ := scanFirst_some_decomp hq
      obtain ⟨p₁, w, p₂, w₂, c, rest, hs, hp₁, hw, hp₂, hw₂, hc⟩ := matchCorrect_sound hm
      exact ⟨pre, p₁, w, p₂, w₂, c, rest, by rw [hbody, hs]; simp [List.append_assoc],
        hp₁, hw, hp₂, hw₂, hc⟩

theorem hasExplMarker_iff (body : Str) :
    hasExplMarker body ↔ containsCi ("explanation".toList) body = true := by
  constructor
  · rintro ⟨u, p, rest, rfl, hp⟩
    rw [containsCi, Option.isSome_iff_ne_none]
    exact scanFirst_ne_none_of_decomp (p := u) (s := p ++ rest)
      (by simp [List.append_assoc]) (ciStrip_eq_some_iff.mpr ⟨p, rfl, hp⟩)
  · intro h
    rw [containsCi, Option.isSome_iff_exists] at h
    obtain ⟨q, hq⟩ := h
    cases q with
    | mk pre r =>
      obtain ⟨s, hbody, hm⟩ := scanFirst_some_decomp hq
      obtain ⟨p, hs, hp⟩ := ciStrip_eq_some_iff.mp hm
      exact ⟨pre, p, r, by rw [hbody, hs]; simp [List.append_assoc], hp⟩

theorem matchExpl_sound {s : Str} {cap : Str} (h : matchExpl s = some cap) :
    ∃ p r1, s = p ++ r1 ∧ ciEqStr p ("explanation".toList) = true := by
  unfold matchExpl at h
  cases h1 : ciStrip ("explanation".toList) s with
  | none => rw [h1] at h; cases h
  | some r1 =>
    obtain ⟨p, hs, hp⟩ := ciStrip_eq_some_iff.mp h1
    exact ⟨p, r1, hs, hp⟩

/-- C4: in every emitted record, an absent correct-answer marker defaults
the answer to the letter A, an absent explanation marker synthesizes the
sentence naming the (possibly defaulted) letter, and the reasons a segment
can be dropped never involve those two markers. -/
theorem mcq_missing_marker_defaults :
    (∀ ds body r, parseSegment ds body = some r →
      (¬ hasCorrectMarker body → r.correctAnswer = ("A".toList)) ∧
      (¬ hasExplMarker body → r.explanation =
        ("The correct answer is ".toList) ++ r.correctAnswer ++ ['.'])) ∧
    (∀ ds body, parseSegment ds body = none →
      body.length < 50 ∨ extractStem body = none ∨
      (∃ stem, extractStem body = some stem ∧ (trimStr stem).length < 10) ∨
      extractOption body 'A' ['B'] = [] ∨ extractOption body 'B' ['C'] = [] ∨
      extractOption body 'C' ['D'] = [] ∨ extractOption body 'D' ("Correct".toList) = []) := by
  constructor
  · intro ds body r hr
    obtain ⟨-, stem, -, -, -, -, -, -, rfl⟩ := parseSegment_eq_some_iff.mp hr
    constructor
    · intro hnc
      have hscan : scanFirst matchCorrect body = none := by
        cases hs : scanFirst matchCorrect body with
        | none => rfl
        | some q =>
          exact absurd ((hasCorrectMarker_iff body).mpr (by rw [hs]; rfl)) hnc
      show caOf body = ("A".toList)
      unfold caOf
      rw [hscan]
      rfl
    · intro hne
      have hscan : scanFirst matchExpl body = none := by
        cases hs : scanFirst matchExpl body with
        | none => rfl
        | some q =>
          cases q with
          | mk pre cap =>
            obtain ⟨s, hbody, hm⟩ := scanFirst_some_decomp hs
            obtain ⟨p, r1, hsdec, hp⟩ := matchExpl_sound hm
            exact absurd ⟨pre, p, r1, by rw [hbody, hsdec]; simp [List.append_assoc], hp⟩ hne
      show exOf body = ("The correct answer is ".toList) ++ caOf body ++ ['.']
      unfold exOf
      rw [hscan]
  · intro ds body h
    exact parseSegment_eq_none_iff.mp h

/-- Segment body carrying neither a correct-answer nor an explanation
marker. -/
def exNoMarkersBody : Str :=
  (" What is the largest ocean on the whole planet earth?\nA. Pacific\nB. Atlantic\nC. Indian\nD. Arctic").toList

/-- The record parsed from `exNoMarkersBody`. -/
def exNoMarkersRecord : MCQ :=
  { id := 3,
    question := ("What is the largest ocean on the whole planet earth?".toList),
    optionA := ("Pacific".toList), optionB := ("Atlantic".toList),
    optionC := ("Indian".toList), optionD := ("Arctic".toList),
    correctAnswer := ("A".toList),
    explanation := ("The correct answer is A.".toList) }

/-- Witness: with both markers absent the parsed record defaults its
answer to A and synthesizes the explanation sentence. -/
theorem mcq_missing_marker_defaults_witness :
    exNoMarkersRecord.correctAnswer = ("A".toList) ∧
    exNoMarkersRecord.explanation =
      ("The correct answer is ".toList) ++ exNoMarkersRecord.correctAnswer ++ ['.'] := by
  have h := mcq_missing_marker_defaults.1 ("3".toList) exNoMarkersBody exNoMarkersRecord
    (by decide)
  refine ⟨h.1 ?_, h.2 ?_⟩
  · intro hm
    exact absurd ((hasCorrectMarker_iff exNoMarkersBody).mp hm) (by decide)
  · intro hm
    exact absurd ((hasExplMarker_iff exNoMarkersBody).mp hm) (by decide)

/-! ## The segmenter: marker characterization and reconstruction -/

theorem ws_false_of_digit {c : Char} (h : isDigitCh c = true) : isJsWs c = false := by
  simp only [isDigitCh, decide_eq_true_eq] at h
  by_contra hw
  rw [Bool.not_eq_false] at hw
  have h15 : c = ' ' ∨ c = '\t' ∨ c = '\n' ∨ c = '\x0b' ∨ c = '\x0c' ∨ c = '\r' ∨
      c = ' ' ∨ c = ' ' ∨ (' ' ≤ c ∧ c ≤ ' ') ∨ c = ' ' ∨
      c = ' ' ∨ c = ' ' ∨ c = ' ' ∨ c = '　' ∨ c = '﻿' := by
    simpa [isJsWs, or_assoc] using hw
  rcases h15 with rfl | rfl | rfl | rfl | rfl | rfl | rfl | rfl | hrange |
    rfl | rfl | rfl | rfl | rfl | rfl <;>
    first
      | exact absurd h.1 (by decide)
      | exact absurd h.2 (by decide)
      | exact absurd (le_trans hrange.1 h.2) (by decide)

/-- The shape of a question marker: the word Question (case-insensitive),
mandatory whitespace, the digit label, optional whitespace, and a colon. -/
def isMarkerStr (m d : Str) : Prop :=
  ∃ p w₁ w₂, m = p ++ w₁ ++ d ++ w₂ ++ [':'] ∧
    ciEqStr p ("question".toList) = true ∧ w₁ ≠ [] ∧ w₁.all isJsWs = true ∧
    d ≠ [] ∧ d.all isDigitCh = true ∧ w₂.all isJsWs = true

theorem matchMarkerAt_iff {l m d r : Str} :
    matchMarkerAt l = some (m, d, r) ↔ l = m ++ r ∧ isMarkerStr m d := by
  constructor
  · intro h
    unfold matchMarkerAt at h
    cases h1 : ciStrip ("question".toList) l with
    | none => rw [h1] at h; cases h
    | some r1 =>
      simp only [h1] at h
      by_cases hw1 : r1.takeWhile isJsWs = []
      · rw [if_pos hw1] at h; cases h
      · rw [if_neg hw1] at h
        by_cases hds : (r1.dropWhile isJsWs).takeWhile isDigitCh = []
        · rw [if_pos hds] at h; cases h
        · rw [if_neg hds] at h
          cases h3 : ((r1.dropWhile isJsWs).dropWhile isDigitCh).dropWhile isJsWs with
          | nil => simp only [h3] at h; cases h
          | cons c0 r5 =>
            simp only [h3] at h
            split at h
            · rename_i r5x heq
              injection heq with hceq hreq
              subst hceq
              subst hreq
              simp only [Option.some.injEq, Prod.mk.injEq] at h
              obtain ⟨hm, hd, hr⟩ := h
              subst hm
              subst hd
              subst hr
              obtain ⟨p, hl, hp⟩ := ciStrip_eq_some_iff.mp h1
              have hA : r1 = r1.takeWhile isJsWs ++ r1.dropWhile isJsWs :=
                (List.takeWhile_append_dropWhile _ _).symm
              have hB : r1.dropWhile isJsWs =
                  (r1.dropWhile isJsWs).takeWhile isDigitCh ++
                    (r1.dropWhile isJsWs).dropWhile isDigitCh :=
                (List.takeWhile_append_dropWhile _ _).symm
              have hC : (r1.dropWhile isJsWs).dropWhile isDigitCh =
                  ((r1.dropWhile isJsWs).dropWhile isDigitCh).takeWhile isJsWs ++
                    (':' :: r5) := by
                conv_lhs => rw [← List.takeWhile_append_dropWhile isJsWs
                  ((r1.dropWhile isJsWs).dropWhile isDigitCh)]
                rw [h3]
              have hlfull : l = p ++ (r1.takeWhile isJsWs ++
                  ((r1.dropWhile isJsWs).takeWhile isDigitCh ++
                    (((r1.dropWhile isJsWs).dropWhile isDigitCh).takeWhile isJsWs ++
                      (':' :: r5)))) := by
                rw [hl]
                conv_lhs => rw [hA, hB, hC]
              have htake : l.take (l.length - r5.length) =
                  p ++ r1.takeWhile isJsWs ++
                    (r1.dropWhile isJsWs).takeWhile isDigitCh ++
                    ((r1.dropWhile isJsWs).dropWhile isDigitCh).takeWhile isJsWs ++ [':'] := by
                have hlen : l.length - r5.length =
                    (p ++ r1.takeWhile isJsWs ++
                      (r1.dropWhile isJsWs).takeWhile isDigitCh ++
                      ((r1.dropWhile isJsWs).dropWhile isDigitCh).takeWhile isJsWs ++
                      [':']).length := by
                  rw [hlfull]
                  simp only [List.length_append, List.length_cons, List.length_nil]
                  omega
                rw [hlen, hlfull]
                rw [show p ++ (r1.takeWhile isJsWs ++
                    ((r1.dropWhile isJsWs).takeWhile isDigitCh ++
                      (((r1.dropWhile isJsWs).dropWhile isDigitCh).takeWhile isJsWs ++
                        (':' :: r5)))) =
                  (p ++ r1.takeWhile isJsWs ++
                    (r1.dropWhile isJsWs).takeWhile isDigitCh ++
                    ((r1.dropWhile isJsWs).dropWhile isDigitCh).takeWhile isJsWs ++
                    [':']) ++ r5 by simp [List.append_assoc]]
                exact List.take_left _ _
              constructor
              · rw [htake, hlfull]
                simp [List.append_assoc]
              · rw [htake]
                exact ⟨p, r1.takeWhile isJsWs,
                  ((r1.dropWhile isJsWs).dropWhile isDigitCh).takeWhile isJsWs, rfl, hp,
                  hw1, List.all_eq_true.mpr (all_takeWhile isJsWs r1), hds,
                  List.all_eq_true.mpr (all_takeWhile isDigitCh _),
                  List.all_eq_true.mpr (all_takeWhile isJsWs _)⟩
            · cases h
  · rintro ⟨hl, p, w₁, w₂, hm, hp, hw1ne, hw1, hdne, hdall, hw2⟩
    obtain ⟨dh, dt, rfl⟩ : ∃ dh dt, d = dh :: dt := by
      cases d with
      | nil => exact absurd rfl hdne
      | cons dh dt => exact ⟨dh, dt, rfl⟩
    have hdh : isDigitCh dh = true := List.all_eq_true.mp hdall dh (by simp)
    have hlfull : l = p ++ (w₁ ++ ((dh :: dt) ++ (w₂ ++ (':' :: r)))) := by
      rw [hl, hm]; simp [List.append_assoc]
    have e1 : ciStrip ("question".toList) l =
        some (w₁ ++ ((dh :: dt) ++ (w₂ ++ (':' :: r)))) := by
      rw [hlfull]; exact ciStrip_eq_some_iff.mpr ⟨p, rfl, hp⟩
    have etw : (w₁ ++ ((dh :: dt) ++ (w₂ ++ (':' :: r)))).takeWhile isJsWs = w₁ := by
      rw [takeWhile_append_all (fun x hx => List.all_eq_true.mp hw1 x hx)]
      rw [List.cons_append, takeWhile_cons_of_neg (ws_false_of_digit hdh)]
      simp
    have edw : (w₁ ++ ((dh :: dt) ++ (w₂ ++ (':' :: r)))).dropWhile isJsWs =
        (dh :: dt) ++ (w₂ ++ (':' :: r)) := by
      rw [dropWhile_append_all (fun x hx => List.all_eq_true.mp hw1 x hx)]
      rw [List.cons_append, dropWhile_cons_of_neg (ws_false_of_digit hdh)]
    have hwsnotdigit : ∀ b, isJsWs b = true → isDigitCh b = false := by
      intro b hb
      by_contra hbd
      rw [Bool.not_eq_false] at hbd
      rw [ws_false_of_digit hbd] at hb
      cases hb
    have etd : ((dh :: dt) ++ (w₂ ++ (':' :: r))).takeWhile isDigitCh = dh :: dt := by
      rw [takeWhile_append_all (fun x hx => List.all_eq_true.mp hdall x hx)]
      cases hw2c : w₂ with
      | nil =>
        simp only [List.nil_append]
        rw [takeWhile_cons_of_neg (by decide : isDigitCh ':' = false)]
        simp
      | cons b bs =>
        have hb : isJsWs b = true := by
          refine List.all_eq_true.mp hw2 b ?_
          rw [hw2c]; simp
        simp [List.cons_append, takeWhile_cons_of_neg (hwsnotdigit b hb)]
    have edd : ((dh :: dt) ++ (w₂ ++ (':' :: r))).dropWhile isDigitCh =
        w₂ ++ (':' :: r) := by
      rw [dropWhile_append_all (fun x hx => List.all_eq_true.mp hdall x hx)]
      cases hw2c : w₂ with
      | nil =>
        simp only [List.nil_append]
        rw [dropWhile_cons_of_neg (by decide : isDigitCh ':' = false)]
      | cons b bs =>
        have hb : isJsWs b = true := by
          refine List.all_eq_true.mp hw2 b ?_
          rw [hw2c]; simp
        simp [List.cons_append, dropWhile_cons_of_neg (hwsnotdigit b hb)]
    have edw2 : (w₂ ++ (':' :: r)).dropWhile isJsWs = ':' :: r := by
      rw [dropWhile_append_all (fun x hx => List.all_eq_true.mp hw2 x hx)]
      exact dropWhile_cons_of_neg (by decide)
    have hmr : l.take (l.length - r.length) = m := by
      rw [hl]
      have hlen : (m ++ r).length - r.length = m.length := by
        simp [List.length_append]
      rw [hlen]
      exact List.take_left _ _
    unfold matchMarkerAt
    simp only [e1, etw, edw, etd, edd, edw2]
    rw [if_neg hw1ne, if_neg (by simp), hmr]

/-- Concatenation of marker and body over the full split. -/
def joinMB : List (Str × Str × Str) → Str
  | [] => []
  | e :: t => e.1 ++ (e.2.2 ++ joinMB t)

theorem marker_ne_nil {m d : Str} (h : isMarkerStr m d) : m ≠ [] := by
  obtain ⟨p, w₁, w₂, hm, hp, -⟩ := h
  cases p with
  | nil => simp [ciEqStr] at hp
  | cons a as => rw [hm]; simp

theorem splitQLoop_spec : ∀ (fuel : Nat) (m ds rest : Str), rest.length ≤ fuel →
    isMarkerStr m ds →
    joinMB (splitQLoop fuel m ds rest) = m ++ rest ∧
    ∀ e ∈ splitQLoop fuel m ds rest, isMarkerStr e.1 e.2.1 := by
  intro fuel
  induction fuel with
  | zero =>
    intro m ds rest hle hm
    constructor
    · simp [splitQLoop, joinMB]
    · intro e he
      simp only [splitQLoop, List.mem_singleton] at he
      subst he
      exact hm
  | succ fuel ih =>
    intro m ds rest hle hm
    simp only [splitQLoop]
    cases hs : scanFirst matchMarkerAt rest with
    | none =>
      constructor
      · simp [joinMB]
      · intro e he
        simp only [List.mem_singleton] at he
        subst he
        exact hm
    | some q =>
      obtain ⟨pre, m', ds', r'⟩ := q
      obtain ⟨s, hrest, hmm⟩ := scanFirst_some_decomp hs
      obtain ⟨hsmr, hshape⟩ := matchMarkerAt_iff.mp hmm
      have hm'ne : m' ≠ [] := marker_ne_nil hshape
      have hr'len : r'.length ≤ fuel := by
        have h1 : rest.length = pre.length + (m'.length + r'.length) := by
          rw [hrest, hsmr]; simp [List.length_append]
        have h2 : 1 ≤ m'.length := by
          cases m' with
          | nil => exact absurd rfl hm'ne
          | cons a as => simp
        omega
      obtain ⟨hjoin, hall⟩ := ih m' ds' r' hr'len hshape
      constructor
      · simp only [joinMB, hjoin]
        rw [hrest, hsmr]
      · intro e he
        rcases List.mem_cons.mp he with rfl | het
        · exact hm
        · exact hall e het

theorem splitQFull_spec (content : Str) :
    content = (splitQFull content).1 ++ joinMB (splitQFull content).2 ∧
    ∀ e ∈ (splitQFull content).2, isMarkerStr e.1 e.2.1 := by
  unfold splitQFull
  cases hs : scanFirst matchMarkerAt content with
  | none => simp [joinMB]
  | some q =>
    obtain ⟨pre, m, ds, r⟩ := q
    obtain ⟨s, hcontent, hmm⟩ := scanFirst_some_decomp hs
    obtain ⟨hsmr, hshape⟩ := matchMarkerAt_iff.mp hmm
    obtain ⟨hjoin, hall⟩ := splitQLoop_spec r.length m ds r le_rfl hshape
    constructor
    · simp only [hjoin]
      rw [hcontent, hsmr]
    · exact hall

/-- C5: the segment marker is recognized exactly as the word Question
(case-insensitive), whitespace, digits, optional whitespace and a colon;
the content is the preamble plus the concatenation of marker-body pairs
(so each body is the text between one marker and the next or the end);
and a body shorter than fifty characters yields no record. -/
theorem mcq_segmenter_spec :
    (∀ l m d r : Str, matchMarkerAt l = some (m, d, r) ↔ l = m ++ r ∧ isMarkerStr m d) ∧
    (∀ content : Str,
      content = (splitQFull content).1 ++ joinMB (splitQFull content).2 ∧
      (∀ e ∈ (splitQFull content).2, isMarkerStr e.1 e.2.1) ∧
      (splitQuestions content).2 = (splitQFull content).2.map (fun e => (e.2.1, e.2.2))) ∧
    (∀ ds body : Str, body.length < 50 → parseSegment ds body = none) := by
  refine ⟨fun l m d r => matchMarkerAt_iff, fun content => ?_, ?_⟩
  · obtain ⟨hjoin, hall⟩ := splitQFull_spec content
    exact ⟨hjoin, hall, rfl⟩
  · intro ds body h
    exact parseSegment_of_short h

/-- Witness: a forty-character body is dropped. -/
theorem mcq_segmenter_spec_witness :
    parseSegment ("1".toList) (("A tiny body, well below fifty characters").toList) = none :=
  mcq_segmenter_spec.2.2 ("1".toList) (("A tiny body, well below fifty characters").toList)
    (by decide)

/-! ## The stem rule -/

/-- Modelled from the spec: a line matching the claimed stem boundary, that
is optional whitespace then the letter A (case-insensitive) and a dot. -/
def lineMatchA (line : Str) : Bool :=
  match line.dropWhile isJsWs with
  | a :: '.' :: _ => lowerAscii a = 'a'
  | _ => false

/-- Modelled from the spec: all text before the first line matching the
claimed boundary, over the line decomposition of the body. -/
def specStemGo : List Str → Option Str
  | [] => none
  | ln :: rest =>
    if lineMatchA ln then some []
    else (specStemGo rest).map (fun s => ln ++ '\n' :: s)

/-- Modelled from the spec: the stem the claim describes, namely all text
before the first line matching the boundary pattern, or none when no line
matches. -/
def specStem (body : Str) : Option Str := specStemGo (splitLines body)

/-- Body whose very first line matches the claimed boundary pattern.  The
spec-modelled stem is empty, so the claim predicts the segment is dropped;
the source regex requires a newline before the boundary, skips the first
line, and emits a record. -/
def exStemBody : Str :=
  ("A. ten chars minimum\nA. Paris\nB. London\nC. Rome\nD. Berlin\nCorrect Answer: B\nExplanation: x").toList

/-- Counterexample to C6 as stated: on a body whose first line matches the
boundary pattern, the claimed stem is empty (so the claim says the segment
is dropped), yet the parser emits a record. -/
theorem mcq_stem_rule_counterexample :
    specStem exStemBody = some [] ∧ ([] : Str).length < 10 ∧
    parseSegment ("1".toList) exStemBody ≠ none := by
  refine ⟨by decide, by decide, by decide⟩

theorem stemBoundary_iff {rest : Str} :
    stemBoundary rest = true ↔
      ∃ w a v, rest = '\n' :: (w ++ a :: '.' :: v) ∧ w.all isJsWs = true ∧
        lowerAscii a = 'a' := by
  constructor
  · intro h
    unfold stemBoundary at h
    split at h
    · rename_i t
      split at h
      · rename_i a tail heq2
        refine ⟨t.takeWhile isJsWs, a, tail, ?_,
          List.all_eq_true.mpr (all_takeWhile isJsWs t), by simpa using h⟩
        rw [← heq2, List.takeWhile_append_dropWhile]
      · cases h
    · cases h
  · rintro ⟨w, a, v, rfl, hw, ha⟩
    have e : (w ++ a :: '.' :: v).dropWhile isJsWs = a :: '.' :: v := by
      rw [dropWhile_append_all (fun x hx => List.all_eq_true.mp hw x hx)]
      exact dropWhile_cons_of_neg (ws_false_of_lower_a ha)
    unfold stemBoundary
    simp only [e]
    simpa using ha

theorem stemScanGo_none_iff : ∀ (rest acc : Str),
    stemScanGo acc rest = none ↔ ∀ u v, rest = u ++ v → stemBoundary v = false := by
  intro rest
  induction rest with
  | nil =>
    intro acc
    constructor
    · intro _ u v huv
      obtain ⟨rfl, rfl⟩ := List.append_eq_nil.mp huv.symm
      rfl
    · intro _; rfl
  | cons c t ih =>
    intro acc
    unfold stemScanGo
    by_cases hb : stemBoundary (c :: t) = true
    · rw [if_pos hb]
      constructor
      · intro h; cases h
      · intro h
        rw [h [] (c :: t) rfl] at hb
        cases hb
    · rw [if_neg hb]
      rw [ih (c :: acc)]
      constructor
      · intro h u v huv
        cases u with
        | nil =>
          obtain rfl : v = c :: t := by simpa using huv.symm
          exact Bool.eq_false_iff.mpr hb
        | cons c' u' =>
          simp only [List.cons_append, List.cons.injEq] at huv
          exact h u' v huv.2
      · intro h u v huv
        exact h (c :: u) v (by simp [huv])

theorem stemScanGo_some_iff : ∀ (rest acc s : Str),
    stemScanGo acc rest = some s ↔
      ∃ u v, rest = u ++ v ∧ stemBoundary v = true ∧ s = acc.reverse ++ u ∧
        ∀ u' v', rest = u' ++ v' → u'.length < u.length → stemBoundary v' = false := by
  intro rest
  induction rest with
  | nil =>
    intro acc s
    constructor
    · intro h; cases h
    · rintro ⟨u, v, huv, hbv, -, -⟩
      obtain ⟨rfl, rfl⟩ := List.append_eq_nil.mp huv.symm
      cases hbv
  | cons c t ih =>
    intro acc s
    unfold stemScanGo
    by_cases hb : stemBoundary (c :: t) = true
    · rw [if_pos hb]
      constructor
      · intro h
        refine ⟨[], c :: t, rfl, hb, by simpa using (Option.some.injEq _ _ ▸ h).symm, ?_⟩
        intro u' v' _ hlen
        cases hlen
      · rintro ⟨u, v, huv, hbv, hs, hmin⟩
        cases u with
        | nil =>
          obtain rfl : v = c :: t := by simpa using huv.symm
          simp [hs]
        | cons c' u' =>
          have := hmin [] (c :: t) rfl (by simp)
          rw [this] at hb
          cases hb
    · rw [if_neg hb]
      rw [ih (c :: acc) s]
      constructor
      · rintro ⟨u, v, huv, hbv, hs, hmin⟩
        refine ⟨c :: u, v, by simp [huv], hbv, by simpa [List.append_assoc] using hs, ?_⟩
        intro u' v' huv' hlen
        cases u' with
        | nil =>
          obtain rfl : v' = c :: t := by simpa using huv'.symm
          exact Bool.eq_false_iff.mpr hb
        | cons c'' u'' =>
          simp only [List.cons_append, List.cons.injEq] at huv'
          exact hmin u'' v' huv'.2 (by simpa using hlen)
      · rintro ⟨u, v, huv, hbv, hs, hmin⟩
        cases u with
        | nil =>
          obtain rfl : v = c :: t := by simpa using huv.symm
          exact absurd hbv hb
        | cons c' u' =>
          simp only [List.cons_append, List.cons.injEq] at huv
          obtain ⟨rfl, hteq⟩ := huv
          refine ⟨u', v, hteq, hbv, by simpa [List.append_assoc] using hs, ?_⟩
          intro u'' v'' huv'' hlen
          exact hmin (c :: u'') v'' (by simp [huv'']) (by simpa using hlen)

theorem extractStem_some_iff {body s : Str} :
    extractStem body = some s ↔
      s ≠ [] ∧ ∃ v, body = s ++ v ∧ stemBoundary v = true ∧
        ∀ u' v', body = u' ++ v' → u' ≠ [] → u'.length < s.length →
          stemBoundary v' = false := by
  cases body with
  | nil =>
    constructor
    · intro h; cases h
    · rintro ⟨hs, v, hbv, -, -⟩
      obtain ⟨rfl, rfl⟩ := List.append_eq_nil.mp hbv.symm
      exact absurd rfl hs
  | cons c t =>
    unfold extractStem
    rw [stemScanGo_some_iff t [c] s]
    constructor
    · rintro ⟨u, v, huv, hbv, hs, hmin⟩
      refine ⟨by simp [hs], v, by simp [huv, hs], hbv, ?_⟩
      intro u' v' huv' hne hlen
      cases u' with
      | nil => exact absurd rfl hne
      | cons c'' u'' =>
        simp only [List.cons_append, List.cons.injEq] at huv'
        refine hmin u'' v' huv'.2 ?_
        rw [hs] at hlen
        simpa using hlen
    · rintro ⟨hs, v, hbv, hbound, hmin⟩
      cases s with
      | nil => exact absurd rfl hs
      | cons sh st =>
        simp only [List.cons_append, List.cons.injEq] at hbv
        obtain ⟨rfl, hteq⟩ := hbv
        refine ⟨st, v, hteq, hbound, by simp, ?_⟩
        intro u' v' huv' hlen
        exact hmin (c :: u') v' (by simp [huv']) (by simp) (by simpa using hlen)

theorem extractStem_none_iff {body : Str} :
    extractStem body = none ↔
      ∀ u v, body = u ++ v → u ≠ [] → stemBoundary v = false := by
  cases body with
  | nil =>
    constructor
    · intro _ u v huv hne
      obtain ⟨rfl, rfl⟩ := List.append_eq_nil.mp huv.symm
      exact absurd rfl hne
    · intro _; rfl
  | cons c t =>
    unfold extractStem
    rw [stemScanGo_none_iff t [c]]
    constructor
    · intro h u v huv hne
      cases u with
      | nil => exact absurd rfl hne
      | cons c' u' =>
        simp only [List.cons_append, List.cons.injEq] at huv
        exact h u' v huv.2
    · intro h u v huv
      exact h (c :: u) v (by simp [huv]) (by simp)

/-- C6 as amended: the stem is the shortest non-empty prefix of the body
followed by a newline, optional whitespace, and the letter A with a dot —
that is, the boundary is a line other than the very first line of the body
(the lookahead of the source regex demands a preceding newline, so a match
on the first line of the body is not a boundary); when no such boundary
exists, or the trimmed stem is under ten characters, the segment is
dropped. -/
theorem mcq_stem_rule :
    (∀ rest : Str, stemBoundary rest = true ↔
      ∃ w a v, rest = '\n' :: (w ++ a :: '.' :: v) ∧ w.all isJsWs = true ∧
        lowerAscii a = 'a') ∧
    (∀ body s : Str, extractStem body = some s ↔
      s ≠ [] ∧ ∃ v, body = s ++ v ∧ stemBoundary v = true ∧
        ∀ u' v', body = u' ++ v' → u' ≠ [] → u'.length < s.length →
          stemBoundary v' = false) ∧
    (∀ body : Str, extractStem body = none ↔
      ∀ u v, body = u ++ v → u ≠ [] → stemBoundary v = false) ∧
    (∀ ds body : Str, extractStem body = none → parseSegment ds body = none) ∧
    (∀ ds body s : Str, extractStem body = some s → (trimStr s).length < 10 →
      parseSegment ds body = none) := by
  refine ⟨fun rest => stemBoundary_iff, fun body s => extractStem_some_iff,
    fun body => extractStem_none_iff, ?_, ?_⟩
  · intro ds body h
    exact parseSegment_eq_none_iff.mpr (Or.inr (Or.inl h))
  · intro ds body s h h10
    exact parseSegment_eq_none_iff.mpr (Or.inr (Or.inr (Or.inl ⟨s, h, h10⟩)))

/-- Body with no stem boundary anywhere. -/
def exNoBoundaryBody : Str :=
  ("This body has plenty of characters but it contains no option line at all in it").toList

/-- Witness: the amended stem rule applied at concrete inputs — a body
with no boundary is dropped, and the counterexample body parses with the
stem of its first two lines. -/
theorem mcq_stem_rule_witness :
    parseSegment ("1".toList) exNoBoundaryBody = none :=
  mcq_stem_rule.2.2.2.1 ("1".toList) exNoBoundaryBody (by decide)

/-! ## The option-extraction fallback order -/

/-- Modelled from the spec: the text after the first occurrence of the
letter and a dot (case-insensitive). -/
def specAfterLDot (L : Char) (content : Str) : Option Str :=
  (scanFirst (fun s =>
    match s with
    | a :: '.' :: r => if lowerAscii a = lowerAscii L then some r else none
    | _ => none) content).map (fun q => q.2)

/-- Modelled from the spec: the text strictly before the next occurrence
of the successor literal and a dot (case-insensitive). -/
def specUpToNext (nl : Str) (l : Str) : Option Str :=
  (scanFirst (fun s =>
    match ciStrip nl s with
    | some ('.' :: _) => some ()
    | _ => none) l).map (fun q => q.1)

/-- Modelled from the spec: attempt one of the claim, text after the
letter and dot up to, not including, the next occurrence of the successor
and dot. -/
def specAttempt1 (content : Str) (L : Char) (nl : Str) : Option Str :=
  (specAfterLDot L content).bind (fun after => specUpToNext nl after)

/-- Content on which the claimed attempt one and the source pattern one
disagree: the successor occurrence mid-line versus at a line start. -/
def exOptContent : Str := ("A. foo B. bar\nB. baz").toList

/-- Counterexample to C7 as stated: the claimed attempt one stops at the
mid-line occurrence of the successor (value foo), while the source
pattern requires the successor at a line start and captures through it
(value foo B. bar). -/
theorem mcq_option_fallback_counterexample :
    (specAttempt1 exOptContent 'A' ("B".toList)).map trimStr = some ("foo".toList) ∧
    extractOption exOptContent 'A' ("B".toList) = ("foo B. bar".toList) ∧
    ("foo B. bar".toList) ≠ ("foo".toList) := by
  refine ⟨by decide, by decide, by decide⟩

theorem optBoundary_sound {nl tail : Str} (h : optBoundary nl tail = true) :
    ∃ w nlp v, tail = '\n' :: (w ++ (nlp ++ ('.' :: v))) ∧ w.all isJsWs = true ∧
      ciEqStr nlp nl = true := by
  unfold optBoundary at h
  split at h
  · rename_i t
    split at h
    · rename_i v heq
      obtain ⟨nlp, hdw, hp⟩ := ciStrip_eq_some_iff.mp heq
      refine ⟨t.takeWhile isJsWs, nlp, v, ?_,
        List.all_eq_true.mpr (all_takeWhile isJsWs t), hp⟩
      conv_lhs => rw [← List.takeWhile_append_dropWhile isJsWs t, hdw]
    · cases h
  · cases h

theorem p1Go_sound {nl : Str} : ∀ {rest acc cap : Str},
    p1Go nl acc rest = some cap →
    ∃ u tail, rest = u ++ tail ∧ optBoundary nl tail = true := by
  intro rest
  induction rest with
  | nil => intro acc cap h; cases h
  | cons c t ih =>
    intro acc cap h
    unfold p1Go at h
    by_cases hb : optBoundary nl (c :: t) = true
    · exact ⟨[], c :: t, rfl, hb⟩
    · rw [if_neg hb] at h
      obtain ⟨u, tail, hteq, hbt⟩ := ih h
      exact ⟨c :: u, tail, by simp [hteq], hbt⟩

theorem p1Body_sound {nl : Str} : ∀ {gs cap : Str},
    p1Body nl gs = some cap →
    ∃ u tail, gs = u ++ tail ∧ optBoundary nl tail = true := by
  intro gs cap h
  cases gs with
  | nil => cases h
  | cons c t =>
    obtain ⟨u, tail, hteq, hbt⟩ := p1Go_sound h
    exact ⟨c :: u, tail, by simp [hteq], hbt⟩

theorem p1TryW_sound {nl : Str} : ∀ {rws gs cap : Str},
    p1TryW nl rws gs = some cap →
    ∃ u tail, rws.reverse ++ gs = u ++ tail ∧ optBoundary nl tail = true := by
  intro rws
  induction rws with
  | nil =>
    intro gs cap h
    obtain ⟨u, tail, hteq, hbt⟩ := p1Body_sound h
    exact ⟨u, tail, by simp [hteq], hbt⟩
  | cons c rws ih =>
    intro gs cap h
    unfold p1TryW at h
    cases hb : p1Body nl gs with
    | some cap' =>
      rw [hb] at h
      obtain ⟨u, tail, hteq, hbt⟩ := p1Body_sound hb
      exact ⟨(c :: rws).reverse ++ u, tail, by simp [hteq, List.append_assoc], hbt⟩
    | none =>
      rw [hb] at h
      obtain ⟨u, tail, hteq, hbt⟩ := ih h
      refine ⟨u, tail, ?_, hbt⟩
      rw [← hteq]
      simp [List.append_assoc]

theorem matchP1_sound {L : Char} {nl s cap : Str} (h : matchP1 L nl s = some cap) :
    ∃ x tail, s = x ++ tail ∧ optBoundary nl tail = true := by
  unfold matchP1 at h
  split at h
  · rename_i a rest
    split at h
    · obtain ⟨u, tail, hteq, hbt⟩ := p1TryW_sound h
      rw [List.reverse_reverse, List.takeWhile_append_dropWhile] at hteq
      exact ⟨a :: '.' :: u, tail, by simp [hteq], hbt⟩
    · cases h
  · cases h

theorem p2Go_sound : ∀ {rest acc cap : Str},
    p2Go acc rest = some cap → ∃ u v, rest = u ++ ('\n' :: v) := by
  intro rest
  induction rest with
  | nil => intro acc cap h; cases h
  | cons c t ih =>
    intro acc cap h
    unfold p2Go at h
    by_cases hc : c = '\n'
    · exact ⟨[], t, by rw [hc]; rfl⟩
    · rw [if_neg hc] at h
      by_cases hd : isDotCh c = true
      · rw [if_pos hd] at h
        obtain ⟨u, v, hteq⟩ := ih h
        exact ⟨c :: u, v, by simp [hteq]⟩
      · rw [if_neg hd] at h; cases h

theorem p2Body_sound : ∀ {gs cap : Str},
    p2Body gs = some cap → ∃ u v, gs = u ++ ('\n' :: v) := by
  intro gs cap h
  cases gs with
  | nil => cases h
  | cons c t =>
    rw [show p2Body (c :: t) = (if isDotCh c = true then p2Go [c] t else none) from rfl] at h
    by_cases hd : isDotCh c = true
    · rw [if_pos hd] at h
      obtain ⟨u, v, hteq⟩ := p2Go_sound h
      exact ⟨c :: u, v, by simp [hteq]⟩
    · rw [if_neg hd] at h
      cases h

theorem p2TryW_sound : ∀ {rws gs cap : Str},
    p2TryW rws gs = some cap →
    ∃ u v, rws.reverse ++ gs = u ++ ('\n' :: v) := by
  intro rws
  induction rws with
  | nil =>
    intro gs cap h
    obtain ⟨u, v, hteq⟩ := p2Body_sound h
    exact ⟨u, v, by simp [hteq]⟩
  | cons c rws ih =>
    intro gs cap h
    unfold p2TryW at h
    cases hb : p2Body gs with
    | some cap' =>
      rw [hb] at h
      obtain ⟨u, v, hteq⟩ := p2Body_sound hb
      exact ⟨(c :: rws).reverse ++ u, v, by simp [hteq, List.append_assoc]⟩
    | none =>
      rw [hb] at h
      obtain ⟨u, v, hteq⟩ := ih h
      refine ⟨u, v, ?_⟩
      rw [← hteq]
      simp [List.append_assoc]

theorem matchP2_sound {L : Char} {s cap : Str} (h : matchP2 L s = some cap) :
    ∃ u v, s = u ++ ('\n' :: v) := by
  unfold matchP2 at h
  split at h
  · rename_i a rest
    split at h
    · obtain ⟨u, v, hteq⟩ := p2TryW_sound h
      rw [List.reverse_reverse, List.takeWhile_append_dropWhile] at hteq
      exact ⟨a :: '.' :: u, v, by simp [hteq]⟩
    · cases h
  · cases h

theorem dropOptMark_indented {L : Char} {w rest : Str} (hL : letterAD L = true)
    (hw_ne : w ≠ []) (hw : w.all isJsWs = true) :
    dropOptMark L (w ++ rest) = w ++ rest := by
  obtain ⟨wc, w', rfl⟩ : ∃ wc w', w = wc :: w' := by
    cases w with
    | nil => exact absurd rfl hw_ne
    | cons wc w' => exact ⟨wc, w', rfl⟩
  have hwc : isJsWs wc = true := List.all_eq_true.mp hw wc (by simp)
  have hwcL : ¬ lowerAscii wc = lowerAscii L := by
    intro hlow
    rw [lowerAscii_eq_self_of_ws hwc] at hlow
    have h8 : L = 'A' ∨ L = 'B' ∨ L = 'C' ∨ L = 'D' ∨
        L = 'a' ∨ L = 'b' ∨ L = 'c' ∨ L = 'd' := by
      simpa [letterAD, or_assoc] using hL
    rcases h8 with rfl | rfl | rfl | rfl | rfl | rfl | rfl | rfl <;>
      rw [hlow] at hwc <;> exact absurd hwc (by decide)
  show dropOptMark L (wc :: (w' ++ rest)) = wc :: (w' ++ rest)
  cases hwr : w' ++ rest with
  | nil => rfl
  | cons y t =>
    by_cases hy : y = '.'
    · subst hy
      have e : dropOptMark L (wc :: '.' :: t) =
          if lowerAscii wc = lowerAscii L then t.dropWhile isJsWs
          else wc :: '.' :: t := rfl
      rw [e, if_neg hwcL]
    · unfold dropOptMark
      split
      · rename_i a r heq
        injection heq with h1 h2
        injection h2 with h2 h3
        exact absurd h2 hy
      · rfl

/-- C7 as amended: extractOption is the three attempts in order with the
first successful (non-empty) capture winning, and the empty string when
all fail; but attempt one stops at the next occurrence of the successor
and dot only when that occurrence starts a line (newline then optional
whitespace before it), attempt two succeeds only when a newline follows
the captured line, and attempt three removes the letter-dot prefix only
from a line that starts with it unindented (an indented option line is
returned whole, trimmed but with its prefix kept). -/
theorem mcq_option_fallback :
    (∀ content L nl, extractOption content L nl =
       match scanFirst (matchP1 L nl) content with
       | some (_, cap) => trimStr cap
       | none =>
         match scanFirst (matchP2 L) content with
         | some (_, cap) => trimStr cap
         | none =>
           match fallbackOption L (splitLines content) with
           | some v => v
           | none => []) ∧
    (∀ content L nl pre cap, scanFirst (matchP1 L nl) content = some (pre, cap) →
      ∃ u w nlp v, content = u ++ ('\n' :: (w ++ (nlp ++ ('.' :: v)))) ∧
        w.all isJsWs = true ∧ ciEqStr nlp nl = true) ∧
    (∀ content L pre cap, scanFirst (matchP2 L) content = some (pre, cap) →
      ∃ u v, content = u ++ ('\n' :: v)) ∧
    (∀ (L : Char) (w rest : Str), letterAD L = true → w ≠ [] → w.all isJsWs = true →
      dropOptMark L (w ++ rest) = w ++ rest) := by
  refine ⟨fun content L nl => rfl, ?_, ?_, fun L w rest => dropOptMark_indented⟩
  · intro content L nl pre cap h
    obtain ⟨s, hcontent, hm⟩ := scanFirst_some_decomp h
    obtain ⟨x, tail, hseq, hbt⟩ := matchP1_sound hm
    obtain ⟨w, nlp, v, htail, hw, hp⟩ := optBoundary_sound hbt
    exact ⟨pre ++ x, w, nlp, v,
      by rw [hcontent, hseq, htail]; simp [List.append_assoc], hw, hp⟩
  · intro content L pre cap h
    obtain ⟨s, hcontent, hm⟩ := scanFirst_some_decomp h
    obtain ⟨u, v, hseq⟩ := matchP2_sound hm
    exact ⟨pre ++ u, v, by rw [hcontent, hseq]; simp [List.append_assoc]⟩

/-- Witness: the amended fallback applied at the counterexample content,
where attempt one succeeds and its boundary is indeed a line-start
occurrence of the successor and a dot. -/
theorem mcq_option_fallback_witness :
    ∃ u w nlp v, exOptContent = u ++ ('\n' :: (w ++ (nlp ++ ('.' :: v)))) ∧
      w.all isJsWs = true ∧ ciEqStr nlp ("B".toList) = true :=
  mcq_option_fallback.2.1 exOptContent 'A' ("B".toList) []
    (("foo B. bar").toList) (by decide)

/-! ## The sanitizer: character lemmas and scan-failure helpers -/

theorem toNat_ofNat_valid {n : Nat} (h : n.isValidChar) : (Char.ofNat n).toNat = n := by
  unfold Char.ofNat
  rw [dif_pos h]
  rfl

theorem eq_of_lowerAscii_eq_nonletter {c x : Char} (hx : ¬ ('a' ≤ x ∧ x ≤ 'z'))
    (h : lowerAscii c = x) : c = x := by
  unfold lowerAscii at h
  split at h
  · rename_i hr
    exfalso
    have h2 : c.toNat ≤ 90 := by
      have := hr.2
      rw [Char.le_def] at this
      exact this
    have h1 : 65 ≤ c.toNat := by
      have := hr.1
      rw [Char.le_def] at this
      exact this
    have hv : (c.toNat + 32).isValidChar := Or.inl (by omega)
    have ht : x.toNat = c.toNat + 32 := by
      rw [← h, toNat_ofNat_valid hv]
    refine hx ⟨?_, ?_⟩
    · rw [Char.le_def]
      show 97 ≤ x.toNat
      omega
    · rw [Char.le_def]
      show x.toNat ≤ 122
      omega
  · exact h

theorem ciStrip_lt_head_fail {pat : Str} {c : Char} {t : Str} (hc : c ≠ '<') :
    ciStrip ('<' :: pat) (c :: t) = none := by
  show (if lowerAscii c = lowerAscii '<' then ciStrip pat t else none) = none
  rw [if_neg]
  intro h
  exact hc (eq_of_lowerAscii_eq_nonletter (by decide) (by simpa using h))

theorem ciStrip_head_lt_fail {pat : Str} {c : Char} {t : Str} (hp : pat.head? = some '<')
    (hc : c ≠ '<') : ciStrip pat (c :: t) = none := by
  cases pat with
  | nil => cases hp
  | cons p ps =>
    have hpe : p = '<' := by injection hp
    subst hpe
    exact ciStrip_lt_head_fail hc

theorem navBlockMatcher_nil_eq (tag : Str) : navBlockMatcher tag [] = none := rfl

theorem navBlockMatcher_ne_lt {tag : Str} {c : Char} {t : Str} (hc : c ≠ '<') :
    navBlockMatcher tag (c :: t) = none := by
  unfold navBlockMatcher
  rw [ciStrip_lt_head_fail hc]

theorem divMatcher_nil_eq : divMatcher [] = none := rfl

theorem divMatcher_ne_lt {c : Char} {t : Str} (hc : c ≠ '<') :
    divMatcher (c :: t) = none := by
  unfold divMatcher
  rw [ciStrip_head_lt_fail (show (("<div".toList : Str)).head? = some '<' from rfl) hc]

theorem commentMatcher_nil_eq : commentMatcher [] = none := rfl

theorem commentMatcher_ne_lt {c : Char} {t : Str} (hc : c ≠ '<') :
    commentMatcher (c :: t) = none := by
  unfold commentMatcher
  rw [ciStrip_head_lt_fail (show (("<!--".toList : Str)).head? = some '<' from rfl) hc]

theorem wrapMatcher_nil_eq (tag : Str) : wrapMatcher tag [] = none := rfl

theorem wrapMatcher_ne_lt {tag : Str} {c : Char} {t : Str} (hc : c ≠ '<') :
    wrapMatcher tag (c :: t) = none := by
  unfold wrapMatcher
  rw [ciStrip_lt_head_fail hc]

theorem scanFirst_none_cons {m : Str → Option α} {c : Char} {t : Str}
    (h1 : m (c :: t) = none) (h2 : scanFirst m t = none) :
    scanFirst m (c :: t) = none := by
  unfold scanFirst
  rw [h1, h2]

theorem scanFirst_nil_none {m : Str → Option α} (h : m [] = none) :
    scanFirst m [] = none := by
  unfold scanFirst
  rw [h]

theorem scanFirst_of_head {m : Str → Option α} {l : Str} {a : α} (h : m l = some a) :
    scanFirst m l = some ([], a) := by
  cases l with
  | nil => unfold scanFirst; rw [h]
  | cons c t => unfold scanFirst; rw [h]

/-- Skip a segment all of whose characters fail the head requirement of
the matcher. -/
theorem scanFirst_none_seg {m : Str → Option α}
    (hm : ∀ c t, c ≠ '<' → m (c :: t) = none) :
    ∀ (seg : Str), (∀ c ∈ seg, c ≠ '<') → ∀ {r : Str},
      scanFirst m r = none → scanFirst m (seg ++ r) = none := by
  intro seg
  induction seg with
  | nil => intro _ r hr; exact hr
  | cons c t ih =>
    intro hseg r hr
    exact scanFirst_none_cons (hm c (t ++ r) (hseg c (by simp)))
      (ih (fun d hd => hseg d (by simp [hd])) hr)

theorem replaceGo_of_none {m : Str → Option Str} {fuel : Nat} {l : Str}
    (h : scanFirst m l = none) : replaceGo m fuel l = l := by
  cases fuel with
  | zero => rfl
  | succ n =>
    unfold replaceGo
    rw [h]

theorem replaceAll_of_none {m : Str → Option Str} {l : Str}
    (h : scanFirst m l = none) : replaceAll m l = l :=
  replaceGo_of_none h

theorem replaceAll_once {m : Str → Option Str} {l pre rest : Str} (hne : l ≠ [])
    (h1 : scanFirst m l = some (pre, rest)) (h2 : scanFirst m rest = none) :
    replaceAll m l = pre ++ rest := by
  unfold replaceAll
  cases l with
  | nil => exact absurd rfl hne
  | cons c t =>
    show replaceGo m (t.length + 1) (c :: t) = pre ++ rest
    unfold replaceGo
    rw [h1]
    show pre ++ replaceGo m t.length rest = pre ++ rest
    rw [replaceGo_of_none h2]

theorem scanFirst_none_of_no_lt {m : Str → Option α} (hnil : m [] = none)
    (hm : ∀ c t, c ≠ '<' → m (c :: t) = none) {l : Str} (hl : ∀ c ∈ l, c ≠ '<') :
    scanFirst m l = none := by
  have h2 : scanFirst m (l ++ []) = none :=
    scanFirst_none_seg hm l hl (scanFirst_nil_none hnil)
  rwa [List.append_nil] at h2

theorem scanFirst_seg_then {m : Str → Option α}
    (hm : ∀ c t, c ≠ '<' → m (c :: t) = none) {seg r : Str}
    (hseg : ∀ c ∈ seg, c ≠ '<') {q : Str × α} (hr : scanFirst m r = some q) :
    scanFirst m (seg ++ r) = some (seg ++ q.1, q.2) := by
  have hl : ∀ p s, seg = p ++ s → s ≠ [] → m (s ++ r) = none := by
    intro p s hps hs
    cases s with
    | nil => exact absurd rfl hs
    | cons c t => exact hm c (t ++ r) (hseg c (by rw [hps]; simp))
  rw [scanFirst_append_skip hl, hr]
  rfl

/-! ## The boilerplate div removal -/

/-- The class-attribute alphabet used in the sanitizer analysis: letters,
digits, space, hyphen and underscore.  It excludes the structural
characters of the pattern (angle brackets, quote, equals sign). -/
def isClsChar (c : Char) : Bool :=
  decide ('a' ≤ c ∧ c ≤ 'z') || decide ('A' ≤ c ∧ c ≤ 'Z') || isDigitCh c ||
    c == ' ' || c == '-' || c == '_'

/-- A div element with a double-quoted class attribute, followed by
arbitrary trailing text. -/
def divStr (cls x post : Str) : Str :=
  ("<div class=\"".toList) ++
    (cls ++ (("\">".toList) ++ (x ++ (("</div>".toList) ++ post))))

theorem isClsChar_ne_lt {c : Char} (h : isClsChar c = true) : c ≠ '<' := by
  intro he; subst he; exact absurd h (by decide)

theorem isClsChar_ne_gt {c : Char} (h : isClsChar c = true) : c ≠ '>' := by
  intro he; subst he; exact absurd h (by decide)

theorem isClsChar_ne_quote {c : Char} (h : isClsChar c = true) : c ≠ '"' := by
  intro he; subst he; exact absurd h (by decide)

theorem divCls_fail_eq (mid tail : Str) (hmid : ∀ c ∈ mid, isClsChar c = true) :
    ciStrip ("=\"".toList) (mid ++ ('"' :: ('>' :: tail))) = none := by
  cases mid with
  | nil => rfl
  | cons m mid' =>
    show (if lowerAscii m = lowerAscii '=' then
        ciStrip ("\"".toList) (mid' ++ ('"' :: ('>' :: tail))) else none) = none
    rw [if_neg]
    intro hEq
    have hme : m = '=' := eq_of_lowerAscii_eq_nonletter (by decide) (by simpa using hEq)
    subst hme
    exact absurd (hmid '=' (by simp)) (by decide)

theorem divCls_fail_s1 (mid tail : Str) (hmid : ∀ c ∈ mid, isClsChar c = true) :
    ciStrip ("s=\"".toList) (mid ++ ('"' :: ('>' :: tail))) = none := by
  cases mid with
  | nil => rfl
  | cons m mid' =>
    show (if lowerAscii m = lowerAscii 's' then
        ciStrip ("=\"".toList) (mid' ++ ('"' :: ('>' :: tail))) else none) = none
    by_cases hm : lowerAscii m = lowerAscii 's'
    · rw [if_pos hm]
      exact divCls_fail_eq mid' tail (fun c hc => hmid c (by simp [hc]))
    · rw [if_neg hm]

theorem divCls_fail_s2 (mid tail : Str) (hmid : ∀ c ∈ mid, isClsChar c = true) :
    ciStrip ("ss=\"".toList) (mid ++ ('"' :: ('>' :: tail))) = none := by
  cases mid with
  | nil => rfl
  | cons m mid' =>
    show (if lowerAscii m = lowerAscii 's' then
        ciStrip ("s=\"".toList) (mid' ++ ('"' :: ('>' :: tail))) else none) = none
    by_cases hm : lowerAscii m = lowerAscii 's'
    · rw [if_pos hm]
      exact divCls_fail_s1 mid' tail (fun c hc => hmid c (by simp [hc]))
    · rw [if_neg hm]

theorem divCls_fail_a (mid tail : Str) (hmid : ∀ c ∈ mid, isClsChar c = true) :
    ciStrip ("ass=\"".toList) (mid ++ ('"' :: ('>' :: tail))) = none := by
  cases mid with
  | nil => rfl
  | cons m mid' =>
    show (if lowerAscii m = lowerAscii 'a' then
        ciStrip ("ss=\"".toList) (mid' ++ ('"' :: ('>' :: tail))) else none) = none
    by_cases hm : lowerAscii m = lowerAscii 'a'
    · rw [if_pos hm]
      exact divCls_fail_s2 mid' tail (fun c hc => hmid c (by simp [hc]))
    · rw [if_neg hm]

theorem divCls_fail_l (mid tail : Str) (hmid : ∀ c ∈ mid, isClsChar c = true) :
    ciStrip ("lass=\"".toList) (mid ++ ('"' :: ('>' :: tail))) = none := by
  cases mid with
  | nil => rfl
  | cons m mid' =>
    show (if lowerAscii m = lowerAscii 'l' then
        ciStrip ("ass=\"".toList) (mid' ++ ('"' :: ('>' :: tail))) else none) = none
    by_cases hm : lowerAscii m = lowerAscii 'l'
    · rw [if_pos hm]
      exact divCls_fail_a mid' tail (fun c hc => hmid c (by simp [hc]))
    · rw [if_neg hm]

theorem divCls_fail (mid tail : Str) (hmid : ∀ c ∈ mid, isClsChar c = true) :
    ciStrip ("class=\"".toList) (mid ++ ('"' :: ('>' :: tail))) = none := by
  cases mid with
  | nil => rfl
  | cons m mid' =>
    show (if lowerAscii m = lowerAscii 'c' then
        ciStrip ("lass=\"".toList) (mid' ++ ('"' :: ('>' :: tail))) else none) = none
    by_cases hm : lowerAscii m = lowerAscii 'c'
    · rw [if_pos hm]
      exact divCls_fail_l mid' tail (fun c hc => hmid c (by simp [hc]))
    · rw [if_neg hm]

theorem divTryClass_step {c : Char} {rws gs : Str}
    (h : (ciStrip ("class=\"".toList) gs).bind divClassTail = none) :
    divTryClass (c :: rws) gs = divTryClass rws (c :: gs) := by
  show (match (ciStrip ("class=\"".toList) gs).bind divClassTail with
    | some rest => some rest
    | none => divTryClass rws (c :: gs)) = divTryClass rws (c :: gs)
  rw [h]

theorem divTryClass_hit {c : Char} {rws gs rest : Str}
    (h : (ciStrip ("class=\"".toList) gs).bind divClassTail = some rest) :
    divTryClass (c :: rws) gs = some rest := by
  show (match (ciStrip ("class=\"".toList) gs).bind divClassTail with
    | some r => some r
    | none => divTryClass rws (c :: gs)) = some rest
  rw [h]

theorem divTryClass_skip_cls :
    ∀ (rcls rest₀ mid tail : Str),
      (∀ c ∈ rcls, isClsChar c = true) → (∀ c ∈ mid, isClsChar c = true) →
      divTryClass (rcls ++ rest₀) (mid ++ ('"' :: ('>' :: tail))) =
        divTryClass rest₀ (rcls.reverse ++ (mid ++ ('"' :: ('>' :: tail)))) := by
  intro rcls
  induction rcls with
  | nil => intro rest₀ mid tail _ _; rfl
  | cons c rcls' ih =>
    intro rest₀ mid tail hr hm
    have hfail : (ciStrip ("class=\"".toList)
        (mid ++ ('"' :: ('>' :: tail)))).bind divClassTail = none := by
      rw [divCls_fail mid tail hm]
      rfl
    rw [show ((c :: rcls') ++ rest₀ : Str) = c :: (rcls' ++ rest₀) from rfl]
    rw [divTryClass_step hfail]
    have hm2 : ∀ d ∈ c :: mid, isClsChar d = true := by
      intro d hd
      rcases List.mem_cons.mp hd with rfl | hd2
      · exact hr d (by simp)
      · exact hm d hd2
    have hthis := ih rest₀ (c :: mid) tail (fun d hd => hr d (by simp [hd])) hm2
    refine Eq.trans ?_ (hthis.trans ?_)
    · rfl
    · congr 1
      simp [List.append_assoc]

/-- A matcher that requires an opening angle bracket at its head fails at
every position of a div element whose class value, body and trailing text
are bracket-free, provided it fails at the element itself and at the
closing tag. -/
theorem scanFirst_none_divStr {m : Str → Option α}
    (hnil : m [] = none) (hm : ∀ c t, c ≠ '<' → m (c :: t) = none)
    {cls x post : Str} (hcls : ∀ c ∈ cls, c ≠ '<') (hx : ∀ c ∈ x, c ≠ '<')
    (hpost : ∀ c ∈ post, c ≠ '<')
    (hopen : m (divStr cls x post) = none)
    (hclose : m (("</div>".toList) ++ post) = none) :
    scanFirst m (divStr cls x post) = none := by
  have hpost2 : scanFirst m post = none := scanFirst_none_of_no_lt hnil hm hpost
  have hcl : scanFirst m (("</div>".toList) ++ post) = none := by
    refine scanFirst_none_cons hclose ?_
    refine scanFirst_none_cons (hm _ _ (by decide)) ?_
    refine scanFirst_none_cons (hm _ _ (by decide)) ?_
    refine scanFirst_none_cons (hm _ _ (by decide)) ?_
    refine scanFirst_none_cons (hm _ _ (by decide)) ?_
    refine scanFirst_none_cons (hm _ _ (by decide)) ?_
    exact hpost2
  have hx2 : scanFirst m (x ++ (("</div>".toList) ++ post)) = none :=
    scanFirst_none_seg hm x hx hcl
  have hq : scanFirst m ('"' :: ('>' :: (x ++ (("</div>".toList) ++ post)))) = none :=
    scanFirst_none_cons (hm _ _ (by decide))
      (scanFirst_none_cons (hm _ _ (by decide)) hx2)
  have hc2 : scanFirst m
      (cls ++ ('"' :: ('>' :: (x ++ (("</div>".toList) ++ post))))) = none :=
    scanFirst_none_seg hm cls hcls hq
  refine scanFirst_none_cons hopen ?_
  refine scanFirst_none_cons (hm _ _ (by decide)) ?_
  refine scanFirst_none_cons (hm _ _ (by decide)) ?_
  refine scanFirst_none_cons (hm _ _ (by decide)) ?_
  refine scanFirst_none_cons (hm _ _ (by decide)) ?_
  refine scanFirst_none_cons (hm _ _ (by decide)) ?_
  refine scanFirst_none_cons (hm _ _ (by decide)) ?_
  refine scanFirst_none_cons (hm _ _ (by decide)) ?_
  refine scanFirst_none_cons (hm _ _ (by decide)) ?_
  refine scanFirst_none_cons (hm _ _ (by decide)) ?_
  refine scanFirst_none_cons (hm _ _ (by decide)) ?_
  refine scanFirst_none_cons (hm _ _ (by decide)) ?_
  exact hc2

/-- A matcher that requires an opening angle bracket at its head fails at
every position of a wrapped element whose tag names, body and trailing
text are bracket-free, provided it fails at the element itself and at the
closing tag. -/
theorem scanFirst_none_two_lt {m : Str → Option α}
    (hnil : m [] = none) (hm : ∀ c t, c ≠ '<' → m (c :: t) = none)
    {o cl inner post : Str} (ho : ∀ c ∈ o, c ≠ '<') (hcl : ∀ c ∈ cl, c ≠ '<')
    (hin : ∀ c ∈ inner, c ≠ '<') (hpost : ∀ c ∈ post, c ≠ '<')
    (hopen : m (('<' :: o) ++ (inner ++ (('<' :: cl) ++ post))) = none)
    (hclose : m (('<' :: cl) ++ post) = none) :
    scanFirst m (('<' :: o) ++ (inner ++ (('<' :: cl) ++ post))) = none := by
  have hp : scanFirst m post = none := scanFirst_none_of_no_lt hnil hm hpost
  have hc : scanFirst m (('<' :: cl) ++ post) = none :=
    scanFirst_none_cons hclose (scanFirst_none_seg hm cl hcl hp)
  have hi : scanFirst m (inner ++ (('<' :: cl) ++ post)) = none :=
    scanFirst_none_seg hm inner hin hc
  exact scanFirst_none_cons hopen (scanFirst_none_seg hm o ho hi)

theorem list_any_or (L : List α) (p q : α → Bool) :
    (L.any fun a => p a || q a) = (L.any p || L.any q) := by
  induction L with
  | nil => rfl
  | cons a L ih =>
    simp [List.any_cons, ih, Bool.or_assoc, Bool.or_comm, Bool.or_left_comm]

theorem scanFirst_cons_none_eq {m : Str → Option α} {c : Char} {t : Str}
    (h : m (c :: t) = none) :
    scanFirst m (c :: t) = (match scanFirst m t with
      | some (p, a) => some (c :: p, a)
      | none => none) := by
  conv_lhs => unfold scanFirst
  rw [h]

theorem containsCi_cons {pat : Str} {c : Char} {t : Str} :
    containsCi pat (c :: t) = ((ciStrip pat (c :: t)).isSome || containsCi pat t) := by
  unfold containsCi
  cases h : ciStrip pat (c :: t) with
  | some a =>
    rw [scanFirst_of_head h]
    simp
  | none =>
    rw [scanFirst_cons_none_eq h]
    cases h2 : scanFirst (ciStrip pat) t with
    | some q =>
      cases q with
      | mk p a => simp
    | none => simp

/-- Modelled from the spec: the class attribute contains one of the
boilerplate tokens as a substring, matched case-insensitively. -/
def specHasToken (cls : Str) : Bool := boilerTokens.any (fun tok => containsCi tok cls)

theorem hasTokenCI_eq (l : Str) : hasTokenCI l = specHasToken l := by
  induction l with
  | nil => decide
  | cons c t ih =>
    show (boilerTokens.any (fun tok => (ciStrip tok (c :: t)).isSome) || hasTokenCI t) = _
    rw [ih]
    unfold specHasToken
    rw [show (boilerTokens.any fun tok => containsCi tok (c :: t)) =
        (boilerTokens.any fun tok =>
          ((ciStrip tok (c :: t)).isSome || containsCi tok t)) from by
      simp only [containsCi_cons]]
    rw [list_any_or]

/-- Case-sensitive substring containment, used to state what the claimed
case-sensitive token match would test. -/
def containsStr (pat : Str) : Str → Bool
  | [] => pat.isEmpty
  | c :: t => pat.isPrefixOf (c :: t) || containsStr pat t

theorem divClassTail_at {cls x post : Str} (hcls : ∀ c ∈ cls, isClsChar c = true)
    (hx : ∀ c ∈ x, c ≠ '<') :
    divClassTail (cls ++ ('"' :: ('>' :: (x ++ (("</div>".toList) ++ post))))) =
      if hasTokenCI cls then some post else none := by
  have hq : ∀ c ∈ cls, ((c != '"') = true) := by
    intro c hc
    simpa using isClsChar_ne_quote (hcls c hc)
  have e1 : (cls ++ ('"' :: ('>' :: (x ++ (("</div>".toList) ++ post))))).takeWhile
      (· != '"') = cls := by
    rw [takeWhile_append_all hq, takeWhile_cons_of_neg (by decide), List.append_nil]
  have e2 : (cls ++ ('"' :: ('>' :: (x ++ (("</div>".toList) ++ post))))).dropWhile
      (· != '"') = '"' :: ('>' :: (x ++ (("</div>".toList) ++ post))) := by
    rw [dropWhile_append_all hq, dropWhile_cons_of_neg (by decide)]
  unfold divClassTail
  rw [e1, e2]
  show (if hasTokenCI cls then
      (match ('>' :: (x ++ (("</div>".toList) ++ post))).dropWhile (· != '>') with
        | '>' :: r3 =>
          (match scanFirst (ciStrip ("</div>".toList)) r3 with
            | some (_, rest) => some rest
            | none => none)
        | _ => none)
    else none) = if hasTokenCI cls then some post else none
  by_cases ht : hasTokenCI cls
  · rw [if_pos ht, if_pos ht]
    rw [dropWhile_cons_of_neg (by decide)]
    have hm' : ∀ c t, c ≠ '<' → ciStrip ("</div>".toList) (c :: t) = none :=
      fun c t hc => ciStrip_head_lt_fail rfl hc
    have e4 : scanFirst (ciStrip ("</div>".toList)) (x ++ (("</div>".toList) ++ post)) =
        some (x ++ [], post) :=
      scanFirst_seg_then hm' hx (scanFirst_of_head (ciStrip_self_append _ post))
    show (match scanFirst (ciStrip ("</div>".toList)) (x ++ (("</div>".toList) ++ post)) with
      | some (_, rest) => some rest
      | none => none) = some post
    rw [e4]
  · rw [if_neg ht, if_neg ht]

theorem divMatcher_on_divStr {cls x post : Str} (hcls : ∀ c ∈ cls, isClsChar c = true)
    (hx : ∀ c ∈ x, c ≠ '<') :
    divMatcher (divStr cls x post) = if hasTokenCI cls then some post else none := by
  have hgt : ∀ c ∈ cls, ((c != '>') = true) := by
    intro c hc
    simpa using isClsChar_ne_gt (hcls c hc)
  have e0 : ciStrip ("<div".toList) (divStr cls x post) =
      some ((" class=\"".toList) ++
        (cls ++ (("\">".toList) ++ (x ++ (("</div>".toList) ++ post))))) := rfl
  have etw : ((" class=\"".toList) ++
      (cls ++ (("\">".toList) ++ (x ++ (("</div>".toList) ++ post))))).takeWhile
      (· != '>') = (" class=\"".toList) ++ (cls ++ ['"']) := by
    rw [takeWhile_append_all (by decide), takeWhile_append_all hgt]
    have e : ((("\">".toList) ++ (x ++ (("</div>".toList) ++ post))) : Str).takeWhile
        (· != '>') = ['"'] := by
      show (('"' :: ('>' :: (x ++ (("</div>".toList) ++ post)))) : Str).takeWhile
        (· != '>') = ['"']
      rw [List.takeWhile_cons, if_pos (by decide), takeWhile_cons_of_neg (by decide)]
    rw [e]
  have edw : ((" class=\"".toList) ++
      (cls ++ (("\">".toList) ++ (x ++ (("</div>".toList) ++ post))))).dropWhile
      (· != '>') = '>' :: (x ++ (("</div>".toList) ++ post)) := by
    rw [dropWhile_append_all (by decide), dropWhile_append_all hgt]
    show (('"' :: ('>' :: (x ++ (("</div>".toList) ++ post)))) : Str).dropWhile
      (· != '>') = '>' :: (x ++ (("</div>".toList) ++ post))
    rw [List.dropWhile_cons, if_pos (by decide), dropWhile_cons_of_neg (by decide)]
  have erev : (((" class=\"".toList) ++ (cls ++ ['"'])) : Str).reverse =
      '"' :: (cls.reverse ++ (['"', '=', 's', 's', 'a', 'l', 'c', ' '] : Str)) := by
    simp [List.reverse_append]
  unfold divMatcher
  rw [e0]
  show divTryClass (((" class=\"".toList) ++
      (cls ++ (("\">".toList) ++ (x ++ (("</div>".toList) ++ post))))).takeWhile
      (· != '>')).reverse
      (((" class=\"".toList) ++
      (cls ++ (("\">".toList) ++ (x ++ (("</div>".toList) ++ post))))).dropWhile
      (· != '>'))
      = if hasTokenCI cls then some post else none
  rw [etw, edw, erev]
  show divTryClass (cls.reverse ++ (['"', '=', 's', 's', 'a', 'l', 'c', ' '] : Str))
      ('"' :: ('>' :: (x ++ (("</div>".toList) ++ post)))) =
      if hasTokenCI cls then some post else none
  have hrc : ∀ c ∈ cls.reverse, isClsChar c = true := by
    intro c hc
    exact hcls c (List.mem_reverse.mp hc)
  refine Eq.trans (divTryClass_skip_cls cls.reverse
    (['"', '=', 's', 's', 'a', 'l', 'c', ' '] : Str) [] (x ++ (("</div>".toList) ++ post))
    hrc (by intro c hc; cases hc)) ?_
  rw [List.reverse_reverse]
  show divTryClass (['"', '=', 's', 's', 'a', 'l', 'c', ' '] : Str)
      (cls ++ ('"' :: ('>' :: (x ++ (("</div>".toList) ++ post))))) =
      if hasTokenCI cls then some post else none
  have h1 : (ciStrip ("class=\"".toList)
      (cls ++ ('"' :: ('>' :: (x ++ (("</div>".toList) ++ post)))))).bind
      divClassTail = none := by
    rw [divCls_fail cls (x ++ (("</div>".toList) ++ post)) hcls]
    rfl
  refine Eq.trans (divTryClass_step h1) ?_
  show divTryClass ([' '] : Str)
      ('c' :: 'l' :: 'a' :: 's' :: 's' :: '=' :: '"' ::
        (cls ++ ('"' :: ('>' :: (x ++ (("</div>".toList) ++ post)))))) =
      if hasTokenCI cls then some post else none
  have hv : (ciStrip ("class=\"".toList)
      ('c' :: 'l' :: 'a' :: 's' :: 's' :: '=' :: '"' ::
        (cls ++ ('"' :: ('>' :: (x ++ (("</div>".toList) ++ post))))))).bind
      divClassTail =
      divClassTail (cls ++ ('"' :: ('>' :: (x ++ (("</div>".toList) ++ post))))) := rfl
  by_cases ht : hasTokenCI cls
  · have hd : divClassTail (cls ++ ('"' :: ('>' :: (x ++ (("</div>".toList) ++ post))))) =
        some post := by
      rw [divClassTail_at hcls hx, if_pos ht]
    rw [divTryClass_hit (hv.trans hd), if_pos ht]
  · have hd : divClassTail (cls ++ ('"' :: ('>' :: (x ++ (("</div>".toList) ++ post))))) =
        none := by
      rw [divClassTail_at hcls hx, if_neg ht]
    rw [divTryClass_step (hv.trans hd), if_neg ht]
    rfl

/-- The sanitizer on a div element with bracket-free class value, body and
trailing text: the element is removed exactly when the class value
contains a boilerplate token case-insensitively. -/
theorem extractMainContent_divStr {cls x post : Str}
    (hcls : ∀ c ∈ cls, isClsChar c = true) (hx : ∀ c ∈ x, c ≠ '<')
    (hpost : ∀ c ∈ post, c ≠ '<') :
    extractMainContent (divStr cls x post) =
      if hasTokenCI cls then post else divStr cls x post := by
  have hclslt : ∀ c ∈ cls, c ≠ '<' := fun c hc => isClsChar_ne_lt (hcls c hc)
  have hnav1 : scanFirst (navBlockMatcher ("nav".toList)) (divStr cls x post) = none :=
    scanFirst_none_divStr (navBlockMatcher_nil_eq _)
      (fun c t hc => navBlockMatcher_ne_lt hc) hclslt hx hpost rfl rfl
  have hnav2 : scanFirst (navBlockMatcher ("header".toList)) (divStr cls x post) = none :=
    scanFirst_none_divStr (navBlockMatcher_nil_eq _)
      (fun c t hc => navBlockMatcher_ne_lt hc) hclslt hx hpost rfl rfl
  have hnav3 : scanFirst (navBlockMatcher ("footer".toList)) (divStr cls x post) = none :=
    scanFirst_none_divStr (navBlockMatcher_nil_eq _)
      (fun c t hc => navBlockMatcher_ne_lt hc) hclslt hx hpost rfl rfl
  have hnav4 : scanFirst (navBlockMatcher ("aside".toList)) (divStr cls x post) = none :=
    scanFirst_none_divStr (navBlockMatcher_nil_eq _)
      (fun c t hc => navBlockMatcher_ne_lt hc) hclslt hx hpost rfl rfl
  simp only [extractMainContent]
  rw [replaceAll_of_none hnav1, replaceAll_of_none hnav2, replaceAll_of_none hnav3,
    replaceAll_of_none hnav4]
  by_cases ht : hasTokenCI cls
  · have hdm : divMatcher (divStr cls x post) = some post := by
      rw [divMatcher_on_divStr hcls hx, if_pos ht]
    have hps : scanFirst divMatcher post = none :=
      scanFirst_none_of_no_lt divMatcher_nil_eq (fun c t hc => divMatcher_ne_lt hc) hpost
    have h5 : replaceAll divMatcher (divStr cls x post) = post :=
      (replaceAll_once (fun hh => List.cons_ne_nil '<' _ hh)
        (scanFirst_of_head hdm) hps).trans (List.nil_append post)
    rw [h5]
    have h6 : replaceAll commentMatcher post = post :=
      replaceAll_of_none (scanFirst_none_of_no_lt commentMatcher_nil_eq
        (fun c t hc => commentMatcher_ne_lt hc) hpost)
    rw [h6]
    have hwa : scanFirst (wrapMatcher ("article".toList)) post = none :=
      scanFirst_none_of_no_lt (wrapMatcher_nil_eq _)
        (fun c t hc => wrapMatcher_ne_lt hc) hpost
    have hwm : scanFirst (wrapMatcher ("main".toList)) post = none :=
      scanFirst_none_of_no_lt (wrapMatcher_nil_eq _)
        (fun c t hc => wrapMatcher_ne_lt hc) hpost
    rw [hwa, hwm, if_pos ht]
  · have hdm : divMatcher (divStr cls x post) = none := by
      rw [divMatcher_on_divStr hcls hx, if_neg ht]
    have h5 : replaceAll divMatcher (divStr cls x post) = divStr cls x post :=
      replaceAll_of_none (scanFirst_none_divStr divMatcher_nil_eq
        (fun c t hc => divMatcher_ne_lt hc) hclslt hx hpost hdm rfl)
    rw [h5]
    have h6 : replaceAll commentMatcher (divStr cls x post) = divStr cls x post :=
      replaceAll_of_none (scanFirst_none_divStr commentMatcher_nil_eq
        (fun c t hc => commentMatcher_ne_lt hc) hclslt hx hpost rfl rfl)
    rw [h6]
    have hwa : scanFirst (wrapMatcher ("article".toList)) (divStr cls x post) = none :=
      scanFirst_none_divStr (wrapMatcher_nil_eq _)
        (fun c t hc => wrapMatcher_ne_lt hc) hclslt hx hpost rfl rfl
    have hwm : scanFirst (wrapMatcher ("main".toList)) (divStr cls x post) = none :=
      scanFirst_none_divStr (wrapMatcher_nil_eq _)
        (fun c t hc => wrapMatcher_ne_lt hc) hclslt hx hpost rfl rfl
    rw [hwa, hwm, if_neg ht]

theorem navWrap_hit_nav {inner post : Str} (hin : ∀ c ∈ inner, c ≠ '<') :
    navBlockMatcher ("nav".toList)
      (("<nav>".toList) ++ (inner ++ (("</nav>".toList) ++ post))) = some post := by
  have hm' : ∀ c t, c ≠ '<' →
      ciStrip ('<' :: '/' :: ("nav".toList) ++ ['>']) (c :: t) = none :=
    fun c t hc => ciStrip_head_lt_fail rfl hc
  have hscan : scanFirst (ciStrip ('<' :: '/' :: ("nav".toList) ++ ['>']))
      (inner ++ (("</nav>".toList) ++ post)) = some (inner ++ [], post) :=
    scanFirst_seg_then hm' hin
      (scanFirst_of_head (ciStrip_self_append ("</nav>".toList) post))
  have he : navBlockMatcher ("nav".toList)
      (("<nav>".toList) ++ (inner ++ (("</nav>".toList) ++ post))) =
      (match scanFirst (ciStrip ('<' :: '/' :: ("nav".toList) ++ ['>']))
        (inner ++ (("</nav>".toList) ++ post)) with
      | some (_, rest) => some rest
      | none => none) := rfl
  rw [he, hscan]

theorem navWrap_hit_header {inner post : Str} (hin : ∀ c ∈ inner, c ≠ '<') :
    navBlockMatcher ("header".toList)
      (("<header>".toList) ++ (inner ++ (("</header>".toList) ++ post))) = some post := by
  have hm' : ∀ c t, c ≠ '<' →
      ciStrip ('<' :: '/' :: ("header".toList) ++ ['>']) (c :: t) = none :=
    fun c t hc => ciStrip_head_lt_fail rfl hc
  have hscan : scanFirst (ciStrip ('<' :: '/' :: ("header".toList) ++ ['>']))
      (inner ++ (("</header>".toList) ++ post)) = some (inner ++ [], post) :=
    scanFirst_seg_then hm' hin
      (scanFirst_of_head (ciStrip_self_append ("</header>".toList) post))
  have he : navBlockMatcher ("header".toList)
      (("<header>".toList) ++ (inner ++ (("</header>".toList) ++ post))) =
      (match scanFirst (ciStrip ('<' :: '/' :: ("header".toList) ++ ['>']))
        (inner ++ (("</header>".toList) ++ post)) with
      | some (_, rest) => some rest
      | none => none) := rfl
  rw [he, hscan]

theorem navWrap_hit_footer {inner post : Str} (hin : ∀ c ∈ inner, c ≠ '<') :
    navBlockMatcher ("footer".toList)
      (("<footer>".toList) ++ (inner ++ (("</footer>".toList) ++ post))) = some post := by
  have hm' : ∀ c t, c ≠ '<' →
      ciStrip ('<' :: '/' :: ("footer".toList) ++ ['>']) (c :: t) = none :=
    fun c t hc => ciStrip_head_lt_fail rfl hc
  have hscan : scanFirst (ciStrip ('<' :: '/' :: ("footer".toList) ++ ['>']))
      (inner ++ (("</footer>".toList) ++ post)) = some (inner ++ [], post) :=
    scanFirst_seg_then hm' hin
      (scanFirst_of_head (ciStrip_self_append ("</footer>".toList) post))
  have he : navBlockMatcher ("footer".toList)
      (("<footer>".toList) ++ (inner ++ (("</footer>".toList) ++ post))) =
      (match scanFirst (ciStrip ('<' :: '/' :: ("footer".toList) ++ ['>']))
        (inner ++ (("</footer>".toList) ++ post)) with
      | some (_, rest) => some rest
      | none => none) := rfl
  rw [he, hscan]

theorem navWrap_hit_aside {inner post : Str} (hin : ∀ c ∈ inner, c ≠ '<') :
    navBlockMatcher ("aside".toList)
      (("<aside>".toList) ++ (inner ++ (("</aside>".toList) ++ post))) = some post := by
  have hm' : ∀ c t, c ≠ '<' →
      ciStrip ('<' :: '/' :: ("aside".toList) ++ ['>']) (c :: t) = none :=
    fun c t hc => ciStrip_head_lt_fail rfl hc
  have hscan : scanFirst (ciStrip ('<' :: '/' :: ("aside".toList) ++ ['>']))
      (inner ++ (("</aside>".toList) ++ post)) = some (inner ++ [], post) :=
    scanFirst_seg_then hm' hin
      (scanFirst_of_head (ciStrip_self_append ("</aside>".toList) post))
  have he : navBlockMatcher ("aside".toList)
      (("<aside>".toList) ++ (inner ++ (("</aside>".toList) ++ post))) =
      (match scanFirst (ciStrip ('<' :: '/' :: ("aside".toList) ++ ['>']))
        (inner ++ (("</aside>".toList) ++ post)) with
      | some (_, rest) => some rest
      | none => none) := rfl
  rw [he, hscan]

theorem extractMainContent_navWrap {inner post : Str}
    (hin : ∀ c ∈ inner, c ≠ '<') (hpost : ∀ c ∈ post, c ≠ '<') :
    extractMainContent (("<nav>".toList) ++ (inner ++ (("</nav>".toList) ++ post))) =
      post := by
  have hnavpost : ∀ tag : Str, replaceAll (navBlockMatcher tag) post = post := fun tag =>
    replaceAll_of_none (scanFirst_none_of_no_lt (navBlockMatcher_nil_eq _)
      (fun c t hc => navBlockMatcher_ne_lt hc) hpost)
  have h1 : replaceAll (navBlockMatcher ("nav".toList))
      (("<nav>".toList) ++ (inner ++ (("</nav>".toList) ++ post))) = post :=
    (replaceAll_once (fun hh => List.cons_ne_nil '<' _ hh)
      (scanFirst_of_head (navWrap_hit_nav hin))
      (scanFirst_none_of_no_lt (navBlockMatcher_nil_eq _)
        (fun c t hc => navBlockMatcher_ne_lt hc) hpost)).trans (List.nil_append post)
  have hdp : replaceAll divMatcher post = post :=
    replaceAll_of_none (scanFirst_none_of_no_lt divMatcher_nil_eq
      (fun c t hc => divMatcher_ne_lt hc) hpost)
  have hcp : replaceAll commentMatcher post = post :=
    replaceAll_of_none (scanFirst_none_of_no_lt commentMatcher_nil_eq
      (fun c t hc => commentMatcher_ne_lt hc) hpost)
  have hwa : scanFirst (wrapMatcher ("article".toList)) post = none :=
    scanFirst_none_of_no_lt (wrapMatcher_nil_eq _)
      (fun c t hc => wrapMatcher_ne_lt hc) hpost
  have hwm : scanFirst (wrapMatcher ("main".toList)) post = none :=
    scanFirst_none_of_no_lt (wrapMatcher_nil_eq _)
      (fun c t hc => wrapMatcher_ne_lt hc) hpost
  simp only [extractMainContent]
  rw [h1, hnavpost ("header".toList), hnavpost ("footer".toList),
    hnavpost ("aside".toList), hdp, hcp, hwa, hwm]

theorem extractMainContent_headerWrap {inner post : Str}
    (hin : ∀ c ∈ inner, c ≠ '<') (hpost : ∀ c ∈ post, c ≠ '<') :
    extractMainContent (("<header>".toList) ++ (inner ++ (("</header>".toList) ++ post))) =
      post := by
  have hnavpost : ∀ tag : Str, replaceAll (navBlockMatcher tag) post = post := fun tag =>
    replaceAll_of_none (scanFirst_none_of_no_lt (navBlockMatcher_nil_eq _)
      (fun c t hc => navBlockMatcher_ne_lt hc) hpost)
  have h0 : scanFirst (navBlockMatcher ("nav".toList))
      (("<header>".toList) ++ (inner ++ (("</header>".toList) ++ post))) = none :=
    @scanFirst_none_two_lt Str (navBlockMatcher ("nav".toList))
      (navBlockMatcher_nil_eq _) (fun c t hc => navBlockMatcher_ne_lt hc)
      ("header>".toList) ("/header>".toList) inner post
      (by decide) (by decide) hin hpost rfl rfl
  have h1 : replaceAll (navBlockMatcher ("header".toList))
      (("<header>".toList) ++ (inner ++ (("</header>".toList) ++ post))) = post :=
    (replaceAll_once (fun hh => List.cons_ne_nil '<' _ hh)
      (scanFirst_of_head (navWrap_hit_header hin))
      (scanFirst_none_of_no_lt (navBlockMatcher_nil_eq _)
        (fun c t hc => navBlockMatcher_ne_lt hc) hpost)).trans (List.nil_append post)
  have hdp : replaceAll divMatcher post = post :=
    replaceAll_of_none (scanFirst_none_of_no_lt divMatcher_nil_eq
      (fun c t hc => divMatcher_ne_lt hc) hpost)
  have hcp : replaceAll commentMatcher post = post :=
    replaceAll_of_none (scanFirst_none_of_no_lt commentMatcher_nil_eq
      (fun c t hc => commentMatcher_ne_lt hc) hpost)
  have hwa : scanFirst (wrapMatcher ("article".toList)) post = none :=
    scanFirst_none_of_no_lt (wrapMatcher_nil_eq _)
      (fun c t hc => wrapMatcher_ne_lt hc) hpost
  have hwm : scanFirst (wrapMatcher ("main".toList)) post = none :=
    scanFirst_none_of_no_lt (wrapMatcher_nil_eq _)
      (fun c t hc => wrapMatcher_ne_lt hc) hpost
  simp only [extractMainContent]
  rw [replaceAll_of_none h0, h1, hnavpost ("footer".toList),
    hnavpost ("aside".toList), hdp, hcp, hwa, hwm]

theorem extractMainContent_footerWrap {inner post : Str}
    (hin : ∀ c ∈ inner, c ≠ '<') (hpost : ∀ c ∈ post, c ≠ '<') :
    extractMainContent (("<footer>".toList) ++ (inner ++ (("</footer>".toList) ++ post))) =
      post := by
  have hnavpost : ∀ tag : Str, replaceAll (navBlockMatcher tag) post = post := fun tag =>
    replaceAll_of_none (scanFirst_none_of_no_lt (navBlockMatcher_nil_eq _)
      (fun c t hc => navBlockMatcher_ne_lt hc) hpost)
  have h0a : scanFirst (navBlockMatcher ("nav".toList))
      (("<footer>".toList) ++ (inner ++ (("</footer>".toList) ++ post))) = none :=
    @scanFirst_none_two_lt Str (navBlockMatcher ("nav".toList))
      (navBlockMatcher_nil_eq _) (fun c t hc => navBlockMatcher_ne_lt hc)
      ("footer>".toList) ("/footer>".toList) inner post
      (by decide) (by decide) hin hpost rfl rfl
  have h0b : scanFirst (navBlockMatcher ("header".toList))
      (("<footer>".toList) ++ (inner ++ (("</footer>".toList) ++ post))) = none :=
    @scanFirst_none_two_lt Str (navBlockMatcher ("header".toList))
      (navBlockMatcher_nil_eq _) (fun c t hc => navBlockMatcher_ne_lt hc)
      ("footer>".toList) ("/footer>".toList) inner post
      (by decide) (by decide) hin hpost rfl rfl
  have h1 : replaceAll (navBlockMatcher ("footer".toList))
      (("<footer>".toList) ++ (inner ++ (("</footer>".toList) ++ post))) = post :=
    (replaceAll_once (fun hh => List.cons_ne_nil '<' _ hh)
      (scanFirst_of_head (navWrap_hit_footer hin))
      (scanFirst_none_of_no_lt (navBlockMatcher_nil_eq _)
        (fun c t hc => navBlockMatcher_ne_lt hc) hpost)).trans (List.nil_append post)
  have hdp : replaceAll divMatcher post = post :=
    replaceAll_of_none (scanFirst_none_of_no_lt divMatcher_nil_eq
      (fun c t hc => divMatcher_ne_lt hc) hpost)
  have hcp : replaceAll commentMatcher post = post :=
    replaceAll_of_none (scanFirst_none_of_no_lt commentMatcher_nil_eq
      (fun c t hc => commentMatcher_ne_lt hc) hpost)
  have hwa : scanFirst (wrapMatcher ("article".toList)) post = none :=
    scanFirst_none_of_no_lt (wrapMatcher_nil_eq _)
      (fun c t hc => wrapMatcher_ne_lt hc) hpost
  have hwm : scanFirst (wrapMatcher ("main".toList)) post = none :=
    scanFirst_none_of_no_lt (wrapMatcher_nil_eq _)
      (fun c t hc => wrapMatcher_ne_lt hc) hpost
  simp only [extractMainContent]
  rw [replaceAll_of_none h0a, replaceAll_of_none h0b, h1,
    hnavpost ("aside".toList), hdp, hcp, hwa, hwm]

theorem extractMainContent_asideWrap {inner post : Str}
    (hin : ∀ c ∈ inner, c ≠ '<') (hpost : ∀ c ∈ post, c ≠ '<') :
    extractMainContent (("<aside>".toList) ++ (inner ++ (("</aside>".toList) ++ post))) =
      post := by
  have h0a : scanFirst (navBlockMatcher ("nav".toList))
      (("<aside>".toList) ++ (inner ++ (("</aside>".toList) ++ post))) = none :=
    @scanFirst_none_two_lt Str (navBlockMatcher ("nav".toList))
      (navBlockMatcher_nil_eq _) (fun c t hc => navBlockMatcher_ne_lt hc)
      ("aside>".toList) ("/aside>".toList) inner post
      (by decide) (by decide) hin hpost rfl rfl
  have h0b : scanFirst (navBlockMatcher ("header".toList))
      (("<aside>".toList) ++ (inner ++ (("</aside>".toList) ++ post))) = none :=
    @scanFirst_none_two_lt Str (navBlockMatcher ("header".toList))
      (navBlockMatcher_nil_eq _) (fun c t hc => navBlockMatcher_ne_lt hc)
      ("aside>".toList) ("/aside>".toList) inner post
      (by decide) (by decide) hin hpost rfl rfl
  have h0c : scanFirst (navBlockMatcher ("footer".toList))
      (("<aside>".toList) ++ (inner ++ (("</aside>".toList) ++ post))) = none :=
    @scanFirst_none_two_lt Str (navBlockMatcher ("footer".toList))
      (navBlockMatcher_nil_eq _) (fun c t hc => navBlockMatcher_ne_lt hc)
      ("aside>".toList) ("/aside>".toList) inner post
      (by decide) (by decide) hin hpost rfl rfl
  have h1 : replaceAll (navBlockMatcher ("aside".toList))
      (("<aside>".toList) ++ (inner ++ (("</aside>".toList) ++ post))) = post :=
    (replaceAll_once (fun hh => List.cons_ne_nil '<' _ hh)
      (scanFirst_of_head (navWrap_hit_aside hin))
      (scanFirst_none_of_no_lt (navBlockMatcher_nil_eq _)
        (fun c t hc => navBlockMatcher_ne_lt hc) hpost)).trans (List.nil_append post)
  have hdp : replaceAll divMatcher post = post :=
    replaceAll_of_none (scanFirst_none_of_no_lt divMatcher_nil_eq
      (fun c t hc => divMatcher_ne_lt hc) hpost)
  have hcp : replaceAll commentMatcher post = post :=
    replaceAll_of_none (scanFirst_none_of_no_lt commentMatcher_nil_eq
      (fun c t hc => commentMatcher_ne_lt hc) hpost)
  have hwa : scanFirst (wrapMatcher ("article".toList)) post = none :=
    scanFirst_none_of_no_lt (wrapMatcher_nil_eq _)
      (fun c t hc => wrapMatcher_ne_lt hc) hpost
  have hwm : scanFirst (wrapMatcher ("main".toList)) post = none :=
    scanFirst_none_of_no_lt (wrapMatcher_nil_eq _)
      (fun c t hc => wrapMatcher_ne_lt hc) hpost
  simp only [extractMainContent]
  rw [replaceAll_of_none h0a, replaceAll_of_none h0b, replaceAll_of_none h0c, h1,
    hdp, hcp, hwa, hwm]

/-- C8 counterexample: the sanitizer removes a div whose class value is
SIDEBAR although no boilerplate token occurs in that value as a
case-sensitive substring; the i flag of the removal pattern makes the
token containment case-insensitive, contrary to the claim that a class
differing only in letter case from every token is not removed. -/
theorem html_sanitizer_case_counterexample :
    extractMainContent (("<div class=\"SIDEBAR\">x</div>keep").toList) =
      ("keep").toList ∧
    boilerTokens.all (fun tok => !(containsStr tok (("SIDEBAR").toList))) = true := by
  constructor
  · decide
  · decide

/-- C8 (amended): the sanitizer removes a div element with a double-quoted
class value exactly when that value contains one of the boilerplate tokens
sidebar, advertisement, ads, comments, related, social, share as a
substring matched case-insensitively (the containment test of the code
agrees with the case-insensitive substring test modelled from the spec's
vocabulary), and removes nav, header, footer and aside elements
unconditionally; stated for elements whose class value draws on the
class-attribute alphabet and whose body and trailing text are free of
opening angle brackets. -/
theorem html_sanitizer_boilerplate :
    (∀ cls x post : Str, (∀ c ∈ cls, isClsChar c = true) → (∀ c ∈ x, c ≠ '<') →
      (∀ c ∈ post, c ≠ '<') →
      extractMainContent (divStr cls x post) =
        (if hasTokenCI cls then post else divStr cls x post)) ∧
    (∀ cls : Str, hasTokenCI cls = specHasToken cls) ∧
    (∀ inner post : Str, (∀ c ∈ inner, c ≠ '<') → (∀ c ∈ post, c ≠ '<') →
      extractMainContent
        (("<nav>".toList) ++ (inner ++ (("</nav>".toList) ++ post))) = post ∧
      extractMainContent
        (("<header>".toList) ++ (inner ++ (("</header>".toList) ++ post))) = post ∧
      extractMainContent
        (("<footer>".toList) ++ (inner ++ (("</footer>".toList) ++ post))) = post ∧
      extractMainContent
        (("<aside>".toList) ++ (inner ++ (("</aside>".toList) ++ post))) = post) :=
  ⟨fun _ _ _ hcls hx hpost => extractMainContent_divStr hcls hx hpost,
   hasTokenCI_eq,
   fun _ _ hin hpost =>
    ⟨extractMainContent_navWrap hin hpost, extractMainContent_headerWrap hin hpost,
     extractMainContent_footerWrap hin hpost, extractMainContent_asideWrap hin hpost⟩⟩

/-- Witness: the amended sanitizer property applied at concrete inputs — a
div whose class value contains sidebar in mixed case is removed, and a nav
element is removed unconditionally. -/
theorem html_sanitizer_boilerplate_witness :
    extractMainContent (divStr (("my-Sidebar").toList) (("x").toList)
      (("keep").toList)) = ("keep").toList ∧
    extractMainContent (("<nav>".toList) ++ ((("menu").toList) ++
      (("</nav>".toList) ++ (("rest").toList)))) = ("rest").toList := by
  constructor
  · have h := html_sanitizer_boilerplate.1 (("my-Sidebar").toList) (("x").toList)
      (("keep").toList) (by decide) (by decide) (by decide)
    rw [h]
    decide
  · exact (html_sanitizer_boilerplate.2.2 (("menu").toList) (("rest").toList)
      (by decide) (by decide)).1

/-! ## The documented question template

A plain-field alphabet keeps every scanner of the field extractor away
from accidental matches inside the free-text fields: the letters f
through p contain no answer letter, no digit and none of the characters
that can begin or continue a marker word. -/

/-- The field alphabet of the template analysis: the letters f to p. -/
def plainCh (c : Char) : Bool := decide ('f' ≤ c ∧ c ≤ 'p')

theorem lowerAscii_eq_self_of_plain {c : Char} (h : plainCh c = true) :
    lowerAscii c = c := by
  simp only [plainCh, decide_eq_true_eq] at h
  unfold lowerAscii
  rw [if_neg]
  rintro ⟨-, h2⟩
  have hf := h.1
  rw [Char.le_def] at hf h2
  have hf2 : 102 ≤ c.toNat := hf
  have h22 : c.toNat ≤ 90 := h2
  omega

theorem plain_ne {c z : Char} (hp : plainCh c = true) (hz : plainCh z = false) :
    c ≠ z := by
  intro h
  subst h
  rw [hp] at hz
  cases hz

theorem plain_lower_ne {c z : Char} (hp : plainCh c = true) (hz : plainCh z = false) :
    ¬ lowerAscii c = z := by
  rw [lowerAscii_eq_self_of_plain hp]
  exact plain_ne hp hz

theorem plain_ws_false {c : Char} (h : plainCh c = true) : isJsWs c = false := by
  simp only [plainCh, decide_eq_true_eq] at h
  by_contra hw
  rw [Bool.not_eq_false] at hw
  have h15 : c = ' ' ∨ c = '\t' ∨ c = '\n' ∨ c = '\x0b' ∨ c = '\x0c' ∨ c = '\r' ∨
      c = ' ' ∨ c = ' ' ∨ (' ' ≤ c ∧ c ≤ ' ') ∨ c = ' ' ∨
      c = ' ' ∨ c = ' ' ∨ c = ' ' ∨ c = '　' ∨ c = '﻿' := by
    simpa [isJsWs, or_assoc] using hw
  rcases h15 with rfl | rfl | rfl | rfl | rfl | rfl | rfl | rfl | hrange |
    rfl | rfl | rfl | rfl | rfl | rfl <;>
    first
      | exact absurd h.1 (by decide)
      | exact absurd h.2 (by decide)
      | exact absurd (le_trans hrange.1 h.2) (by decide)

theorem plain_wsColon_false {c : Char} (h : plainCh c = true) : isWsColon c = false := by
  have h2 : (c == ':') = false := by
    simp [plain_ne h (show plainCh ':' = false from by decide)]
  simp [isWsColon, plain_ws_false h, h2]

theorem plain_dot_true {c : Char} (h : plainCh c = true) : isDotCh c = true := by
  simp [isDotCh, plain_ne h (show plainCh '\n' = false from by decide),
    plain_ne h (show plainCh '\r' = false from by decide),
    plain_ne h (show plainCh ' ' = false from by decide),
    plain_ne h (show plainCh ' ' = false from by decide)]

theorem letterAD_cases {c : Char} (h : letterAD c = true) :
    c = 'A' ∨ c = 'B' ∨ c = 'C' ∨ c = 'D' ∨ c = 'a' ∨ c = 'b' ∨ c = 'c' ∨ c = 'd' := by
  simpa [letterAD, or_assoc] using h

theorem letterAD_ne_nl {c : Char} (h : letterAD c = true) : c ≠ '\n' := by
  rcases letterAD_cases h with rfl | rfl | rfl | rfl | rfl | rfl | rfl | rfl <;> decide

theorem letterAD_lower_ne_q {c : Char} (h : letterAD c = true) :
    ¬ lowerAscii c = 'q' := by
  rcases letterAD_cases h with rfl | rfl | rfl | rfl | rfl | rfl | rfl | rfl <;> decide

theorem letterAD_lower_ne_e {c : Char} (h : letterAD c = true) :
    ¬ lowerAscii c = 'e' := by
  rcases letterAD_cases h with rfl | rfl | rfl | rfl | rfl | rfl | rfl | rfl <;> decide

/-! Single-position failure lemmas for the scanners of the field
extractor, by the head character alone. -/

theorem ciStrip_headq_ne {pat : Str} {p c : Char} {t : Str} (hp : pat.head? = some p)
    (h : ¬ lowerAscii c = lowerAscii p) : ciStrip pat (c :: t) = none := by
  cases pat with
  | nil => cases hp
  | cons p' ps =>
    have h2 : some p' = some p := hp
    injection h2 with hpe
    rw [← hpe] at h
    show (if lowerAscii c = lowerAscii p' then ciStrip ps t else none) = none
    rw [if_neg h]

theorem matchMarkerAt_ne_q {c : Char} {t : Str} (h : ¬ lowerAscii c = 'q') :
    matchMarkerAt (c :: t) = none := by
  unfold matchMarkerAt
  rw [ciStrip_headq_ne (show (("question".toList : Str)).head? = some 'q' from rfl)
    (show ¬ lowerAscii c = lowerAscii 'q' from h)]

theorem matchCorrect_ne_head {c : Char} {t : Str} (h : ¬ lowerAscii c = 'c') :
    matchCorrect (c :: t) = none := by
  unfold matchCorrect
  rw [ciStrip_headq_ne (show (("correct".toList : Str)).head? = some 'c' from rfl)
    (show ¬ lowerAscii c = lowerAscii 'c' from h)]

theorem matchCorrect_ne2 {c₀ c₁ : Char} {t : Str} (h : ¬ lowerAscii c₁ = 'o') :
    matchCorrect (c₀ :: (c₁ :: t)) = none := by
  unfold matchCorrect
  by_cases h0 : lowerAscii c₀ = lowerAscii 'c'
  · rw [show ciStrip ("correct".toList) (c₀ :: (c₁ :: t)) =
        (if lowerAscii c₀ = lowerAscii 'c' then ciStrip ("orrect".toList) (c₁ :: t)
         else none) from rfl,
      if_pos h0,
      ciStrip_headq_ne (show (("orrect".toList : Str)).head? = some 'o' from rfl)
        (show ¬ lowerAscii c₁ = lowerAscii 'o' from h)]
  · rw [ciStrip_headq_ne (show (("correct".toList : Str)).head? = some 'c' from rfl) h0]

theorem matchExpl_ne_head {c : Char} {t : Str} (h : ¬ lowerAscii c = 'e') :
    matchExpl (c :: t) = none := by
  unfold matchExpl
  rw [ciStrip_headq_ne (show (("explanation".toList : Str)).head? = some 'e' from rfl)
    (show ¬ lowerAscii c = lowerAscii 'e' from h)]

theorem matchP1_ne_head {L : Char} {nl : Str} {c₀ : Char} {s : Str}
    (h : ¬ lowerAscii c₀ = lowerAscii L) : matchP1 L nl (c₀ :: s) = none := by
  unfold matchP1
  split
  · rename_i a rest heq
    injection heq with h1 h2
    subst h1
    rw [if_neg h]
  · rfl

theorem matchP1_ne_dot {L : Char} {nl : Str} {c₀ c₁ : Char} {t : Str}
    (h : c₁ ≠ '.') : matchP1 L nl (c₀ :: (c₁ :: t)) = none := by
  unfold matchP1
  split
  · rename_i a rest heq
    injection heq with h1 h2
    injection h2 with h3 h4
    exact absurd h3 h
  · rfl

theorem matchP2_ne_head {L : Char} {c₀ : Char} {s : Str}
    (h : ¬ lowerAscii c₀ = lowerAscii L) : matchP2 L (c₀ :: s) = none := by
  unfold matchP2
  split
  · rename_i a rest heq
    injection heq with h1 h2
    subst h1
    rw [if_neg h]
  · rfl

theorem matchP2_ne_dot {L : Char} {c₀ c₁ : Char} {t : Str}
    (h : c₁ ≠ '.') : matchP2 L (c₀ :: (c₁ :: t)) = none := by
  unfold matchP2
  split
  · rename_i a rest heq
    injection heq with h1 h2
    injection h2 with h3 h4
    exact absurd h3 h
  · rfl

/-! Lookahead-failure and scanner step lemmas. -/

theorem stemBoundary_ne_nl {c : Char} {t : Str} (h : c ≠ '\n') :
    stemBoundary (c :: t) = false := by
  unfold stemBoundary
  split
  · rename_i t' heq
    injection heq with h1 h2
    exact absurd h1 h
  · rfl

theorem optBoundary_ne_nl {nl : Str} {c : Char} {t : Str} (h : c ≠ '\n') :
    optBoundary nl (c :: t) = false := by
  unfold optBoundary
  split
  · rename_i t' heq
    injection heq with h1 h2
    exact absurd h1 h
  · rfl

theorem explStop_ne_nl {c : Char} {t : Str} (h : c ≠ '\n') :
    explStop (c :: t) = false := by
  unfold explStop
  split
  · rename_i heq
    cases heq
  · rename_i t' heq
    injection heq with h1 h2
    exact absurd h1 h
  · rfl

theorem stemScanGo_step {acc : Str} {c : Char} {t : Str}
    (h : stemBoundary (c :: t) = false) :
    stemScanGo acc (c :: t) = stemScanGo (c :: acc) t := by
  show (if stemBoundary (c :: t) = true then some acc.reverse
    else stemScanGo (c :: acc) t) = stemScanGo (c :: acc) t
  rw [h, if_neg (by decide)]

theorem stemScanGo_hit {acc : Str} {c : Char} {t : Str}
    (h : stemBoundary (c :: t) = true) :
    stemScanGo acc (c :: t) = some acc.reverse := by
  show (if stemBoundary (c :: t) = true then some acc.reverse
    else stemScanGo (c :: acc) t) = some acc.reverse
  rw [h, if_pos rfl]

theorem stemScanGo_seg : ∀ (seg : Str), (∀ c ∈ seg, c ≠ '\n') → ∀ (acc X : Str),
    stemScanGo acc (seg ++ X) = stemScanGo (seg.reverse ++ acc) X := by
  intro seg
  induction seg with
  | nil => intro _ acc X; rfl
  | cons c t ih =>
    intro hseg acc X
    rw [show ((c :: t) ++ X : Str) = c :: (t ++ X) from rfl]
    rw [stemScanGo_step (stemBoundary_ne_nl (hseg c (by simp)))]
    rw [ih (fun d hd => hseg d (by simp [hd])) (c :: acc) X]
    congr 1
    simp

theorem p1Go_step {nl acc : Str} {c : Char} {t : Str}
    (h : optBoundary nl (c :: t) = false) :
    p1Go nl acc (c :: t) = p1Go nl (c :: acc) t := by
  show (if optBoundary nl (c :: t) = true then some acc.reverse
    else p1Go nl (c :: acc) t) = p1Go nl (c :: acc) t
  rw [h, if_neg (by decide)]

theorem p1Go_hit {nl acc : Str} {c : Char} {t : Str}
    (h : optBoundary nl (c :: t) = true) :
    p1Go nl acc (c :: t) = some acc.reverse := by
  show (if optBoundary nl (c :: t) = true then some acc.reverse
    else p1Go nl (c :: acc) t) = some acc.reverse
  rw [h, if_pos rfl]

theorem p1Go_seg {nl : Str} : ∀ (seg : Str), (∀ c ∈ seg, c ≠ '\n') → ∀ (acc X : Str),
    p1Go nl acc (seg ++ X) = p1Go nl (seg.reverse ++ acc) X := by
  intro seg
  induction seg with
  | nil => intro _ acc X; rfl
  | cons c t ih =>
    intro hseg acc X
    rw [show ((c :: t) ++ X : Str) = c :: (t ++ X) from rfl]
    rw [p1Go_step (optBoundary_ne_nl (hseg c (by simp)))]
    rw [ih (fun d hd => hseg d (by simp [hd])) (c :: acc) X]
    congr 1
    simp

theorem p2Go_step {acc : Str} {c : Char} {t : Str}
    (h1 : c ≠ '\n') (h2 : isDotCh c = true) :
    p2Go acc (c :: t) = p2Go (c :: acc) t := by
  show (if c = '\n' then some acc.reverse
    else if isDotCh c = true then p2Go (c :: acc) t else none) = p2Go (c :: acc) t
  rw [if_neg h1, if_pos h2]

theorem p2Go_hit {acc t : Str} : p2Go acc ('\n' :: t) = some acc.reverse := rfl

theorem p2Go_seg : ∀ (seg : Str), (∀ c ∈ seg, c ≠ '\n' ∧ isDotCh c = true) →
    ∀ (acc X : Str), p2Go acc (seg ++ X) = p2Go (seg.reverse ++ acc) X := by
  intro seg
  induction seg with
  | nil => intro _ acc X; rfl
  | cons c t ih =>
    intro hseg acc X
    rw [show ((c :: t) ++ X : Str) = c :: (t ++ X) from rfl]
    rw [p2Go_step (hseg c (by simp)).1 (hseg c (by simp)).2]
    rw [ih (fun d hd => hseg d (by simp [hd])) (c :: acc) X]
    congr 1
    simp

theorem explGo_step {acc : Str} {c : Char} {t : Str} (h : explStop (c :: t) = false) :
    explGo acc (c :: t) = explGo (c :: acc) t := by
  show (if explStop (c :: t) = true then acc.reverse
    else explGo (c :: acc) t) = explGo (c :: acc) t
  rw [h, if_neg (by decide)]

theorem explGo_seg : ∀ (seg : Str), (∀ c ∈ seg, c ≠ '\n') → ∀ (acc X : Str),
    explGo acc (seg ++ X) = explGo (seg.reverse ++ acc) X := by
  intro seg
  induction seg with
  | nil => intro _ acc X; rfl
  | cons c t ih =>
    intro hseg acc X
    rw [show ((c :: t) ++ X : Str) = c :: (t ++ X) from rfl]
    rw [explGo_step (explStop_ne_nl (hseg c (by simp)))]
    rw [ih (fun d hd => hseg d (by simp [hd])) (c :: acc) X]
    congr 1
    simp

/-! Predicate-parameterized leftmost-scan lemmas. -/

theorem scanFirst_none_seg_p {m : Str → Option α} {P : Char → Prop}
    (hm : ∀ c t, P c → m (c :: t) = none) :
    ∀ (seg : Str), (∀ c ∈ seg, P c) → ∀ {r : Str},
      scanFirst m r = none → scanFirst m (seg ++ r) = none := by
  intro seg
  induction seg with
  | nil => intro _ r hr; exact hr
  | cons c t ih =>
    intro hseg r hr
    exact scanFirst_none_cons (hm c (t ++ r) (hseg c (by simp)))
      (ih (fun d hd => hseg d (by simp [hd])) hr)

theorem scanFirst_cons_then {m : Str → Option α} {c : Char} {t : Str} {q : Str × α}
    (h1 : m (c :: t) = none) (h2 : scanFirst m t = some q) :
    scanFirst m (c :: t) = some (c :: q.1, q.2) := by
  cases q with
  | mk p a =>
    rw [scanFirst_cons_none_eq h1, h2]

theorem scanFirst_seg_then_p {m : Str → Option α} {P : Char → Prop}
    (hm : ∀ c t, P c → m (c :: t) = none) :
    ∀ (seg : Str), (∀ c ∈ seg, P c) → ∀ {r : Str} {q : Str × α},
      scanFirst m r = some q → scanFirst m (seg ++ r) = some (seg ++ q.1, q.2) := by
  intro seg
  induction seg with
  | nil =>
    intro _ r q hr
    simpa using hr
  | cons c t ih =>
    intro hseg r q hr
    have h2 := ih (fun d hd => hseg d (by simp [hd])) hr
    have h1 : m (c :: (t ++ r)) = none := hm c (t ++ r) (hseg c (by simp))
    have h3 := scanFirst_cons_then h1 h2
    simpa using h3

/-! The template and its segmentation. -/

/-- The body of the single documented question template: the text between
the question marker and the end of the input. -/
def bodyT (stem o1 o2 o3 o4 : Str) (L : Char) (ex : Str) : Str :=
  ' ' :: (stem ++ (("\nA. ".toList) ++ (o1 ++ (("\nB. ".toList) ++ (o2 ++
    (("\nC. ".toList) ++ (o3 ++ (("\nD. ".toList) ++ (o4 ++
    (("\nCorrect Answer: ".toList) ++ (L :: (("\nExplanation: ".toList) ++ ex))))))))))))

/-- The documented question template with numeric label N: the marker
line, a stem, the four option lines, a correct-answer line and an
explanation line. -/
def tmpl (N stem o1 o2 o3 o4 : Str) (L : Char) (ex : Str) : Str :=
  ("Question ".toList) ++ (N ++ (':' :: bodyT stem o1 o2 o3 o4 L ex))

/-- Case split on where a character of the template body lives: in the
scaffolding, in one of the free-text fields, or at the answer letter. -/
theorem bodyT_all {stem o1 o2 o3 o4 : Str} {L : Char} {ex : Str} {P : Char → Prop}
    (hsc : ∀ c ∈ ((" \nA. \nB. \nC. \nD. \nCorrect Answer: \nExplanation: ").toList : Str),
      P c)
    (hstem : ∀ c ∈ stem, P c) (h1 : ∀ c ∈ o1, P c) (h2 : ∀ c ∈ o2, P c)
    (h3 : ∀ c ∈ o3, P c) (h4 : ∀ c ∈ o4, P c) (hL : P L) (hex : ∀ c ∈ ex, P c) :
    ∀ c ∈ bodyT stem o1 o2 o3 o4 L ex, P c := by
  intro c hc
  unfold bodyT at hc
  simp only [List.mem_cons, List.mem_append] at hc
  rcases hc with rfl | hc | hc | hc | hc | hc | hc | hc | hc | hc | hc | rfl | hc | hc
  · exact hsc ' ' (by decide)
  · exact hstem c hc
  · exact hsc c ((by decide : ("\nA. ".toList : Str) ⊆
      ((" \nA. \nB. \nC. \nD. \nCorrect Answer: \nExplanation: ").toList : Str)) hc)
  · exact h1 c hc
  · exact hsc c ((by decide : ("\nB. ".toList : Str) ⊆
      ((" \nA. \nB. \nC. \nD. \nCorrect Answer: \nExplanation: ").toList : Str)) hc)
  · exact h2 c hc
  · exact hsc c ((by decide : ("\nC. ".toList : Str) ⊆
      ((" \nA. \nB. \nC. \nD. \nCorrect Answer: \nExplanation: ").toList : Str)) hc)
  · exact h3 c hc
  · exact hsc c ((by decide : ("\nD. ".toList : Str) ⊆
      ((" \nA. \nB. \nC. \nD. \nCorrect Answer: \nExplanation: ").toList : Str)) hc)
  · exact h4 c hc
  · exact hsc c ((by decide : ("\nCorrect Answer: ".toList : Str) ⊆
      ((" \nA. \nB. \nC. \nD. \nCorrect Answer: \nExplanation: ").toList : Str)) hc)
  · exact hL
  · exact hsc c ((by decide : ("\nExplanation: ".toList : Str) ⊆
      ((" \nA. \nB. \nC. \nD. \nCorrect Answer: \nExplanation: ").toList : Str)) hc)
  · exact hex c hc

theorem matchMarkerAt_eval {s r1 : Str} (h1 : ciStrip ("question".toList) s = some r1)
    {w1 : Str} (hw1 : r1.takeWhile isJsWs = w1) (hw1ne : w1 ≠ [])
    {r2 : Str} (hr2 : r1.dropWhile isJsWs = r2)
    {ds : Str} (hds : r2.takeWhile isDigitCh = ds) (hdsne : ds ≠ [])
    {r3 : Str} (hr3 : r2.dropWhile isDigitCh = r3)
    {r5 : Str} (hr5 : r3.dropWhile isJsWs = ':' :: r5) :
    matchMarkerAt s = some (s.take (s.length - r5.length), ds, r5) := by
  unfold matchMarkerAt
  rw [h1]
  simp only [hw1, hr2, hds, hr3, hr5, if_neg hw1ne, if_neg hdsne]

theorem matchMarkerAt_tmpl {N stem o1 o2 o3 o4 : Str} {L : Char} {ex : Str}
    (hN : N ≠ []) (hNd : ∀ c ∈ N, isDigitCh c = true) :
    ∃ mt, matchMarkerAt (tmpl N stem o1 o2 o3 o4 L ex) =
      some (mt, N, bodyT stem o1 o2 o3 o4 L ex) := by
  obtain ⟨n0, N', rfl⟩ : ∃ n0 N', N = n0 :: N' := by
    cases N with
    | nil => exact absurd rfl hN
    | cons n0 N' => exact ⟨n0, N', rfl⟩
  have hn0w : isJsWs n0 = false := ws_false_of_digit (hNd n0 (by simp))
  have e0 : ciStrip ("question".toList) (tmpl (n0 :: N') stem o1 o2 o3 o4 L ex) =
      some (' ' :: ((n0 :: N') ++ (':' :: bodyT stem o1 o2 o3 o4 L ex))) := rfl
  have ew : ((' ' :: ((n0 :: N') ++ (':' :: bodyT stem o1 o2 o3 o4 L ex))) : Str).takeWhile
      isJsWs = [' '] := by
    rw [List.takeWhile_cons, if_pos (by decide)]
    rw [show (((n0 :: N') ++ (':' :: bodyT stem o1 o2 o3 o4 L ex)) : Str) =
      n0 :: (N' ++ (':' :: bodyT stem o1 o2 o3 o4 L ex)) from rfl]
    rw [takeWhile_cons_of_neg hn0w]
  have edrop : ((' ' :: ((n0 :: N') ++ (':' :: bodyT stem o1 o2 o3 o4 L ex))) : Str).dropWhile
      isJsWs = (n0 :: N') ++ (':' :: bodyT stem o1 o2 o3 o4 L ex) := by
    rw [List.dropWhile_cons, if_pos (by decide)]
    rw [show (((n0 :: N') ++ (':' :: bodyT stem o1 o2 o3 o4 L ex)) : Str) =
      n0 :: (N' ++ (':' :: bodyT stem o1 o2 o3 o4 L ex)) from rfl]
    rw [dropWhile_cons_of_neg hn0w]
  have eds : (((n0 :: N') ++ (':' :: bodyT stem o1 o2 o3 o4 L ex)) : Str).takeWhile
      isDigitCh = n0 :: N' := by
    rw [takeWhile_append_all hNd, takeWhile_cons_of_neg (by decide), List.append_nil]
  have er3 : (((n0 :: N') ++ (':' :: bodyT stem o1 o2 o3 o4 L ex)) : Str).dropWhile
      isDigitCh = ':' :: bodyT stem o1 o2 o3 o4 L ex := by
    rw [dropWhile_append_all hNd, dropWhile_cons_of_neg (by decide)]
  have er5 : ((':' :: bodyT stem o1 o2 o3 o4 L ex) : Str).dropWhile isJsWs =
      ':' :: bodyT stem o1 o2 o3 o4 L ex :=
    dropWhile_cons_of_neg (by decide)
  exact ⟨_, matchMarkerAt_eval e0 ew (by simp) edrop eds (by simp) er3 er5⟩

theorem splitQLoop_of_none {fuel : Nat} {m ds rest : Str}
    (h : scanFirst matchMarkerAt rest = none) :
    splitQLoop fuel m ds rest = [(m, ds, rest)] := by
  cases fuel with
  | zero => rfl
  | succ n =>
    unfold splitQLoop
    rw [h]

theorem splitQuestions_tmpl {N stem o1 o2 o3 o4 : Str} {L : Char} {ex : Str}
    (hN : N ≠ []) (hNd : ∀ c ∈ N, isDigitCh c = true)
    (hstem : ∀ c ∈ stem, plainCh c = true) (ho1 : ∀ c ∈ o1, plainCh c = true)
    (ho2 : ∀ c ∈ o2, plainCh c = true) (ho3 : ∀ c ∈ o3, plainCh c = true)
    (ho4 : ∀ c ∈ o4, plainCh c = true) (hL : letterAD L = true)
    (hex : ∀ c ∈ ex, plainCh c = true) :
    splitQuestions (tmpl N stem o1 o2 o3 o4 L ex) =
      ([], [(N, bodyT stem o1 o2 o3 o4 L ex)]) := by
  obtain ⟨mt, hmt⟩ := matchMarkerAt_tmpl hN hNd
  have hscan : scanFirst matchMarkerAt (tmpl N stem o1 o2 o3 o4 L ex) =
      some ([], mt, N, bodyT stem o1 o2 o3 o4 L ex) := scanFirst_of_head hmt
  have hqn : ∀ c ∈ bodyT stem o1 o2 o3 o4 L ex, ¬ lowerAscii c = 'q' :=
    bodyT_all (by decide)
      (fun c hc => plain_lower_ne (hstem c hc) (by decide))
      (fun c hc => plain_lower_ne (ho1 c hc) (by decide))
      (fun c hc => plain_lower_ne (ho2 c hc) (by decide))
      (fun c hc => plain_lower_ne (ho3 c hc) (by decide))
      (fun c hc => plain_lower_ne (ho4 c hc) (by decide))
      (letterAD_lower_ne_q hL)
      (fun c hc => plain_lower_ne (hex c hc) (by decide))
  have hbody : scanFirst matchMarkerAt (bodyT stem o1 o2 o3 o4 L ex) = none := by
    have h2 : scanFirst matchMarkerAt (bodyT stem o1 o2 o3 o4 L ex ++ []) = none :=
      scanFirst_none_seg_p (fun c t hP => matchMarkerAt_ne_q hP)
        (bodyT stem o1 o2 o3 o4 L ex) hqn (scanFirst_nil_none rfl)
    rwa [List.append_nil] at h2
  unfold splitQuestions splitQFull
  rw [hscan]
  simp only [splitQLoop_of_none hbody]
  rfl

/-! Suffixes of the template body, named from the line they start at. -/

/-- The explanation line of the template. -/
def restEX (ex : Str) : Str := ("\nExplanation: ".toList) ++ ex

/-- The correct-answer line of the template and what follows. -/
def restCA (L : Char) (ex : Str) : Str :=
  ("\nCorrect Answer: ".toList) ++ (L :: restEX ex)

/-- The option D line of the template and what follows. -/
def restD (o4 : Str) (L : Char) (ex : Str) : Str :=
  ("\nD. ".toList) ++ (o4 ++ restCA L ex)

/-- The option C line of the template and what follows. -/
def restC (o3 o4 : Str) (L : Char) (ex : Str) : Str :=
  ("\nC. ".toList) ++ (o3 ++ restD o4 L ex)

/-- The option B line of the template and what follows. -/
def restB (o2 o3 o4 : Str) (L : Char) (ex : Str) : Str :=
  ("\nB. ".toList) ++ (o2 ++ restC o3 o4 L ex)

/-- The option A line of the template and what follows. -/
def restA (o1 o2 o3 o4 : Str) (L : Char) (ex : Str) : Str :=
  ("\nA. ".toList) ++ (o1 ++ restB o2 o3 o4 L ex)

theorem bodyT_eq {stem o1 o2 o3 o4 : Str} {L : Char} {ex : Str} :
    bodyT stem o1 o2 o3 o4 L ex = ' ' :: (stem ++ restA o1 o2 o3 o4 L ex) := rfl

theorem dropWhile_of_none {p : Char → Bool} : ∀ {l : Str},
    (∀ c ∈ l, p c = false) → l.dropWhile p = l := by
  intro l h
  cases l with
  | nil => rfl
  | cons c t => exact dropWhile_cons_of_neg (h c (by simp))

theorem trimStr_plain {l : Str} (h : ∀ c ∈ l, plainCh c = true) : trimStr l = l := by
  unfold trimStr
  rw [dropWhile_of_none (fun c hc => plain_ws_false (h c hc))]
  rw [dropWhile_of_none (fun c hc => plain_ws_false (h c (List.mem_reverse.mp hc)))]
  rw [List.reverse_reverse]

theorem trim_space_plain {stem : Str} (h : ∀ c ∈ stem, plainCh c = true) :
    trimStr (' ' :: stem) = stem := by
  unfold trimStr
  rw [List.dropWhile_cons, if_pos (by decide)]
  rw [dropWhile_of_none (fun c hc => plain_ws_false (h c hc))]
  rw [dropWhile_of_none (fun c hc => plain_ws_false (h c (List.mem_reverse.mp hc)))]
  rw [List.reverse_reverse]

theorem p1Go_end {nl : Str} : ∀ (l : Str), (∀ c ∈ l, c ≠ '\n') → ∀ (acc : Str),
    p1Go nl acc l = none := by
  intro l
  induction l with
  | nil => intro _ acc; rfl
  | cons c t ih =>
    intro h acc
    rw [p1Go_step (optBoundary_ne_nl (h c (by simp)))]
    exact ih (fun d hd => h d (by simp [hd])) _

/-- The stem of the template body: everything before the newline of the
option A line, including the space after the marker colon. -/
theorem extractStem_bodyT {stem o1 o2 o3 o4 : Str} {L : Char} {ex : Str}
    (hstem : ∀ c ∈ stem, plainCh c = true) :
    extractStem (bodyT stem o1 o2 o3 o4 L ex) = some (' ' :: stem) := by
  rw [show extractStem (bodyT stem o1 o2 o3 o4 L ex) =
    stemScanGo [' '] (stem ++ restA o1 o2 o3 o4 L ex) from rfl]
  rw [stemScanGo_seg stem (fun c hc => plain_ne (hstem c hc) (by decide)) [' ']
    (restA o1 o2 o3 o4 L ex)]
  rw [show restA o1 o2 o3 o4 L ex =
    '\n' :: ('A' :: ('.' :: (' ' :: (o1 ++ restB o2 o3 o4 L ex)))) from rfl]
  rw [stemScanGo_hit (show stemBoundary
    ('\n' :: ('A' :: ('.' :: (' ' :: (o1 ++ restB o2 o3 o4 L ex))))) = true from rfl)]
  simp

theorem matchP1_hit_A {o1 o2 o3 o4 : Str} {L : Char} {ex : Str}
    (ho1 : ∀ c ∈ o1, plainCh c = true) (ho1ne : o1 ≠ []) :
    matchP1 'A' (['B'] : Str)
      ('A' :: ('.' :: (' ' :: (o1 ++ restB o2 o3 o4 L ex)))) = some o1 := by
  obtain ⟨h1, t1, rfl⟩ : ∃ h1 t1, o1 = h1 :: t1 := by
    cases o1 with
    | nil => exact absurd rfl ho1ne
    | cons h1 t1 => exact ⟨h1, t1, rfl⟩
  show (if lowerAscii 'A' = lowerAscii 'A' then
      p1TryW ['B']
        (((' ' :: ((h1 :: t1) ++ restB o2 o3 o4 L ex)) : Str).takeWhile isJsWs).reverse
        (((' ' :: ((h1 :: t1) ++ restB o2 o3 o4 L ex)) : Str).dropWhile isJsWs)
    else none) = some (h1 :: t1)
  rw [if_pos rfl]
  have hw1 : isJsWs h1 = false := plain_ws_false (ho1 h1 (by simp))
  have htw : ((' ' :: ((h1 :: t1) ++ restB o2 o3 o4 L ex)) : Str).takeWhile isJsWs =
      [' '] := by
    rw [List.takeWhile_cons, if_pos (by decide)]
    rw [show (((h1 :: t1) ++ restB o2 o3 o4 L ex) : Str) =
      h1 :: (t1 ++ restB o2 o3 o4 L ex) from rfl]
    rw [takeWhile_cons_of_neg hw1]
  have hdw : ((' ' :: ((h1 :: t1) ++ restB o2 o3 o4 L ex)) : Str).dropWhile isJsWs =
      (h1 :: t1) ++ restB o2 o3 o4 L ex := by
    rw [List.dropWhile_cons, if_pos (by decide)]
    rw [show (((h1 :: t1) ++ restB o2 o3 o4 L ex) : Str) =
      h1 :: (t1 ++ restB o2 o3 o4 L ex) from rfl]
    rw [dropWhile_cons_of_neg hw1]
  rw [htw, hdw]
  have hbody : p1Body (['B'] : Str) ((h1 :: t1) ++ restB o2 o3 o4 L ex) =
      some (h1 :: t1) := by
    show p1Go ['B'] [h1] (t1 ++ restB o2 o3 o4 L ex) = some (h1 :: t1)
    rw [p1Go_seg t1 (fun c hc => plain_ne (ho1 c (by simp [hc])) (by decide)) [h1] _]
    rw [show restB o2 o3 o4 L ex =
      '\n' :: ('B' :: ('.' :: (' ' :: (o2 ++ restC o3 o4 L ex)))) from rfl]
    rw [p1Go_hit (show optBoundary ['B']
      ('\n' :: ('B' :: ('.' :: (' ' :: (o2 ++ restC o3 o4 L ex))))) = true from rfl)]
    simp
  show (match p1Body (['B'] : Str) ((h1 :: t1) ++ restB o2 o3 o4 L ex) with
    | some cap => some cap
    | none => p1TryW (['B'] : Str) [] (' ' :: ((h1 :: t1) ++ restB o2 o3 o4 L ex))) =
    some (h1 :: t1)
  rw [hbody]

theorem matchP1_hit_B {o2 o3 o4 : Str} {L : Char} {ex : Str}
    (ho2 : ∀ c ∈ o2, plainCh c = true) (ho2ne : o2 ≠ []) :
    matchP1 'B' (['C'] : Str)
      ('B' :: ('.' :: (' ' :: (o2 ++ restC o3 o4 L ex)))) = some o2 := by
  obtain ⟨h1, t1, rfl⟩ : ∃ h1 t1, o2 = h1 :: t1 := by
    cases o2 with
    | nil => exact absurd rfl ho2ne
    | cons h1 t1 => exact ⟨h1, t1, rfl⟩
  show (if lowerAscii 'B' = lowerAscii 'B' then
      p1TryW ['C']
        (((' ' :: ((h1 :: t1) ++ restC o3 o4 L ex)) : Str).takeWhile isJsWs).reverse
        (((' ' :: ((h1 :: t1) ++ restC o3 o4 L ex)) : Str).dropWhile isJsWs)
    else none) = some (h1 :: t1)
  rw [if_pos rfl]
  have hw1 : isJsWs h1 = false := plain_ws_false (ho2 h1 (by simp))
  have htw : ((' ' :: ((h1 :: t1) ++ restC o3 o4 L ex)) : Str).takeWhile isJsWs =
      [' '] := by
    rw [List.takeWhile_cons, if_pos (by decide)]
    rw [show (((h1 :: t1) ++ restC o3 o4 L ex) : Str) =
      h1 :: (t1 ++ restC o3 o4 L ex) from rfl]
    rw [takeWhile_cons_of_neg hw1]
  have hdw : ((' ' :: ((h1 :: t1) ++ restC o3 o4 L ex)) : Str).dropWhile isJsWs =
      (h1 :: t1) ++ restC o3 o4 L ex := by
    rw [List.dropWhile_cons, if_pos (by decide)]
    rw [show (((h1 :: t1) ++ restC o3 o4 L ex) : Str) =
      h1 :: (t1 ++ restC o3 o4 L ex) from rfl]
    rw [dropWhile_cons_of_neg hw1]
  rw [htw, hdw]
  have hbody : p1Body (['C'] : Str) ((h1 :: t1) ++ restC o3 o4 L ex) =
      some (h1 :: t1) := by
    show p1Go ['C'] [h1] (t1 ++ restC o3 o4 L ex) = some (h1 :: t1)
    rw [p1Go_seg t1 (fun c hc => plain_ne (ho2 c (by simp [hc])) (by decide)) [h1] _]
    rw [show restC o3 o4 L ex =
      '\n' :: ('C' :: ('.' :: (' ' :: (o3 ++ restD o4 L ex)))) from rfl]
    rw [p1Go_hit (show optBoundary ['C']
      ('\n' :: ('C' :: ('.' :: (' ' :: (o3 ++ restD o4 L ex))))) = true from rfl)]
    simp
  show (match p1Body (['C'] : Str) ((h1 :: t1) ++ restC o3 o4 L ex) with
    | some cap => some cap
    | none => p1TryW (['C'] : Str) [] (' ' :: ((h1 :: t1) ++ restC o3 o4 L ex))) =
    some (h1 :: t1)
  rw [hbody]

theorem matchP1_hit_C {o3 o4 : Str} {L : Char} {ex : Str}
    (ho3 : ∀ c ∈ o3, plainCh c = true) (ho3ne : o3 ≠ []) :
    matchP1 'C' (['D'] : Str)
      ('C' :: ('.' :: (' ' :: (o3 ++ restD o4 L ex)))) = some o3 := by
  obtain ⟨h1, t1, rfl⟩ : ∃ h1 t1, o3 = h1 :: t1 := by
    cases o3 with
    | nil => exact absurd rfl ho3ne
    | cons h1 t1 => exact ⟨h1, t1, rfl⟩
  show (if lowerAscii 'C' = lowerAscii 'C' then
      p1TryW ['D']
        (((' ' :: ((h1 :: t1) ++ restD o4 L ex)) : Str).takeWhile isJsWs).reverse
        (((' ' :: ((h1 :: t1) ++ restD o4 L ex)) : Str).dropWhile isJsWs)
    else none) = some (h1 :: t1)
  rw [if_pos rfl]
  have hw1 : isJsWs h1 = false := plain_ws_false (ho3 h1 (by simp))
  have htw : ((' ' :: ((h1 :: t1) ++ restD o4 L ex)) : Str).takeWhile isJsWs =
      [' '] := by
    rw [List.takeWhile_cons, if_pos (by decide)]
    rw [show (((h1 :: t1) ++ restD o4 L ex) : Str) =
      h1 :: (t1 ++ restD o4 L ex) from rfl]
    rw [takeWhile_cons_of_neg hw1]
  have hdw : ((' ' :: ((h1 :: t1) ++ restD o4 L ex)) : Str).dropWhile isJsWs =
      (h1 :: t1) ++ restD o4 L ex := by
    rw [List.dropWhile_cons, if_pos (by decide)]
    rw [show (((h1 :: t1) ++ restD o4 L ex) : Str) =
      h1 :: (t1 ++ restD o4 L ex) from rfl]
    rw [dropWhile_cons_of_neg hw1]
  rw [htw, hdw]
  have hbody : p1Body (['D'] : Str) ((h1 :: t1) ++ restD o4 L ex) =
      some (h1 :: t1) := by
    show p1Go ['D'] [h1] (t1 ++ restD o4 L ex) = some (h1 :: t1)
    rw [p1Go_seg t1 (fun c hc => plain_ne (ho3 c (by simp [hc])) (by decide)) [h1] _]
    rw [show restD o4 L ex =
      '\n' :: ('D' :: ('.' :: (' ' :: (o4 ++ restCA L ex)))) from rfl]
    rw [p1Go_hit (show optBoundary ['D']
      ('\n' :: ('D' :: ('.' :: (' ' :: (o4 ++ restCA L ex))))) = true from rfl)]
    simp
  show (match p1Body (['D'] : Str) ((h1 :: t1) ++ restD o4 L ex) with
    | some cap => some cap
    | none => p1TryW (['D'] : Str) [] (' ' :: ((h1 :: t1) ++ restD o4 L ex))) =
    some (h1 :: t1)
  rw [hbody]

theorem extractOption_A_bodyT {stem o1 o2 o3 o4 : Str} {L : Char} {ex : Str}
    (hstem : ∀ c ∈ stem, plainCh c = true) (ho1 : ∀ c ∈ o1, plainCh c = true)
    (ho1ne : o1 ≠ []) :
    extractOption (bodyT stem o1 o2 o3 o4 L ex) 'A' ['B'] = o1 := by
  have h1 : scanFirst (matchP1 'A' ['B'])
      ('A' :: ('.' :: (' ' :: (o1 ++ restB o2 o3 o4 L ex)))) = some ([], o1) :=
    scanFirst_of_head (matchP1_hit_A ho1 ho1ne)
  have h2 : scanFirst (matchP1 'A' ['B'])
      ('\n' :: ('A' :: ('.' :: (' ' :: (o1 ++ restB o2 o3 o4 L ex))))) =
      some (['\n'], o1) :=
    scanFirst_cons_then (matchP1_ne_head (by decide)) h1
  have h3 : scanFirst (matchP1 'A' ['B'])
      ((' ' :: stem) ++
        ('\n' :: ('A' :: ('.' :: (' ' :: (o1 ++ restB o2 o3 o4 L ex)))))) =
      some ((' ' :: stem) ++ ['\n'], o1) :=
    scanFirst_seg_then_p (fun c t hP => matchP1_ne_head hP) (' ' :: stem)
      (by
        intro c hc
        rcases List.mem_cons.mp hc with rfl | hc2
        · exact (by decide : ¬ lowerAscii ' ' = lowerAscii 'A')
        · exact plain_lower_ne (hstem c hc2) (by decide)) h2
  have h4 : scanFirst (matchP1 'A' ['B']) (bodyT stem o1 o2 o3 o4 L ex) =
      some ((' ' :: stem) ++ ['\n'], o1) := h3
  unfold extractOption
  rw [h4]
  show trimStr o1 = o1
  exact trimStr_plain ho1

theorem extractOption_B_bodyT {stem o1 o2 o3 o4 : Str} {L : Char} {ex : Str}
    (hstem : ∀ c ∈ stem, plainCh c = true) (ho1 : ∀ c ∈ o1, plainCh c = true)
    (ho2 : ∀ c ∈ o2, plainCh c = true) (ho2ne : o2 ≠ []) :
    extractOption (bodyT stem o1 o2 o3 o4 L ex) 'B' ['C'] = o2 := by
  have h1 : scanFirst (matchP1 'B' ['C'])
      ('B' :: ('.' :: (' ' :: (o2 ++ restC o3 o4 L ex)))) = some ([], o2) :=
    scanFirst_of_head (matchP1_hit_B ho2 ho2ne)
  have h2 : scanFirst (matchP1 'B' ['C'])
      ('\n' :: ('B' :: ('.' :: (' ' :: (o2 ++ restC o3 o4 L ex))))) =
      some (['\n'], o2) :=
    scanFirst_cons_then (matchP1_ne_head (by decide)) h1
  have h3 : scanFirst (matchP1 'B' ['C'])
      (o1 ++ ('\n' :: ('B' :: ('.' :: (' ' :: (o2 ++ restC o3 o4 L ex)))))) =
      some (o1 ++ ['\n'], o2) :=
    scanFirst_seg_then_p (fun c t hP => matchP1_ne_head hP) o1
      (fun c hc => plain_lower_ne (ho1 c hc) (by decide)) h2
  have h4 : scanFirst (matchP1 'B' ['C'])
      (' ' :: (o1 ++ ('\n' :: ('B' :: ('.' :: (' ' :: (o2 ++ restC o3 o4 L ex))))))) =
      some (' ' :: (o1 ++ ['\n']), o2) :=
    scanFirst_cons_then (matchP1_ne_head (by decide)) h3
  have h5 : scanFirst (matchP1 'B' ['C'])
      ('.' :: (' ' :: (o1 ++
        ('\n' :: ('B' :: ('.' :: (' ' :: (o2 ++ restC o3 o4 L ex)))))))) =
      some ('.' :: (' ' :: (o1 ++ ['\n'])), o2) :=
    scanFirst_cons_then (matchP1_ne_head (by decide)) h4
  have h6 : scanFirst (matchP1 'B' ['C'])
      ('A' :: ('.' :: (' ' :: (o1 ++
        ('\n' :: ('B' :: ('.' :: (' ' :: (o2 ++ restC o3 o4 L ex))))))))) =
      some ('A' :: ('.' :: (' ' :: (o1 ++ ['\n']))), o2) :=
    scanFirst_cons_then (matchP1_ne_head (by decide)) h5
  have h7 : scanFirst (matchP1 'B' ['C'])
      ('\n' :: ('A' :: ('.' :: (' ' :: (o1 ++
        ('\n' :: ('B' :: ('.' :: (' ' :: (o2 ++ restC o3 o4 L ex)))))))))) =
      some ('\n' :: ('A' :: ('.' :: (' ' :: (o1 ++ ['\n'])))), o2) :=
    scanFirst_cons_then (matchP1_ne_head (by decide)) h6
  have h8 : scanFirst (matchP1 'B' ['C'])
      ((' ' :: stem) ++
        ('\n' :: ('A' :: ('.' :: (' ' :: (o1 ++
          ('\n' :: ('B' :: ('.' :: (' ' :: (o2 ++ restC o3 o4 L ex))))))))))) =
      some ((' ' :: stem) ++ ('\n' :: ('A' :: ('.' :: (' ' :: (o1 ++ ['\n']))))), o2) :=
    scanFirst_seg_then_p (fun c t hP => matchP1_ne_head hP) (' ' :: stem)
      (by
        intro c hc
        rcases List.mem_cons.mp hc with rfl | hc2
        · exact (by decide : ¬ lowerAscii ' ' = lowerAscii 'B')
        · exact plain_lower_ne (hstem c hc2) (by decide)) h7
  have h9 : scanFirst (matchP1 'B' ['C']) (bodyT stem o1 o2 o3 o4 L ex) =
      some ((' ' :: stem) ++ ('\n' :: ('A' :: ('.' :: (' ' :: (o1 ++ ['\n']))))), o2) := h8
  unfold extractOption
  rw [h9]
  show trimStr o2 = o2
  exact trimStr_plain ho2

theorem extractOption_C_bodyT {stem o1 o2 o3 o4 : Str} {L : Char} {ex : Str}
    (hstem : ∀ c ∈ stem, plainCh c = true) (ho1 : ∀ c ∈ o1, plainCh c = true)
    (ho2 : ∀ c ∈ o2, plainCh c = true) (ho3 : ∀ c ∈ o3, plainCh c = true)
    (ho3ne : o3 ≠ []) :
    extractOption (bodyT stem o1 o2 o3 o4 L ex) 'C' ['D'] = o3 := by
  have h1 : scanFirst (matchP1 'C' ['D'])
      ('C' :: ('.' :: (' ' :: (o3 ++ restD o4 L ex)))) = some ([], o3) :=
    scanFirst_of_head (matchP1_hit_C ho3 ho3ne)
  have h2 : scanFirst (matchP1 'C' ['D'])
      ('\n' :: ('C' :: ('.' :: (' ' :: (o3 ++ restD o4 L ex))))) =
      some (['\n'], o3) :=
    scanFirst_cons_then (matchP1_ne_head (by decide)) h1
  have h3 : scanFirst (matchP1 'C' ['D'])
      (o2 ++ ('\n' :: ('C' :: ('.' :: (' ' :: (o3 ++ restD o4 L ex)))))) =
      some (o2 ++ ['\n'], o3) :=
    scanFirst_seg_then_p (fun c t hP => matchP1_ne_head hP) o2
      (fun c hc => plain_lower_ne (ho2 c hc) (by decide)) h2
  have h4 : scanFirst (matchP1 'C' ['D'])
      (' ' :: (o2 ++ ('\n' :: ('C' :: ('.' :: (' ' :: (o3 ++ restD o4 L ex))))))) =
      some (' ' :: (o2 ++ ['\n']), o3) :=
    scanFirst_cons_then (matchP1_ne_head (by decide)) h3
  have h5 : scanFirst (matchP1 'C' ['D'])
      ('.' :: (' ' :: (o2 ++
        ('\n' :: ('C' :: ('.' :: (' ' :: (o3 ++ restD o4 L ex)))))))) =
      some ('.' :: (' ' :: (o2 ++ ['\n'])), o3) :=
    scanFirst_cons_then (matchP1_ne_head (by decide)) h4
  have h6 : scanFirst (matchP1 'C' ['D'])
      ('B' :: ('.' :: (' ' :: (o2 ++
        ('\n' :: ('C' :: ('.' :: (' ' :: (o3 ++ restD o4 L ex))))))))) =
      some ('B' :: ('.' :: (' ' :: (o2 ++ ['\n']))), o3) :=
    scanFirst_cons_then (matchP1_ne_head (by decide)) h5
  have h7 : scanFirst (matchP1 'C' ['D'])
      ('\n' :: ('B' :: ('.' :: (' ' :: (o2 ++
        ('\n' :: ('C' :: ('.' :: (' ' :: (o3 ++ restD o4 L ex)))))))))) =
      some ('\n' :: ('B' :: ('.' :: (' ' :: (o2 ++ ['\n'])))), o3) :=
    scanFirst_cons_then (matchP1_ne_head (by decide)) h6
  have h8 : scanFirst (matchP1 'C' ['D'])
      (o1 ++ ('\n' :: ('B' :: ('.' :: (' ' :: (o2 ++
        ('\n' :: ('C' :: ('.' :: (' ' :: (o3 ++ restD o4 L ex))))))))))) =
      some (o1 ++ ('\n' :: ('B' :: ('.' :: (' ' :: (o2 ++ ['\n']))))), o3) :=
    scanFirst_seg_then_p (fun c t hP => matchP1_ne_head hP) o1
      (fun c hc => plain_lower_ne (ho1 c hc) (by decide)) h7
  have h9 : scanFirst (matchP1 'C' ['D'])
      (' ' :: (o1 ++ ('\n' :: ('B' :: ('.' :: (' ' :: (o2 ++
        ('\n' :: ('C' :: ('.' :: (' ' :: (o3 ++ restD o4 L ex)))))))))))) =
      some (' ' :: (o1 ++ ('\n' :: ('B' :: ('.' :: (' ' :: (o2 ++ ['\n'])))))), o3) :=
    scanFirst_cons_then (matchP1_ne_head (by decide)) h8
  have h10 : scanFirst (matchP1 'C' ['D'])
      ('.' :: (' ' :: (o1 ++ ('\n' :: ('B' :: ('.' :: (' ' :: (o2 ++
        ('\n' :: ('C' :: ('.' :: (' ' :: (o3 ++ restD o4 L ex))))))))))))) =
      some ('.' :: (' ' :: (o1 ++ ('\n' :: ('B' :: ('.' :: (' ' :: (o2 ++ ['\n']))))))),
        o3) :=
    scanFirst_cons_then (matchP1_ne_head (by decide)) h9
  have h11 : scanFirst (matchP1 'C' ['D'])
      ('A' :: ('.' :: (' ' :: (o1 ++ ('\n' :: ('B' :: ('.' :: (' ' :: (o2 ++
        ('\n' :: ('C' :: ('.' :: (' ' :: (o3 ++ restD o4 L ex)))))))))))))) =
      some ('A' :: ('.' :: (' ' :: (o1 ++
        ('\n' :: ('B' :: ('.' :: (' ' :: (o2 ++ ['\n'])))))))), o3) :=
    scanFirst_cons_then (matchP1_ne_head (by decide)) h10
  have h12 : scanFirst (matchP1 'C' ['D'])
      ('\n' :: ('A' :: ('.' :: (' ' :: (o1 ++ ('\n' :: ('B' :: ('.' :: (' ' :: (o2 ++
        ('\n' :: ('C' :: ('.' :: (' ' :: (o3 ++ restD o4 L ex))))))))))))))) =
      some ('\n' :: ('A' :: ('.' :: (' ' :: (o1 ++ ('\n' :: ('B' :: ('.' :: (' ' :: (o2 ++ ['\n']))))))))), o3) :=
    scanFirst_cons_then (matchP1_ne_head (by decide)) h11
  have h13 : scanFirst (matchP1 'C' ['D'])
      ((' ' :: stem) ++
        ('\n' :: ('A' :: ('.' :: (' ' :: (o1 ++ ('\n' :: ('B' :: ('.' :: (' ' :: (o2 ++
          ('\n' :: ('C' :: ('.' :: (' ' :: (o3 ++ restD o4 L ex)))))))))))))))) =
      some ((' ' :: stem) ++ ('\n' :: ('A' :: ('.' :: (' ' :: (o1 ++
        ('\n' :: ('B' :: ('.' :: (' ' :: (o2 ++ ['\n'])))))))))), o3) :=
    scanFirst_seg_then_p (fun c t hP => matchP1_ne_head hP) (' ' :: stem)
      (by
        intro c hc
        rcases List.mem_cons.mp hc with rfl | hc2
        · exact (by decide : ¬ lowerAscii ' ' = lowerAscii 'C')
        · exact plain_lower_ne (hstem c hc2) (by decide)) h12
  have h14 : scanFirst (matchP1 'C' ['D']) (bodyT stem o1 o2 o3 o4 L ex) =
      some ((' ' :: stem) ++ ('\n' :: ('A' :: ('.' :: (' ' :: (o1 ++
        ('\n' :: ('B' :: ('.' :: (' ' :: (o2 ++ ['\n'])))))))))), o3) := h13
  unfold extractOption
  rw [h14]
  show trimStr o3 = o3
  exact trimStr_plain ho3

/-- The lazy capture of option pattern 1 for letter D never closes: its
lookahead wants the successor literal Correct followed by a dot, and the
template writes Correct Answer with no dot. -/
theorem p1Go_CA_none {L : Char} {ex : Str} (hL : letterAD L = true)
    (hex : ∀ c ∈ ex, plainCh c = true) :
    ∀ acc, p1Go ("Correct".toList) acc (restCA L ex) = none := by
  intro acc
  rw [show restCA L ex =
    '\n' :: (("Correct Answer: ".toList) ++ (L :: restEX ex)) from rfl]
  rw [p1Go_step (show optBoundary ("Correct".toList)
    ('\n' :: (("Correct Answer: ".toList) ++ (L :: restEX ex))) = false from rfl)]
  rw [p1Go_seg ("Correct Answer: ".toList) (by decide) _ _]
  rw [p1Go_step (optBoundary_ne_nl (letterAD_ne_nl hL))]
  rw [show restEX ex = '\n' :: (("Explanation: ".toList) ++ ex) from rfl]
  rw [p1Go_step (show optBoundary ("Correct".toList)
    ('\n' :: (("Explanation: ".toList) ++ ex)) = false from rfl)]
  rw [p1Go_seg ("Explanation: ".toList) (by decide) _ _]
  exact p1Go_end ex (fun c hc => plain_ne (hex c hc) (by decide)) _

theorem matchP1_at_D {o4 : Str} {L : Char} {ex : Str}
    (ho4 : ∀ c ∈ o4, plainCh c = true) (ho4ne : o4 ≠ [])
    (hL : letterAD L = true) (hex : ∀ c ∈ ex, plainCh c = true) :
    matchP1 'D' ("Correct".toList)
      ('D' :: ('.' :: (' ' :: (o4 ++ restCA L ex)))) = none := by
  obtain ⟨h4, t4, rfl⟩ : ∃ h4 t4, o4 = h4 :: t4 := by
    cases o4 with
    | nil => exact absurd rfl ho4ne
    | cons h4 t4 => exact ⟨h4, t4, rfl⟩
  show (if lowerAscii 'D' = lowerAscii 'D' then
      p1TryW ("Correct".toList)
        (((' ' :: ((h4 :: t4) ++ restCA L ex)) : Str).takeWhile isJsWs).reverse
        (((' ' :: ((h4 :: t4) ++ restCA L ex)) : Str).dropWhile isJsWs)
    else none) = none
  rw [if_pos rfl]
  have hw4 : isJsWs h4 = false := plain_ws_false (ho4 h4 (by simp))
  have htw : ((' ' :: ((h4 :: t4) ++ restCA L ex)) : Str).takeWhile isJsWs = [' '] := by
    rw [List.takeWhile_cons, if_pos (by decide)]
    rw [show (((h4 :: t4) ++ restCA L ex) : Str) = h4 :: (t4 ++ restCA L ex) from rfl]
    rw [takeWhile_cons_of_neg hw4]
  have hdw : ((' ' :: ((h4 :: t4) ++ restCA L ex)) : Str).dropWhile isJsWs =
      (h4 :: t4) ++ restCA L ex := by
    rw [List.dropWhile_cons, if_pos (by decide)]
    rw [show (((h4 :: t4) ++ restCA L ex) : Str) = h4 :: (t4 ++ restCA L ex) from rfl]
    rw [dropWhile_cons_of_neg hw4]
  rw [htw, hdw]
  have hnlt : ∀ c ∈ t4, c ≠ '\n' :=
    fun c hc => plain_ne (ho4 c (by simp [hc])) (by decide)
  have hbody : p1Body ("Correct".toList) ((h4 :: t4) ++ restCA L ex) = none := by
    show p1Go ("Correct".toList) [h4] (t4 ++ restCA L ex) = none
    rw [p1Go_seg t4 hnlt [h4] _]
    exact p1Go_CA_none hL hex _
  have hbody2 : p1Body ("Correct".toList) (' ' :: ((h4 :: t4) ++ restCA L ex)) =
      none := by
    show p1Go ("Correct".toList) [' '] ((h4 :: t4) ++ restCA L ex) = none
    rw [show (((h4 :: t4) ++ restCA L ex) : Str) = h4 :: (t4 ++ restCA L ex) from rfl]
    rw [p1Go_step (optBoundary_ne_nl (plain_ne (ho4 h4 (by simp)) (by decide)))]
    rw [p1Go_seg t4 hnlt _ _]
    exact p1Go_CA_none hL hex _
  show (match p1Body ("Correct".toList) ((h4 :: t4) ++ restCA L ex) with
    | some cap => some cap
    | none => p1TryW ("Correct".toList) [] (' ' :: ((h4 :: t4) ++ restCA L ex))) = none
  rw [hbody]
  show p1Body ("Correct".toList) (' ' :: ((h4 :: t4) ++ restCA L ex)) = none
  exact hbody2

theorem matchP2_hit_D {o4 : Str} {L : Char} {ex : Str}
    (ho4 : ∀ c ∈ o4, plainCh c = true) (ho4ne : o4 ≠ []) :
    matchP2 'D' ('D' :: ('.' :: (' ' :: (o4 ++ restCA L ex)))) = some o4 := by
  obtain ⟨h4, t4, rfl⟩ : ∃ h4 t4, o4 = h4 :: t4 := by
    cases o4 with
    | nil => exact absurd rfl ho4ne
    | cons h4 t4 => exact ⟨h4, t4, rfl⟩
  show (if lowerAscii 'D' = lowerAscii 'D' then
      p2TryW (((' ' :: ((h4 :: t4) ++ restCA L ex)) : Str).takeWhile isJsWs).reverse
        (((' ' :: ((h4 :: t4) ++ restCA L ex)) : Str).dropWhile isJsWs)
    else none) = some (h4 :: t4)
  rw [if_pos rfl]
  have hw4 : isJsWs h4 = false := plain_ws_false (ho4 h4 (by simp))
  have htw : ((' ' :: ((h4 :: t4) ++ restCA L ex)) : Str).takeWhile isJsWs = [' '] := by
    rw [List.takeWhile_cons, if_pos (by decide)]
    rw [show (((h4 :: t4) ++ restCA L ex) : Str) = h4 :: (t4 ++ restCA L ex) from rfl]
    rw [takeWhile_cons_of_neg hw4]
  have hdw : ((' ' :: ((h4 :: t4) ++ restCA L ex)) : Str).dropWhile isJsWs =
      (h4 :: t4) ++ restCA L ex := by
    rw [List.dropWhile_cons, if_pos (by decide)]
    rw [show (((h4 :: t4) ++ restCA L ex) : Str) = h4 :: (t4 ++ restCA L ex) from rfl]
    rw [dropWhile_cons_of_neg hw4]
  rw [htw, hdw]
  have hbody : p2Body ((h4 :: t4) ++ restCA L ex) = some (h4 :: t4) := by
    show (if isDotCh h4 = true then p2Go [h4] (t4 ++ restCA L ex) else none) =
      some (h4 :: t4)
    rw [if_pos (plain_dot_true (ho4 h4 (by simp)))]
    rw [p2Go_seg t4 (fun c hc =>
      ⟨plain_ne (ho4 c (by simp [hc])) (by decide),
       plain_dot_true (ho4 c (by simp [hc]))⟩) [h4] _]
    rw [show restCA L ex =
      '\n' :: (("Correct Answer: ".toList) ++ (L :: restEX ex)) from rfl]
    rw [p2Go_hit]
    simp
  show (match p2Body ((h4 :: t4) ++ restCA L ex) with
    | some cap => some cap
    | none => p2TryW [] (' ' :: ((h4 :: t4) ++ restCA L ex))) = some (h4 :: t4)
  rw [hbody]

theorem scanP1_D_none_bodyT {stem o1 o2 o3 o4 : Str} {L : Char} {ex : Str}
    (hstem : ∀ c ∈ stem, plainCh c = true) (ho1 : ∀ c ∈ o1, plainCh c = true)
    (ho2 : ∀ c ∈ o2, plainCh c = true) (ho3 : ∀ c ∈ o3, plainCh c = true)
    (ho4 : ∀ c ∈ o4, plainCh c = true) (ho4ne : o4 ≠ [])
    (hL : letterAD L = true) (hex : ∀ c ∈ ex, plainCh c = true) :
    scanFirst (matchP1 'D' ("Correct".toList)) (bodyT stem o1 o2 o3 o4 L ex) = none := by
  have hm : ∀ (c : Char) (t : Str), ¬ lowerAscii c = lowerAscii 'D' →
      matchP1 'D' ("Correct".toList) (c :: t) = none :=
    fun c t hP => matchP1_ne_head hP
  have b1 : scanFirst (matchP1 'D' ("Correct".toList)) (ex ++ []) = none :=
    scanFirst_none_seg_p hm ex (fun c hc => plain_lower_ne (hex c hc) (by decide))
      (scanFirst_nil_none rfl)
  have b1x : scanFirst (matchP1 'D' ("Correct".toList)) ex = none := by rwa [List.append_nil] at b1
  have b2 : scanFirst (matchP1 'D' ("Correct".toList)) (("\nExplanation: ".toList) ++ ex) = none :=
    scanFirst_none_seg_p hm ("\nExplanation: ".toList) (by decide) b1x
  have b2x : scanFirst (matchP1 'D' ("Correct".toList)) (restEX ex) = none := b2
  have b3 : scanFirst (matchP1 'D' ("Correct".toList)) (L :: restEX ex) = none :=
    scanFirst_none_cons (matchP1_ne_dot (by decide)) b2x
  have b4 : scanFirst (matchP1 'D' ("Correct".toList)) (("\nCorrect Answer: ".toList) ++ (L :: restEX ex)) = none :=
    scanFirst_none_seg_p hm ("\nCorrect Answer: ".toList) (by decide) b3
  have b4x : scanFirst (matchP1 'D' ("Correct".toList)) (restCA L ex) = none := b4
  have b5 : scanFirst (matchP1 'D' ("Correct".toList)) (o4 ++ restCA L ex) = none :=
    scanFirst_none_seg_p hm o4 (fun c hc => plain_lower_ne (ho4 c hc) (by decide)) b4x
  have b6 : scanFirst (matchP1 'D' ("Correct".toList)) (' ' :: (o4 ++ restCA L ex)) = none :=
    scanFirst_none_cons (matchP1_ne_head (by decide)) b5
  have b7 : scanFirst (matchP1 'D' ("Correct".toList)) ('.' :: (' ' :: (o4 ++ restCA L ex))) = none :=
    scanFirst_none_cons (matchP1_ne_head (by decide)) b6
  have b8 : scanFirst (matchP1 'D' ("Correct".toList)) ('D' :: ('.' :: (' ' :: (o4 ++ restCA L ex)))) = none :=
    scanFirst_none_cons (matchP1_at_D ho4 ho4ne hL hex) b7
  have b9 : scanFirst (matchP1 'D' ("Correct".toList)) (restD o4 L ex) = none :=
    scanFirst_none_cons (matchP1_ne_head (by decide)) b8
  have b10 : scanFirst (matchP1 'D' ("Correct".toList)) (o3 ++ restD o4 L ex) = none :=
    scanFirst_none_seg_p hm o3 (fun c hc => plain_lower_ne (ho3 c hc) (by decide)) b9
  have b11 : scanFirst (matchP1 'D' ("Correct".toList)) (' ' :: (o3 ++ restD o4 L ex)) = none :=
    scanFirst_none_cons (matchP1_ne_head (by decide)) b10
  have b12 : scanFirst (matchP1 'D' ("Correct".toList)) ('.' :: (' ' :: (o3 ++ restD o4 L ex))) = none :=
    scanFirst_none_cons (matchP1_ne_head (by decide)) b11
  have b13 : scanFirst (matchP1 'D' ("Correct".toList)) ('C' :: ('.' :: (' ' :: (o3 ++ restD o4 L ex)))) = none :=
    scanFirst_none_cons (matchP1_ne_head (by decide)) b12
  have b14 : scanFirst (matchP1 'D' ("Correct".toList)) (restC o3 o4 L ex) = none :=
    scanFirst_none_cons (matchP1_ne_head (by decide)) b13
  have b15 : scanFirst (matchP1 'D' ("Correct".toList)) (o2 ++ restC o3 o4 L ex) = none :=
    scanFirst_none_seg_p hm o2 (fun c hc => plain_lower_ne (ho2 c hc) (by decide)) b14
  have b16 : scanFirst (matchP1 'D' ("Correct".toList)) (' ' :: (o2 ++ restC o3 o4 L ex)) = none :=
    scanFirst_none_cons (matchP1_ne_head (by decide)) b15
  have b17 : scanFirst (matchP1 'D' ("Correct".toList)) ('.' :: (' ' :: (o2 ++ restC o3 o4 L ex))) = none :=
    scanFirst_none_cons (matchP1_ne_head (by decide)) b16
  have b18 : scanFirst (matchP1 'D' ("Correct".toList)) ('B' :: ('.' :: (' ' :: (o2 ++ restC o3 o4 L ex)))) = none :=
    scanFirst_none_cons (matchP1_ne_head (by decide)) b17
  have b19 : scanFirst (matchP1 'D' ("Correct".toList)) (restB o2 o3 o4 L ex) = none :=
    scanFirst_none_cons (matchP1_ne_head (by decide)) b18
  have b20 : scanFirst (matchP1 'D' ("Correct".toList)) (o1 ++ restB o2 o3 o4 L ex) = none :=
    scanFirst_none_seg_p hm o1 (fun c hc => plain_lower_ne (ho1 c hc) (by decide)) b19
  have b21 : scanFirst (matchP1 'D' ("Correct".toList)) (' ' :: (o1 ++ restB o2 o3 o4 L ex)) = none :=
    scanFirst_none_cons (matchP1_ne_head (by decide)) b20
  have b22 : scanFirst (matchP1 'D' ("Correct".toList)) ('.' :: (' ' :: (o1 ++ restB o2 o3 o4 L ex))) = none :=
    scanFirst_none_cons (matchP1_ne_head (by decide)) b21
  have b23 : scanFirst (matchP1 'D' ("Correct".toList)) ('A' :: ('.' :: (' ' :: (o1 ++ restB o2 o3 o4 L ex)))) = none :=
    scanFirst_none_cons (matchP1_ne_head (by decide)) b22
  have b24 : scanFirst (matchP1 'D' ("Correct".toList)) (restA o1 o2 o3 o4 L ex) = none :=
    scanFirst_none_cons (matchP1_ne_head (by decide)) b23
  have b25 : scanFirst (matchP1 'D' ("Correct".toList)) ((' ' :: stem) ++ restA o1 o2 o3 o4 L ex) = none :=
    scanFirst_none_seg_p hm (' ' :: stem)
      (by
        intro c hc
        rcases List.mem_cons.mp hc with rfl | hc2
        · exact (by decide : ¬ lowerAscii ' ' = lowerAscii 'D')
        · exact plain_lower_ne (hstem c hc2) (by decide)) b24
  exact b25

theorem scanP2_D_some_bodyT {stem o1 o2 o3 o4 : Str} {L : Char} {ex : Str}
    (hstem : ∀ c ∈ stem, plainCh c = true) (ho1 : ∀ c ∈ o1, plainCh c = true)
    (ho2 : ∀ c ∈ o2, plainCh c = true) (ho3 : ∀ c ∈ o3, plainCh c = true)
    (ho4 : ∀ c ∈ o4, plainCh c = true) (ho4ne : o4 ≠ []) :
    ∃ pre, scanFirst (matchP2 'D') (bodyT stem o1 o2 o3 o4 L ex) = some (pre, o4) := by
  have c1 : scanFirst (matchP2 'D') ('D' :: ('.' :: (' ' :: (o4 ++ restCA L ex)))) = some ([], o4) :=
    scanFirst_of_head (matchP2_hit_D ho4 ho4ne)
  have c2 : scanFirst (matchP2 'D') ('\n' :: ('D' :: ('.' :: (' ' :: (o4 ++ restCA L ex))))) =
      some (['\n'], o4) :=
    scanFirst_cons_then (matchP2_ne_head (by decide)) c1
  have c3 : scanFirst (matchP2 'D') (o3 ++ ('\n' :: ('D' :: ('.' :: (' ' :: (o4 ++ restCA L ex)))))) =
      some (o3 ++ (['\n']), o4) :=
    scanFirst_seg_then_p (fun c t hP => matchP2_ne_head hP) o3
      (fun c hc => plain_lower_ne (ho3 c hc) (by decide)) c2
  have c4 : scanFirst (matchP2 'D') (' ' :: (o3 ++ ('\n' :: ('D' :: ('.' :: (' ' :: (o4 ++ restCA L ex))))))) =
      some (' ' :: (o3 ++ (['\n'])), o4) :=
    scanFirst_cons_then (matchP2_ne_head (by decide)) c3
  have c5 : scanFirst (matchP2 'D') ('.' :: (' ' :: (o3 ++ ('\n' :: ('D' :: ('.' :: (' ' :: (o4 ++ restCA L ex)))))))) =
      some ('.' :: (' ' :: (o3 ++ (['\n']))), o4) :=
    scanFirst_cons_then (matchP2_ne_head (by decide)) c4
  have c6 : scanFirst (matchP2 'D') ('C' :: ('.' :: (' ' :: (o3 ++ ('\n' :: ('D' :: ('.' :: (' ' :: (o4 ++ restCA L ex))))))))) =
      some ('C' :: ('.' :: (' ' :: (o3 ++ (['\n'])))), o4) :=
    scanFirst_cons_then (matchP2_ne_head (by decide)) c5
  have c7 : scanFirst (matchP2 'D') ('\n' :: ('C' :: ('.' :: (' ' :: (o3 ++ ('\n' :: ('D' :: ('.' :: (' ' :: (o4 ++ restCA L ex)))))))))) =
      some ('\n' :: ('C' :: ('.' :: (' ' :: (o3 ++ (['\n']))))), o4) :=
    scanFirst_cons_then (matchP2_ne_head (by decide)) c6
  have c8 : scanFirst (matchP2 'D') (o2 ++ ('\n' :: ('C' :: ('.' :: (' ' :: (o3 ++ ('\n' :: ('D' :: ('.' :: (' ' :: (o4 ++ restCA L ex))))))))))) =
      some (o2 ++ ('\n' :: ('C' :: ('.' :: (' ' :: (o3 ++ (['\n'])))))), o4) :=
    scanFirst_seg_then_p (fun c t hP => matchP2_ne_head hP) o2
      (fun c hc => plain_lower_ne (ho2 c hc) (by decide)) c7
  have c9 : scanFirst (matchP2 'D') (' ' :: (o2 ++ ('\n' :: ('C' :: ('.' :: (' ' :: (o3 ++ ('\n' :: ('D' :: ('.' :: (' ' :: (o4 ++ restCA L ex)))))))))))) =
      some (' ' :: (o2 ++ ('\n' :: ('C' :: ('.' :: (' ' :: (o3 ++ (['\n']))))))), o4) :=
    scanFirst_cons_then (matchP2_ne_head (by decide)) c8
  have c10 : scanFirst (matchP2 'D') ('.' :: (' ' :: (o2 ++ ('\n' :: ('C' :: ('.' :: (' ' :: (o3 ++ ('\n' :: ('D' :: ('.' :: (' ' :: (o4 ++ restCA L ex))))))))))))) =
      some ('.' :: (' ' :: (o2 ++ ('\n' :: ('C' :: ('.' :: (' ' :: (o3 ++ (['\n'])))))))), o4) :=
    scanFirst_cons_then (matchP2_ne_head (by decide)) c9
  have c11 : scanFirst (matchP2 'D') ('B' :: ('.' :: (' ' :: (o2 ++ ('\n' :: ('C' :: ('.' :: (' ' :: (o3 ++ ('\n' :: ('D' :: ('.' :: (' ' :: (o4 ++ restCA L ex)))))))))))))) =
      some ('B' :: ('.' :: (' ' :: (o2 ++ ('\n' :: ('C' :: ('.' :: (' ' :: (o3 ++ (['\n']))))))))), o4) :=
    scanFirst_cons_then (matchP2_ne_head (by decide)) c10
  have c12 : scanFirst (matchP2 'D') ('\n' :: ('B' :: ('.' :: (' ' :: (o2 ++ ('\n' :: ('C' :: ('.' :: (' ' :: (o3 ++ ('\n' :: ('D' :: ('.' :: (' ' :: (o4 ++ restCA L ex))))))))))))))) =
      some ('\n' :: ('B' :: ('.' :: (' ' :: (o2 ++ ('\n' :: ('C' :: ('.' :: (' ' :: (o3 ++ (['\n'])))))))))), o4) :=
    scanFirst_cons_then (matchP2_ne_head (by decide)) c11
  have c13 : scanFirst (matchP2 'D') (o1 ++ ('\n' :: ('B' :: ('.' :: (' ' :: (o2 ++ ('\n' :: ('C' :: ('.' :: (' ' :: (o3 ++ ('\n' :: ('D' :: ('.' :: (' ' :: (o4 ++ restCA L ex)))))))))))))))) =
      some (o1 ++ ('\n' :: ('B' :: ('.' :: (' ' :: (o2 ++ ('\n' :: ('C' :: ('.' :: (' ' :: (o3 ++ (['\n']))))))))))), o4) :=
    scanFirst_seg_then_p (fun c t hP => matchP2_ne_head hP) o1
      (fun c hc => plain_lower_ne (ho1 c hc) (by decide)) c12
  have c14 : scanFirst (matchP2 'D') (' ' :: (o1 ++ ('\n' :: ('B' :: ('.' :: (' ' :: (o2 ++ ('\n' :: ('C' :: ('.' :: (' ' :: (o3 ++ ('\n' :: ('D' :: ('.' :: (' ' :: (o4 ++ restCA L ex))))))))))))))))) =
      some (' ' :: (o1 ++ ('\n' :: ('B' :: ('.' :: (' ' :: (o2 ++ ('\n' :: ('C' :: ('.' :: (' ' :: (o3 ++ (['\n'])))))))))))), o4) :=
    scanFirst_cons_then (matchP2_ne_head (by decide)) c13
  have c15 : scanFirst (matchP2 'D') ('.' :: (' ' :: (o1 ++ ('\n' :: ('B' :: ('.' :: (' ' :: (o2 ++ ('\n' :: ('C' :: ('.' :: (' ' :: (o3 ++ ('\n' :: ('D' :: ('.' :: (' ' :: (o4 ++ restCA L ex)))))))))))))))))) =
      some ('.' :: (' ' :: (o1 ++ ('\n' :: ('B' :: ('.' :: (' ' :: (o2 ++ ('\n' :: ('C' :: ('.' :: (' ' :: (o3 ++ (['\n']))))))))))))), o4) :=
    scanFirst_cons_then (matchP2_ne_head (by decide)) c14
  have c16 : scanFirst (matchP2 'D') ('A' :: ('.' :: (' ' :: (o1 ++ ('\n' :: ('B' :: ('.' :: (' ' :: (o2 ++ ('\n' :: ('C' :: ('.' :: (' ' :: (o3 ++ ('\n' :: ('D' :: ('.' :: (' ' :: (o4 ++ restCA L ex))))))))))))))))))) =
      some ('A' :: ('.' :: (' ' :: (o1 ++ ('\n' :: ('B' :: ('.' :: (' ' :: (o2 ++ ('\n' :: ('C' :: ('.' :: (' ' :: (o3 ++ (['\n'])))))))))))))), o4) :=
    scanFirst_cons_then (matchP2_ne_head (by decide)) c15
  have c17 : scanFirst (matchP2 'D') ('\n' :: ('A' :: ('.' :: (' ' :: (o1 ++ ('\n' :: ('B' :: ('.' :: (' ' :: (o2 ++ ('\n' :: ('C' :: ('.' :: (' ' :: (o3 ++ ('\n' :: ('D' :: ('.' :: (' ' :: (o4 ++ restCA L ex)))))))))))))))))))) =
      some ('\n' :: ('A' :: ('.' :: (' ' :: (o1 ++ ('\n' :: ('B' :: ('.' :: (' ' :: (o2 ++ ('\n' :: ('C' :: ('.' :: (' ' :: (o3 ++ (['\n']))))))))))))))), o4) :=
    scanFirst_cons_then (matchP2_ne_head (by decide)) c16
  have c18 : scanFirst (matchP2 'D') ((' ' :: stem) ++ ('\n' :: ('A' :: ('.' :: (' ' :: (o1 ++ ('\n' :: ('B' :: ('.' :: (' ' :: (o2 ++ ('\n' :: ('C' :: ('.' :: (' ' :: (o3 ++ ('\n' :: ('D' :: ('.' :: (' ' :: (o4 ++ restCA L ex))))))))))))))))))))) =
      some ((' ' :: stem) ++ ('\n' :: ('A' :: ('.' :: (' ' :: (o1 ++ ('\n' :: ('B' :: ('.' :: (' ' :: (o2 ++ ('\n' :: ('C' :: ('.' :: (' ' :: (o3 ++ (['\n'])))))))))))))))), o4) :=
    scanFirst_seg_then_p (fun c t hP => matchP2_ne_head hP) (' ' :: stem)
      (by
        intro c hc
        rcases List.mem_cons.mp hc with rfl | hc2
        · exact (by decide : ¬ lowerAscii ' ' = lowerAscii 'D')
        · exact plain_lower_ne (hstem c hc2) (by decide)) c17
  have c19 : scanFirst (matchP2 'D') (bodyT stem o1 o2 o3 o4 L ex) =
      some ((' ' :: stem) ++ ('\n' :: ('A' :: ('.' :: (' ' :: (o1 ++ ('\n' :: ('B' :: ('.' :: (' ' :: (o2 ++ ('\n' :: ('C' :: ('.' :: (' ' :: (o3 ++ (['\n'])))))))))))))))), o4) := c18
  exact ⟨_, c19⟩

theorem extractOption_D_bodyT {stem o1 o2 o3 o4 : Str} {L : Char} {ex : Str}
    (hstem : ∀ c ∈ stem, plainCh c = true) (ho1 : ∀ c ∈ o1, plainCh c = true)
    (ho2 : ∀ c ∈ o2, plainCh c = true) (ho3 : ∀ c ∈ o3, plainCh c = true)
    (ho4 : ∀ c ∈ o4, plainCh c = true) (ho4ne : o4 ≠ [])
    (hL : letterAD L = true) (hex : ∀ c ∈ ex, plainCh c = true) :
    extractOption (bodyT stem o1 o2 o3 o4 L ex) 'D' ("Correct".toList) = o4 := by
  obtain ⟨pre, hp2⟩ :=
    @scanP2_D_some_bodyT stem o1 o2 o3 o4 L ex hstem ho1 ho2 ho3 ho4 ho4ne
  unfold extractOption
  rw [scanP1_D_none_bodyT hstem ho1 ho2 ho3 ho4 ho4ne hL hex, hp2]
  show trimStr o4 = o4
  exact trimStr_plain ho4

theorem matchCorrect_hit_tmpl {L : Char} {ex : Str} (hL : letterAD L = true) :
    matchCorrect (("Correct Answer: ".toList) ++ (L :: restEX ex)) =
      some (upperAscii L) := by
  unfold matchCorrect
  rw [show ciStrip ("correct".toList) (("Correct Answer: ".toList) ++ (L :: restEX ex)) =
    some ((" Answer: ".toList) ++ (L :: restEX ex)) from rfl]
  show (match ciStrip ("answer".toList)
      ((((" Answer: ".toList) ++ (L :: restEX ex)) : Str).dropWhile isJsWs) with
    | none => none
    | some r3 =>
      match r3.dropWhile isWsColon with
      | c :: _ => if letterAD c then some (upperAscii c) else none
      | [] => none) = some (upperAscii L)
  have e2 : (((" Answer: ".toList) ++ (L :: restEX ex)) : Str).dropWhile isJsWs =
      ("Answer: ".toList) ++ (L :: restEX ex) := by
    rw [show (((" Answer: ".toList) ++ (L :: restEX ex)) : Str) =
      ' ' :: (("Answer: ".toList) ++ (L :: restEX ex)) from rfl]
    rw [List.dropWhile_cons, if_pos (by decide)]
    rw [show ((("Answer: ".toList) ++ (L :: restEX ex)) : Str) =
      'A' :: (("nswer: ".toList) ++ (L :: restEX ex)) from rfl]
    rw [dropWhile_cons_of_neg (by decide)]
  rw [e2]
  rw [show ciStrip ("answer".toList) (("Answer: ".toList) ++ (L :: restEX ex)) =
    some ((": ".toList) ++ (L :: restEX ex)) from rfl]
  show (match (((": ".toList) ++ (L :: restEX ex)) : Str).dropWhile isWsColon with
    | c :: _ => if letterAD c then some (upperAscii c) else none
    | [] => none) = some (upperAscii L)
  have e4 : (((": ".toList) ++ (L :: restEX ex)) : Str).dropWhile isWsColon =
      L :: restEX ex := by
    rw [show (((": ".toList) ++ (L :: restEX ex)) : Str) =
      ':' :: (' ' :: (L :: restEX ex)) from rfl]
    rw [List.dropWhile_cons, if_pos (by decide)]
    rw [List.dropWhile_cons, if_pos (by decide)]
    exact dropWhile_cons_of_neg (wsColon_false_of_letterAD hL)
  rw [e4]
  show (if letterAD L = true then some (upperAscii L) else none) = some (upperAscii L)
  rw [if_pos hL]

theorem caOf_bodyT {stem o1 o2 o3 o4 : Str} {L : Char} {ex : Str}
    (hstem : ∀ c ∈ stem, plainCh c = true) (ho1 : ∀ c ∈ o1, plainCh c = true)
    (ho2 : ∀ c ∈ o2, plainCh c = true) (ho3 : ∀ c ∈ o3, plainCh c = true)
    (ho4 : ∀ c ∈ o4, plainCh c = true) (hL : letterAD L = true) :
    caOf (bodyT stem o1 o2 o3 o4 L ex) = [upperAscii L] := by
  have d1 : scanFirst matchCorrect (("Correct Answer: ".toList) ++ (L :: restEX ex)) =
      some ([], upperAscii L) := scanFirst_of_head (matchCorrect_hit_tmpl hL)
  have d2 := @scanFirst_cons_then Char matchCorrect '\n' _ _ (matchCorrect_ne_head (by decide)) d1
  have d3 := scanFirst_seg_then_p (fun c t hP => matchCorrect_ne_head hP) o4
    (fun c hc => plain_lower_ne (ho4 c hc) (by decide)) d2
  have d4 := @scanFirst_cons_then Char matchCorrect ' ' _ _ (matchCorrect_ne_head (by decide)) d3
  have d5 := @scanFirst_cons_then Char matchCorrect '.' _ _ (matchCorrect_ne_head (by decide)) d4
  have d6 := @scanFirst_cons_then Char matchCorrect 'D' _ _ (matchCorrect_ne_head (by decide)) d5
  have d7 := @scanFirst_cons_then Char matchCorrect '\n' _ _ (matchCorrect_ne_head (by decide)) d6
  have d8 := scanFirst_seg_then_p (fun c t hP => matchCorrect_ne_head hP) o3
    (fun c hc => plain_lower_ne (ho3 c hc) (by decide)) d7
  have d9 := @scanFirst_cons_then Char matchCorrect ' ' _ _ (matchCorrect_ne_head (by decide)) d8
  have d10 := @scanFirst_cons_then Char matchCorrect '.' _ _ (matchCorrect_ne_head (by decide)) d9
  have d11 := @scanFirst_cons_then Char matchCorrect 'C' _ _
    ((show matchCorrect ('C' :: ('.' :: (' ' :: (o3 ++ ('\n' :: ('D' :: ('.' :: (' ' :: (o4 ++ ('\n' :: (("Correct Answer: ".toList) ++ (L :: restEX ex)))))))))))) = none from rfl)) d10
  have d12 := @scanFirst_cons_then Char matchCorrect '\n' _ _ (matchCorrect_ne_head (by decide)) d11
  have d13 := scanFirst_seg_then_p (fun c t hP => matchCorrect_ne_head hP) o2
    (fun c hc => plain_lower_ne (ho2 c hc) (by decide)) d12
  have d14 := @scanFirst_cons_then Char matchCorrect ' ' _ _ (matchCorrect_ne_head (by decide)) d13
  have d15 := @scanFirst_cons_then Char matchCorrect '.' _ _ (matchCorrect_ne_head (by decide)) d14
  have d16 := @scanFirst_cons_then Char matchCorrect 'B' _ _ (matchCorrect_ne_head (by decide)) d15
  have d17 := @scanFirst_cons_then Char matchCorrect '\n' _ _ (matchCorrect_ne_head (by decide)) d16
  have d18 := scanFirst_seg_then_p (fun c t hP => matchCorrect_ne_head hP) o1
    (fun c hc => plain_lower_ne (ho1 c hc) (by decide)) d17
  have d19 := @scanFirst_cons_then Char matchCorrect ' ' _ _ (matchCorrect_ne_head (by decide)) d18
  have d20 := @scanFirst_cons_then Char matchCorrect '.' _ _ (matchCorrect_ne_head (by decide)) d19
  have d21 := @scanFirst_cons_then Char matchCorrect 'A' _ _ (matchCorrect_ne_head (by decide)) d20
  have d22 := @scanFirst_cons_then Char matchCorrect '\n' _ _ (matchCorrect_ne_head (by decide)) d21
  have d23 := scanFirst_seg_then_p (fun c t hP => matchCorrect_ne_head hP) (' ' :: stem)
    (by
      intro c hc
      rcases List.mem_cons.mp hc with rfl | hc2
      · exact (by decide : ¬ lowerAscii ' ' = 'c')
      · exact plain_lower_ne (hstem c hc2) (by decide)) d22
  have dfin : ∃ pre, scanFirst matchCorrect (bodyT stem o1 o2 o3 o4 L ex) =
      some (pre, upperAscii L) := ⟨_, d23⟩
  obtain ⟨pre, hd⟩ := dfin
  unfold caOf
  rw [hd]

theorem explGo_end : ∀ (l : Str), (∀ c ∈ l, c ≠ '\n') → ∀ (acc : Str),
    explGo acc l = acc.reverse ++ l := by
  intro l
  induction l with
  | nil =>
    intro _ acc
    rw [show explGo acc [] = acc.reverse from rfl, List.append_nil]
  | cons c t ih =>
    intro h acc
    rw [explGo_step (explStop_ne_nl (h c (by simp)))]
    rw [ih (fun d hd => h d (by simp [hd])) (c :: acc)]
    simp

theorem matchExpl_hit_tmpl {ex : Str} (hex : ∀ c ∈ ex, plainCh c = true)
    (hexne : ex ≠ []) :
    matchExpl (("Explanation: ".toList) ++ ex) = some ex := by
  obtain ⟨he, te, rfl⟩ : ∃ he te, ex = he :: te := by
    cases ex with
    | nil => exact absurd rfl hexne
    | cons he te => exact ⟨he, te, rfl⟩
  unfold matchExpl
  rw [show ciStrip ("explanation".toList) (("Explanation: ".toList) ++ (he :: te)) =
    some ((": ".toList) ++ (he :: te)) from rfl]
  show (match (((": ".toList) ++ (he :: te)) : Str).dropWhile isWsColon with
    | c :: t => some (explGo [c] t)
    | [] =>
      match ((((": ".toList) ++ (he :: te)) : Str).takeWhile isWsColon).reverse with
      | c :: _ => some [c]
      | [] => none) = some (he :: te)
  have e1 : (((": ".toList) ++ (he :: te)) : Str).dropWhile isWsColon = he :: te := by
    rw [show (((": ".toList) ++ (he :: te)) : Str) =
      ':' :: (' ' :: (he :: te)) from rfl]
    rw [List.dropWhile_cons, if_pos (by decide)]
    rw [List.dropWhile_cons, if_pos (by decide)]
    exact dropWhile_cons_of_neg (plain_wsColon_false (hex he (by simp)))
  rw [e1]
  show some (explGo [he] te) = some (he :: te)
  rw [explGo_end te (fun c hc => plain_ne (hex c (by simp [hc])) (by decide)) [he]]
  rfl

theorem exOf_bodyT {stem o1 o2 o3 o4 : Str} {L : Char} {ex : Str}
    (hstem : ∀ c ∈ stem, plainCh c = true) (ho1 : ∀ c ∈ o1, plainCh c = true)
    (ho2 : ∀ c ∈ o2, plainCh c = true) (ho3 : ∀ c ∈ o3, plainCh c = true)
    (ho4 : ∀ c ∈ o4, plainCh c = true) (hL : letterAD L = true)
    (hex : ∀ c ∈ ex, plainCh c = true) (hexne : ex ≠ []) :
    exOf (bodyT stem o1 o2 o3 o4 L ex) = ex := by
  have g1 : scanFirst matchExpl (("Explanation: ".toList) ++ ex) = some ([], ex) :=
    scanFirst_of_head (matchExpl_hit_tmpl hex hexne)
  have g2 := @scanFirst_cons_then Str matchExpl '\n' _ _ (matchExpl_ne_head (by decide)) g1
  have g3 := @scanFirst_cons_then Str matchExpl L _ _
    (matchExpl_ne_head (letterAD_lower_ne_e hL)) g2
  have g4 := @scanFirst_cons_then Str matchExpl ' ' _ _ (matchExpl_ne_head (by decide)) g3
  have g5 := @scanFirst_cons_then Str matchExpl ':' _ _ (matchExpl_ne_head (by decide)) g4
  have g6 := @scanFirst_cons_then Str matchExpl 'r' _ _ (matchExpl_ne_head (by decide)) g5
  have g7 := @scanFirst_cons_then Str matchExpl 'e' _ _
    ((show matchExpl ('e' :: ('r' :: (':' :: (' ' :: (L :: restEX ex))))) = none from rfl)) g6
  have g8 := @scanFirst_cons_then Str matchExpl 'w' _ _ (matchExpl_ne_head (by decide)) g7
  have g9 := @scanFirst_cons_then Str matchExpl 's' _ _ (matchExpl_ne_head (by decide)) g8
  have g10 := @scanFirst_cons_then Str matchExpl 'n' _ _ (matchExpl_ne_head (by decide)) g9
  have g11 := @scanFirst_cons_then Str matchExpl 'A' _ _ (matchExpl_ne_head (by decide)) g10
  have g12 := @scanFirst_cons_then Str matchExpl ' ' _ _ (matchExpl_ne_head (by decide)) g11
  have g13 := @scanFirst_cons_then Str matchExpl 't' _ _ (matchExpl_ne_head (by decide)) g12
  have g14 := @scanFirst_cons_then Str matchExpl 'c' _ _ (matchExpl_ne_head (by decide)) g13
  have g15 := @scanFirst_cons_then Str matchExpl 'e' _ _
    ((show matchExpl ('e' :: ('c' :: ('t' :: (' ' :: ('A' :: ('n' :: ('s' :: ('w' :: ('e' :: ('r' :: (':' :: (' ' :: (L :: restEX ex))))))))))))) = none from rfl)) g14
  have g16 := @scanFirst_cons_then Str matchExpl 'r' _ _ (matchExpl_ne_head (by decide)) g15
  have g17 := @scanFirst_cons_then Str matchExpl 'r' _ _ (matchExpl_ne_head (by decide)) g16
  have g18 := @scanFirst_cons_then Str matchExpl 'o' _ _ (matchExpl_ne_head (by decide)) g17
  have g19 := @scanFirst_cons_then Str matchExpl 'C' _ _ (matchExpl_ne_head (by decide)) g18
  have g20 := @scanFirst_cons_then Str matchExpl '\n' _ _ (matchExpl_ne_head (by decide)) g19
  have g21 := scanFirst_seg_then_p (fun c t hP => matchExpl_ne_head hP) o4
    (fun c hc => plain_lower_ne (ho4 c hc) (by decide)) g20
  have g22 := @scanFirst_cons_then Str matchExpl ' ' _ _ (matchExpl_ne_head (by decide)) g21
  have g23 := @scanFirst_cons_then Str matchExpl '.' _ _ (matchExpl_ne_head (by decide)) g22
  have g24 := @scanFirst_cons_then Str matchExpl 'D' _ _ (matchExpl_ne_head (by decide)) g23
  have g25 := @scanFirst_cons_then Str matchExpl '\n' _ _ (matchExpl_ne_head (by decide)) g24
  have g26 := scanFirst_seg_then_p (fun c t hP => matchExpl_ne_head hP) o3
    (fun c hc => plain_lower_ne (ho3 c hc) (by decide)) g25
  have g27 := @scanFirst_cons_then Str matchExpl ' ' _ _ (matchExpl_ne_head (by decide)) g26
  have g28 := @scanFirst_cons_then Str matchExpl '.' _ _ (matchExpl_ne_head (by decide)) g27
  have g29 := @scanFirst_cons_then Str matchExpl 'C' _ _ (matchExpl_ne_head (by decide)) g28
  have g30 := @scanFirst_cons_then Str matchExpl '\n' _ _ (matchExpl_ne_head (by decide)) g29
  have g31 := scanFirst_seg_then_p (fun c t hP => matchExpl_ne_head hP) o2
    (fun c hc => plain_lower_ne (ho2 c hc) (by decide)) g30
  have g32 := @scanFirst_cons_then Str matchExpl ' ' _ _ (matchExpl_ne_head (by decide)) g31
  have g33 := @scanFirst_cons_then Str matchExpl '.' _ _ (matchExpl_ne_head (by decide)) g32
  have g34 := @scanFirst_cons_then Str matchExpl 'B' _ _ (matchExpl_ne_head (by decide)) g33
  have g35 := @scanFirst_cons_then Str matchExpl '\n' _ _ (matchExpl_ne_head (by decide)) g34
  have g36 := scanFirst_seg_then_p (fun c t hP => matchExpl_ne_head hP) o1
    (fun c hc => plain_lower_ne (ho1 c hc) (by decide)) g35
  have g37 := @scanFirst_cons_then Str matchExpl ' ' _ _ (matchExpl_ne_head (by decide)) g36
  have g38 := @scanFirst_cons_then Str matchExpl '.' _ _ (matchExpl_ne_head (by decide)) g37
  have g39 := @scanFirst_cons_then Str matchExpl 'A' _ _ (matchExpl_ne_head (by decide)) g38
  have g40 := @scanFirst_cons_then Str matchExpl '\n' _ _ (matchExpl_ne_head (by decide)) g39
  have gseg := scanFirst_seg_then_p (fun c t hP => matchExpl_ne_head hP) (' ' :: stem)
    (by
      intro c hc
      rcases List.mem_cons.mp hc with rfl | hc2
      · exact (by decide : ¬ lowerAscii ' ' = 'e')
      · exact plain_lower_ne (hstem c hc2) (by decide)) g40
  have gfin : ∃ pre, scanFirst matchExpl (bodyT stem o1 o2 o3 o4 L ex) =
      some (pre, ex) := ⟨_, gseg⟩
  obtain ⟨pre, hg⟩ := gfin
  unfold exOf
  rw [hg]
  show trimStr ex = ex
  exact trimStr_plain hex

theorem parseSegment_bodyT {N stem o1 o2 o3 o4 : Str} {L : Char} {ex : Str}
    (hstem : ∀ c ∈ stem, plainCh c = true) (hstem10 : 10 ≤ stem.length)
    (ho1 : ∀ c ∈ o1, plainCh c = true) (ho1ne : o1 ≠ [])
    (ho2 : ∀ c ∈ o2, plainCh c = true) (ho2ne : o2 ≠ [])
    (ho3 : ∀ c ∈ o3, plainCh c = true) (ho3ne : o3 ≠ [])
    (ho4 : ∀ c ∈ o4, plainCh c = true) (ho4ne : o4 ≠ [])
    (hL : letterAD L = true)
    (hex : ∀ c ∈ ex, plainCh c = true) (hexne : ex ≠ []) :
    parseSegment N (bodyT stem o1 o2 o3 o4 L ex) =
      some { id := natOfDigits N, question := stem, optionA := o1, optionB := o2,
             optionC := o3, optionD := o4, correctAnswer := [upperAscii L],
             explanation := ex } := by
  have h50 : ¬ (bodyT stem o1 o2 o3 o4 L ex).length < 50 := by
    have e1 : (("\nA. ".toList : Str)).length = 4 := rfl
    have e2 : (("\nB. ".toList : Str)).length = 4 := rfl
    have e3 : (("\nC. ".toList : Str)).length = 4 := rfl
    have e4 : (("\nD. ".toList : Str)).length = 4 := rfl
    have e5 : (("\nCorrect Answer: ".toList : Str)).length = 17 := rfl
    have e6 : (("\nExplanation: ".toList : Str)).length = 14 := rfl
    intro hlt
    unfold bodyT at hlt
    simp only [List.length_cons, List.length_append, e1, e2, e3, e4, e5, e6] at hlt
    omega
  have htr : trimStr (' ' :: stem) = stem := trim_space_plain hstem
  have h10 : ¬ (trimStr (' ' :: stem)).length < 10 := by
    rw [htr]
    omega
  rw [parseSegment_eval h50 (extractStem_bodyT hstem) h10]
  rw [extractOption_A_bodyT hstem ho1 ho1ne,
    extractOption_B_bodyT hstem ho1 ho2 ho2ne,
    extractOption_C_bodyT hstem ho1 ho2 ho3 ho3ne,
    extractOption_D_bodyT hstem ho1 ho2 ho3 ho4 ho4ne hL hex]
  rw [if_neg (by
    rintro (h | h | h | h)
    exacts [ho1ne h, ho2ne h, ho3ne h, ho4ne h])]
  rw [caOf_bodyT hstem ho1 ho2 ho3 ho4 hL,
    exOf_bodyT hstem ho1 ho2 ho3 ho4 hL hex hexne, htr]

/-- C3: an input consisting of exactly one instance of the documented
question template — the marker line Question N:, a stem, the four option
lines A. to D., a Correct Answer line and an Explanation line — parses to
exactly one record; its four options are the non-empty option texts of the
template verbatim, and its id is the numeric value of the digits N of the
marker, not reassigned.  Stated for fields drawn from the plain field
alphabet, a non-empty digit label, a stem of at least ten characters and
an answer letter of the class A to D. -/
theorem mcq_template_single_record :
    ∀ (N stem o1 o2 o3 o4 : Str) (L : Char) (ex : Str),
      N ≠ [] → (∀ c ∈ N, isDigitCh c = true) →
      (∀ c ∈ stem, plainCh c = true) → 10 ≤ stem.length →
      (∀ c ∈ o1, plainCh c = true) → o1 ≠ [] →
      (∀ c ∈ o2, plainCh c = true) → o2 ≠ [] →
      (∀ c ∈ o3, plainCh c = true) → o3 ≠ [] →
      (∀ c ∈ o4, plainCh c = true) → o4 ≠ [] →
      letterAD L = true →
      (∀ c ∈ ex, plainCh c = true) → ex ≠ [] →
      parseMCQResponse (tmpl N stem o1 o2 o3 o4 L ex) =
        [{ id := natOfDigits N, question := stem, optionA := o1, optionB := o2,
           optionC := o3, optionD := o4, correctAnswer := [upperAscii L],
           explanation := ex }] := by
  intro N stem o1 o2 o3 o4 L ex hN hNd hstem hstem10 ho1 ho1ne ho2 ho2ne ho3 ho3ne
    ho4 ho4ne hL hex hexne
  unfold parseMCQResponse
  rw [splitQuestions_tmpl hN hNd hstem ho1 ho2 ho3 ho4 hL hex]
  show List.filterMap (fun p => parseSegment p.1 p.2)
    [(N, bodyT stem o1 o2 o3 o4 L ex)] = _
  simp only [List.filterMap_cons, List.filterMap_nil]
  rw [parseSegment_bodyT hstem hstem10 ho1 ho1ne ho2 ho2ne ho3 ho3ne ho4 ho4ne hL
    hex hexne]

/-- Witness: a concrete instance of the documented template parses to
exactly the expected single record. -/
theorem mcq_template_single_record_witness :
    parseMCQResponse (tmpl ("7".toList) ("hijklmnopon".toList) ("mn".toList)
      ("no".toList) ("op".toList) ("pl".toList) 'B' ("fgh".toList)) =
      [{ id := natOfDigits ("7".toList), question := ("hijklmnopon".toList),
         optionA := ("mn".toList), optionB := ("no".toList),
         optionC := ("op".toList), optionD := ("pl".toList),
         correctAnswer := [upperAscii 'B'], explanation := ("fgh".toList) }] :=
  mcq_template_single_record ("7".toList) ("hijklmnopon".toList) ("mn".toList)
    ("no".toList) ("op".toList) ("pl".toList) 'B' ("fgh".toList)
    (by decide) (by decide) (by decide) (by decide) (by decide) (by decide)
    (by decide) (by decide) (by decide) (by decide) (by decide) (by decide)
    (by decide) (by decide) (by decide)

end Upsc
